import Mathlib

/-!
# libpacket: a shallow embedding of the layer-composition engine

The C sources (`stack.c`, `packet.c`, `ether.c`, `ipv4.c`, `udpv4.c` and
`Socket_inject` of `socket.c`) are translated function by function.

Conventions of the embedding

* A pointer is `Option Nat`: `none` is `NULL`, `some a` is the address `a`.
* The heap maps addresses to tagged objects.  Dereferencing an address that
  does not hold an object of the expected type is undefined behaviour in C;
  the embedded function then has no result (`none`).
* `malloc` succeeds while the allocator budget `avail` lasts; after that each
  call succeeds or returns `NULL` as the list `script` of the heap says, so
  that a failed allocation may be followed by a successful one.  Fields that a
  constructor leaves uninitialised are explicit `junk` parameters of the
  embedded constructor.
* `Protocol_create` has no `return` statement in the C source: the value its
  caller receives is indeterminate.  It is the parameter `ret` of
  `Protocol_create` and of every function that calls it, a function of the
  value that the callee returned.  `ret = id` is the build in which the caller
  receives that value; statements about the codecs, the stack and the packet
  are made over heaps and do not depend on `ret`.
* `unsigned int` and `int` are 32 bits wide: unsigned arithmetic is taken
  modulo `2 ^ 32`, a signed value converted to unsigned likewise.
* Loops over linked nodes take a `fuel` argument; running out of fuel gives
  no result.
* Byte buffers live in a byte memory `Bytes`, a function from addresses to
  byte values, so that writes outside the intended range stay observable.
* `printf` diagnostics are not modelled.
* The system call `sendto` is a parameter: a function from the calls made so
  far and the current call to the returned value.  `Socket_inject` returns the
  list of its `sendto` calls next to its result.
-/

namespace Libpacket

/-! ## Data model -/

/-- A C pointer: `none` is `NULL`. -/
abbrev Ptr := Option Nat

/-- Values of type `Protocol_getSizeFunc_t` that occur in the library. -/
inductive GetSizeFn where
  | EtherProto_getSize
  | Ipv4Proto_getSize
  | Udpv4Proto_getSize
  deriving DecidableEq, Repr

/-- Values of type `Protocol_getBitstreamFunc_t` that occur in the library. -/
inductive GetBitstreamFn where
  | EtherProto_getBitstream
  | Ipv4Proto_getBitstream
  | Udpv4Proto_getBitstream
  deriving DecidableEq, Repr

/-- The record `struct StackItem` of `stack.h`. -/
structure StackItem where
  prev : Ptr
  next : Ptr
  owner : Ptr
  deriving DecidableEq, Repr

/-- The record `struct Stack` of `stack.h`. -/
structure Stack where
  bottom : Ptr
  top : Ptr
  items : Nat
  owner : Ptr
  deriving DecidableEq, Repr

/-- The record `struct Protocol` of `packet.h`. -/
structure Protocol where
  getSize : Option GetSizeFn
  getBitstream : Option GetBitstreamFn
  item : Ptr
  owner : Ptr
  deriving DecidableEq, Repr

/-- The record `struct Packet` of `packet.h`. -/
structure Packet where
  stack : Ptr
  deriving DecidableEq, Repr

/-- The record `struct EtherProto` of `ether.h`. -/
structure EtherProto where
  proto_base : Ptr
  daddr : List Nat
  saddr : List Nat
  type : Nat
  deriving DecidableEq, Repr

/-- The record `struct Ipv4Proto` of `ipv4.h`. -/
structure Ipv4Proto where
  version : Nat
  hdr_length : Nat
  tos : Nat
  length : Nat
  id : Nat
  flags : Nat
  frag_off : Nat
  ttl : Nat
  proto : Nat
  checksum : Nat
  saddr : Nat
  daddr : Nat
  opts_padding : Ptr
  proto_base : Ptr
  deriving DecidableEq, Repr

/-- The record `struct Udpv4Proto` of `udpv4.h`. -/
structure Udpv4Proto where
  sport : Nat
  dport : Nat
  length : Nat
  checksum : Nat
  proto_base : Ptr
  deriving DecidableEq, Repr

/-- A heap object, tagged with its C type. -/
inductive Obj where
  | item (i : StackItem)
  | stack (s : Stack)
  | protocol (p : Protocol)
  | packet (p : Packet)
  | ether (e : EtherProto)
  | ipv4 (e : Ipv4Proto)
  | udpv4 (e : Udpv4Proto)
  deriving DecidableEq, Repr

/-- The heap: the objects, the next fresh address, the number of allocations
that succeed first, and the outcomes of the allocations after those (`true`
for a block, `false` for `NULL`). -/
structure Heap where
  mem : Nat → Option Obj
  brk : Nat
  avail : Nat
  script : List Bool := []

namespace Heap

/-- The heap at program start, on which the first `avail` allocations succeed
and every later one fails. -/
def init (avail : Nat) : Heap := ⟨fun _ => none, 0, avail, []⟩

/-- The heap at program start, on which the allocations succeed or fail as the
list says, in order, and fail when the list is used up. -/
def initScript (script : List Bool) : Heap := ⟨fun _ => none, 0, 0, script⟩

/-- The C library call `malloc`: a fresh address or `NULL`.  The first `avail`
calls succeed; after them each call takes its outcome from `script`, so that
a failed allocation can be followed by a successful one; when the script is
used up the call fails.  The new block holds no typed object until it is
stored to. -/
def malloc (h : Heap) : Ptr × Heap :=
  if h.avail = 0 then
    match h.script with
    | [] => (none, h)
    | true :: rest => (some h.brk, { h with brk := h.brk + 1, script := rest })
    | false :: rest => (none, { h with script := rest })
  else (some h.brk, { h with brk := h.brk + 1, avail := h.avail - 1 })

/-- Store an object at an address. -/
def store (h : Heap) (a : Nat) (o : Obj) : Heap :=
  { h with mem := fun b => if b = a then some o else h.mem b }

/-- The C library call `free`; `free(NULL)` does nothing. -/
def free (h : Heap) (p : Ptr) : Heap :=
  match p with
  | none => h
  | some a => { h with mem := fun b => if b = a then none else h.mem b }

/-- Read a `StackItem_t` through a pointer. -/
def getItem (h : Heap) (a : Nat) : Option StackItem :=
  match h.mem a with
  | some (.item i) => some i
  | _ => none

/-- Read a `Stack_t` through a pointer. -/
def getStack (h : Heap) (a : Nat) : Option Stack :=
  match h.mem a with
  | some (.stack s) => some s
  | _ => none

/-- Read a `Protocol_t` through a pointer. -/
def getProtocol (h : Heap) (a : Nat) : Option Protocol :=
  match h.mem a with
  | some (.protocol p) => some p
  | _ => none

/-- Read a `Packet_t` through a pointer. -/
def getPacket (h : Heap) (a : Nat) : Option Packet :=
  match h.mem a with
  | some (.packet p) => some p
  | _ => none

/-- Read an `EtherProto_t` through a pointer. -/
def getEther (h : Heap) (a : Nat) : Option EtherProto :=
  match h.mem a with
  | some (.ether e) => some e
  | _ => none

/-- Read an `Ipv4Proto_t` through a pointer. -/
def getIpv4 (h : Heap) (a : Nat) : Option Ipv4Proto :=
  match h.mem a with
  | some (.ipv4 e) => some e
  | _ => none

/-- Read a `Udpv4Proto_t` through a pointer. -/
def getUdpv4 (h : Heap) (a : Nat) : Option Udpv4Proto :=
  match h.mem a with
  | some (.udpv4 e) => some e
  | _ => none

/-- An assignment to members of a `StackItem_t` through a pointer. -/
def setItem (h : Heap) (a : Nat) (f : StackItem → StackItem) : Option Heap := do
  let i ← h.getItem a
  some (h.store a (.item (f i)))

/-- An assignment to members of a `Stack_t` through a pointer. -/
def setStack (h : Heap) (a : Nat) (f : Stack → Stack) : Option Heap := do
  let s ← h.getStack a
  some (h.store a (.stack (f s)))

/-- An assignment to members of a `Protocol_t` through a pointer. -/
def setProtocol (h : Heap) (a : Nat) (f : Protocol → Protocol) : Option Heap := do
  let p ← h.getProtocol a
  some (h.store a (.protocol (f p)))

/-- An assignment to members of an `Ipv4Proto_t` through a pointer. -/
def setIpv4 (h : Heap) (a : Nat) (f : Ipv4Proto → Ipv4Proto) : Option Heap := do
  let p ← h.getIpv4 a
  some (h.store a (.ipv4 (f p)))

end Heap

/-! ## Byte buffers -/

/-- Byte memory holding the destination buffers. -/
abbrev Bytes := Nat → Nat

/-- The constant `2 ^ 32`, the modulus of `unsigned int`. -/
def UINT_MOD : Nat := 4294967296

/-- The assignment `buf[i] = v` of a `uint8_t`. -/
def poke (m : Bytes) (a : Nat) (v : Nat) : Bytes :=
  fun b => if b = a then v % 256 else m b

/-- The C library call `memcpy (dst, src, n)` from a byte array. -/
def memcpy (m : Bytes) (dst : Nat) (src : List Nat) : Nat → Bytes
  | 0 => m
  | n + 1 => memcpy (poke m dst (src.headD 0)) (dst + 1) src.tail n

/-- The bytes of the buffer `[a, a + n)`. -/
def readBytes (m : Bytes) (a : Nat) : Nat → List Nat
  | 0 => []
  | n + 1 => m a :: readBytes m (a + 1) n

/-- The object representation of `htons (x)`: the 16-bit value in network
byte order, most significant byte first on every host. -/
def htons (x : Nat) : List Nat := [x / 256 % 256, x % 256]

/-- The object representation of `htonl (x)`: the 32-bit value in network
byte order. -/
def htonl (x : Nat) : List Nat :=
  [x / 16777216 % 256, x / 65536 % 256, x / 256 % 256, x % 256]

/-- The value of a C `int` converted to `unsigned int`. -/
def toUnsigned (r : Int) : Nat := (r % (UINT_MOD : Int)).toNat

/-! ## stack.c -/

/-- The constructor `StackItem_createWithParams` of `stack.c`. -/
def StackItem_createWithParams (h : Heap) (prev next owner : Ptr) : Ptr × Heap :=
  match h.malloc with
  | (none, h1) => (none, h1)
  | (some a, h1) => (some a, h1.store a (.item ⟨prev, next, owner⟩))

/-- The constructor `StackItem_create` of `stack.c`. -/
def StackItem_create (h : Heap) : Ptr × Heap :=
  StackItem_createWithParams h none none none

/-- The destructor `StackItem_delete` of `stack.c`. -/
def StackItem_delete (h : Heap) (item : Ptr) : Heap :=
  h.free item

/-- The setter `StackItem_setOwner` of `stack.c`. -/
def StackItem_setOwner (h : Heap) (item owner : Ptr) : Option (Int × Heap) :=
  match item, owner with
  | none, _ => some (0, h)
  | some _, none => some (0, h)
  | some a, some o => do
    let h1 ← h.setItem a (fun i => { i with owner := some o })
    some (1, h1)

/-- The getter `StackItem_getOwner` of `stack.c`. -/
def StackItem_getOwner (h : Heap) (item : Ptr) : Option Ptr :=
  match item with
  | none => some none
  | some a => do
    let i ← h.getItem a
    some i.owner

/-- The constructor `Stack_create` of `stack.c`.  The member `owner` is not
assigned and keeps the indeterminate content `junk` of the new block. -/
def Stack_create (h : Heap) (junk : Ptr) : Ptr × Heap :=
  match h.malloc with
  | (none, h1) => (none, h1)
  | (some a, h1) => (some a, h1.store a (.stack ⟨none, none, 0, junk⟩))

/-- The `for` loop of `Stack_itemExists`, started at `iter`. -/
def Stack_itemExists_loop : Nat → Heap → Ptr → Nat → Option Int
  | 0, _, _, _ => none
  | _ + 1, _, none, _ => some 0
  | fuel + 1, h, some iter, item =>
    if iter = item then some 1
    else do
      let i ← h.getItem iter
      Stack_itemExists_loop fuel h i.next item

/-- The query `Stack_itemExists` of `stack.c`. -/
def Stack_itemExists (fuel : Nat) (h : Heap) (stack item : Ptr) : Option Int :=
  match stack, item with
  | none, _ => some 0
  | some _, none => some 0
  | some s, some i => do
    let st ← h.getStack s
    if st.items = 0 then some 0
    else Stack_itemExists_loop fuel h st.bottom i

/-- The operation `Stack_push` of `stack.c`. -/
def Stack_push (fuel : Nat) (h : Heap) (stack item : Ptr) : Option (Int × Heap) :=
  match stack, item with
  | none, _ => some (0, h)
  | some _, none => some (0, h)
  | some s, some i => do
    let ex ← Stack_itemExists fuel h (some s) (some i)
    if ex ≠ 0 then some (0, h)
    else do
      let st ← h.getStack s
      let h3 ←
        if st.items = 0 then do
          let h1 ← h.setItem i (fun it => { it with prev := none })
          h1.setStack s (fun st => { st with bottom := some i, top := some i })
        else do
          let h1 ← h.setItem i (fun it => { it with prev := st.top })
          let st1 ← h1.getStack s
          let t ← st1.top
          let h2 ← h1.setItem t (fun it => { it with next := some i })
          h2.setStack s (fun st => { st with top := some i })
      let h4 ← h3.setItem i (fun it => { it with next := none })
      let h5 ← h4.setStack s (fun st => { st with items := (st.items + 1) % UINT_MOD })
      some (1, h5)

/-- The operation `Stack_pop` of `stack.c`. -/
def Stack_pop (h : Heap) (stack : Ptr) : Option (Ptr × Heap) :=
  match stack with
  | none => some (none, h)
  | some s => do
    let st ← h.getStack s
    if st.items = 0 then some (none, h)
    else do
      let item ← st.top
      let it ← h.getItem item
      let h1 ← h.setStack s (fun st => { st with top := it.prev })
      let st1 ← h1.getStack s
      let h2 ←
        if st1.items > 1 then do
          let t ← st1.top
          h1.setItem t (fun it => { it with next := none })
        else some h1
      let h3 ← h2.setStack s (fun st => { st with items := st.items - 1 })
      some (some item, h3)

/-- The query `Stack_numItems` of `stack.c`. -/
def Stack_numItems (h : Heap) (stack : Ptr) : Option Nat :=
  match stack with
  | none => some 0
  | some s => do
    let st ← h.getStack s
    some st.items

/-- The setter `Stack_setOwner` of `stack.c`. -/
def Stack_setOwner (h : Heap) (stack owner : Ptr) : Option (Int × Heap) :=
  match stack with
  | none => some (-1, h)
  | some s => do
    let h1 ← h.setStack s (fun st => { st with owner := owner })
    some (0, h1)

/-- The getter `Stack_getOwner` of `stack.c`. -/
def Stack_getOwner (h : Heap) (stack : Ptr) : Option Ptr :=
  match stack with
  | none => some none
  | some s => do
    let st ← h.getStack s
    some st.owner

/-! ## packet.c: Protocol -/

/-- The constructor `Protocol_createWithParams` of `packet.c`.  The members
`getSize`, `getBitstream` and `owner` are assigned `NULL`, whatever the
arguments. -/
def Protocol_createWithParams (h : Heap) (_getSize : Option GetSizeFn)
    (_getBitstream : Option GetBitstreamFn) (item : Ptr) (_owner : Ptr) :
    Option (Ptr × Heap) :=
  match h.malloc with
  | (none, h1) => some (none, h1)
  | (some proto, h1) => do
    let (_, h2) ← StackItem_setOwner h1 item (some proto)
    some (some proto, h2.store proto (.protocol ⟨none, none, item, none⟩))

/-- The constructor `Protocol_create` of `packet.c`.  The C body calls
`Protocol_createWithParams` and ends without a `return` statement, so the value
that the caller receives is indeterminate.  It is the parameter `ret`, applied
to the value that the call returned: `ret = id` is a build in which the
caller happens to receive that value, `ret = fun _ => none` one in which it
receives `NULL`. -/
def Protocol_create (ret : Ptr → Ptr) (h : Heap) : Option (Ptr × Heap) :=
  let (item, h1) := StackItem_create h
  match Protocol_createWithParams h1 none none item none with
  | none => none
  | some r => some (ret r.1, r.2)

/-- The destructor `Protocol_delete` of `packet.c`. -/
def Protocol_delete (h : Heap) (proto : Ptr) : Option Heap :=
  match proto with
  | none => some (h.free none)
  | some a => do
    let p ← h.getProtocol a
    some ((StackItem_delete h p.item).free (some a))

/-- The setter `Protocol_setItem` of `packet.c`. -/
def Protocol_setItem (h : Heap) (proto item : Ptr) : Option (Int × Heap) :=
  match proto with
  | none => some (0, h)
  | some a => do
    let h1 ← h.setProtocol a (fun p => { p with item := item })
    some (1, h1)

/-- The getter `Protocol_getItem` of `packet.c`. -/
def Protocol_getItem (h : Heap) (proto : Ptr) : Option Ptr :=
  match proto with
  | none => some none
  | some a => do
    let p ← h.getProtocol a
    some p.item

/-- The setter `Protocol_setOwner` of `packet.c`. -/
def Protocol_setOwner (h : Heap) (proto owner : Ptr) : Option (Int × Heap) :=
  match proto, owner with
  | none, _ => some (0, h)
  | some _, none => some (0, h)
  | some a, some o => do
    let h1 ← h.setProtocol a (fun p => { p with owner := some o })
    some (1, h1)

/-- The getter `Protocol_getOwner` of `packet.c`. -/
def Protocol_getOwner (h : Heap) (proto : Ptr) : Option Ptr :=
  match proto with
  | none => some none
  | some a => do
    let p ← h.getProtocol a
    some p.owner

/-- The setter `Protocol_setGetSize` of `packet.c`. -/
def Protocol_setGetSize (h : Heap) (proto : Ptr) (func : Option GetSizeFn) :
    Option (Int × Heap) :=
  match proto, func with
  | some a, some f => do
    let h1 ← h.setProtocol a (fun p => { p with getSize := some f })
    some (0, h1)
  | _, _ => some (-1, h)

/-- The getter `Protocol_getGetSize` of `packet.c`. -/
def Protocol_getGetSize (h : Heap) (proto : Ptr) : Option (Option GetSizeFn) :=
  match proto with
  | none => some none
  | some a => do
    let p ← h.getProtocol a
    some p.getSize

/-- The setter `Protocol_setGetBitstream` of `packet.c`. -/
def Protocol_setGetBitstream (h : Heap) (proto : Ptr) (func : Option GetBitstreamFn) :
    Option (Int × Heap) :=
  match proto, func with
  | some a, some f => do
    let h1 ← h.setProtocol a (fun p => { p with getBitstream := some f })
    some (0, h1)
  | _, _ => some (-1, h)

/-- The getter `Protocol_getGetBitstream` of `packet.c`. -/
def Protocol_getGetBitstream (h : Heap) (proto : Ptr) : Option (Option GetBitstreamFn) :=
  match proto with
  | none => some none
  | some a => do
    let p ← h.getProtocol a
    some p.getBitstream

/-! ## ether.c -/

/-- The macro `ADDR_LEN` of `ether.h`. -/
def ADDR_LEN : Nat := 6

/-- The macro `IPV4_TYPE` of `ether.c`. -/
def IPV4_TYPE : Nat := 0x0800

/-- The macro `ETHER_HEADER_LEN` of `ether.c`. -/
def ETHER_HEADER_LEN : Nat := 14

/-- The constructor `EtherProto_create` of `ether.c`; `ret` gives the value
that its call of `Protocol_create` hands back. -/
def EtherProto_create (ret : Ptr → Ptr) (h : Heap) : Option (Ptr × Heap) :=
  match h.malloc with
  | (none, h1) => some (none, h1)
  | (some proto, h1) => do
    let (proto_base, h2) ← Protocol_create ret h1
    match proto_base with
    | none => some (none, h2.free (some proto))
    | some b => do
      let h3 ← h2.setProtocol b (fun p => { p with getSize := some .EtherProto_getSize })
      let h4 ← h3.setProtocol b
        (fun p => { p with getBitstream := some .EtherProto_getBitstream })
      let (ok, h5) ← Protocol_setOwner h4 (some b) (some proto)
      if ok = 0 then do
        let h6 ← Protocol_delete h5 (some b)
        some (none, h6.free (some proto))
      else
        some (some proto, h5.store proto (.ether
          ⟨some b, [0x00, 0x01, 0x02, 0x03, 0x04, 0x05],
            [0x06, 0x07, 0x08, 0x09, 0x0a, 0x0b], IPV4_TYPE⟩))

/-- The destructor `EtherProto_delete` of `ether.c`. -/
def EtherProto_delete (h : Heap) (proto : Ptr) : Option Heap :=
  match proto with
  | none => some (h.free none)
  | some a => do
    let e ← h.getEther a
    let h1 ← Protocol_delete h e.proto_base
    some (h1.free (some a))

/-- The function `EtherProto_getSize` of `ether.c`. -/
def EtherProto_getSize (_proto : Ptr) : Nat := ETHER_HEADER_LEN

/-- The function `EtherProto_getBitstream` of `ether.c`. -/
def EtherProto_getBitstream (h : Heap) (proto : Ptr) (m : Bytes) (buf : Ptr) (size : Nat) :
    Option (Int × Bytes) :=
  if size < ETHER_HEADER_LEN then some (ETHER_HEADER_LEN, m)
  else do
    let a ← proto
    let e ← h.getEther a
    let b ← buf
    let type := htons e.type
    let m1 := memcpy m b e.daddr ADDR_LEN
    let m2 := memcpy m1 (b + ADDR_LEN) e.saddr ADDR_LEN
    let m3 := memcpy m2 (b + ADDR_LEN * 2) type 2
    some (ETHER_HEADER_LEN, m3)

/-- The getter `EtherProto_getProtoBase` of `ether.c`. -/
def EtherProto_getProtoBase (h : Heap) (proto : Ptr) : Option Ptr :=
  match proto with
  | none => some none
  | some a => do
    let e ← h.getEther a
    some e.proto_base

/-! ## ipv4.c -/

/-- The constructor `Ipv4Proto_create` of `ipv4.c`.  The member `proto` is not
assigned and keeps the indeterminate content `junk` of the new block; `ret`
gives the value that its call of `Protocol_create` hands back. -/
def Ipv4Proto_create (ret : Ptr → Ptr) (h : Heap) (junk : Nat) : Option (Ptr × Heap) :=
  match h.malloc with
  | (none, h1) => some (none, h1)
  | (some proto, h1) => do
    let (proto_base, h2) ← Protocol_create ret h1
    match proto_base with
    | none => some (none, h2.free (some proto))
    | some b => do
      let hdr : Ipv4Proto :=
        { version := 4, hdr_length := 5, tos := 0, length := 20, id := 42, flags := 0,
          frag_off := 0, ttl := 64, proto := junk, checksum := 0x1234, saddr := 0x11223344,
          daddr := 0x55667788, opts_padding := none, proto_base := some b }
      let h3 ← h2.setProtocol b (fun p => { p with getSize := some .Ipv4Proto_getSize })
      let h4 ← h3.setProtocol b
        (fun p => { p with getBitstream := some .Ipv4Proto_getBitstream })
      let (ok, h5) ← Protocol_setOwner h4 (some b) (some proto)
      if ok = 0 then do
        let h6 ← Protocol_delete h5 (some b)
        some (none, h6.free (some proto))
      else
        some (some proto, h5.store proto (.ipv4 hdr))

/-- The destructor `Ipv4Proto_delete` of `ipv4.c`. -/
def Ipv4Proto_delete (h : Heap) (proto : Ptr) : Option Heap :=
  match proto with
  | none => some (h.free none)
  | some a => do
    let e ← h.getIpv4 a
    some ((h.free e.proto_base).free (some a))

/-- The function `Ipv4Proto_getSize` of `ipv4.c`. -/
def Ipv4Proto_getSize (_proto : Ptr) : Nat := 20

/-- The function `Ipv4Proto_getBitstream` of `ipv4.c`. -/
def Ipv4Proto_getBitstream (h : Heap) (proto : Ptr) (m : Bytes) (buf : Ptr) (_size : Nat) :
    Option (Int × Bytes) := do
  let a ← proto
  let e ← h.getIpv4 a
  let length := htons e.length
  let id := htons e.id
  let checksum := htons e.checksum
  let saddr := htonl e.saddr
  let daddr := htonl e.daddr
  let b ← buf
  let m0 := poke m b ((e.version <<< 4) ||| e.hdr_length)
  let m1 := poke m0 (b + 1) e.tos
  let m2 := memcpy m1 (b + 2) length 2
  let m4 := memcpy m2 (b + 4) id 2
  let m6 := poke m4 (b + 6) ((e.flags <<< 5) ||| (e.frag_off >>> 11))
  let m7 := poke m6 (b + 7) (e.frag_off &&& 0x1f)
  let m8 := poke m7 (b + 8) e.ttl
  let m9 := poke m8 (b + 9) e.proto
  let m10 := memcpy m9 (b + 10) checksum 2
  let m12 := memcpy m10 (b + 12) saddr 4
  let m16 := memcpy m12 (b + 16) daddr 4
  some (20, m16)

/-- The getter `Ipv4Proto_getProtoBase` of `ipv4.c`; it does not test its
argument. -/
def Ipv4Proto_getProtoBase (h : Heap) (proto : Ptr) : Option Ptr := do
  let a ← proto
  let e ← h.getIpv4 a
  some e.proto_base

/-- The setter `Ipv4Proto_setLength` of `ipv4.c`. -/
def Ipv4Proto_setLength (h : Heap) (proto : Ptr) (length : Nat) : Option (Int × Heap) :=
  match proto with
  | none => some (-1, h)
  | some a => do
    let h1 ← h.setIpv4 a (fun e => { e with length := length })
    some (0, h1)

/-- The getter `Ipv4Proto_getLength` of `ipv4.c`. -/
def Ipv4Proto_getLength (h : Heap) (proto : Ptr) : Option Nat :=
  match proto with
  | none => some 0
  | some a => do
    let e ← h.getIpv4 a
    some e.length

/-- The setter `Ipv4Proto_setProtocol` of `ipv4.c`. -/
def Ipv4Proto_setProtocol (h : Heap) (proto : Ptr) (proto_num : Nat) : Option (Int × Heap) :=
  match proto with
  | none => some (-1, h)
  | some a => do
    let h1 ← h.setIpv4 a (fun e => { e with proto := proto_num })
    some (0, h1)

/-- The getter `Ipv4Proto_getProtocol` of `ipv4.c`. -/
def Ipv4Proto_getProtocol (h : Heap) (proto : Ptr) : Option Nat :=
  match proto with
  | none => some 0
  | some a => do
    let e ← h.getIpv4 a
    some e.proto

/-! ## udpv4.c -/

/-- The macro `UDPV4_HEADER_LEN` of `udpv4.h`. -/
def UDPV4_HEADER_LEN : Nat := 8

/-- The constructor `Udpv4Proto_createWithParams` of `udpv4.c`. -/
def Udpv4Proto_createWithParams (h : Heap) (sport dport length checksum : Nat)
    (proto_base : Ptr) : Option (Ptr × Heap) :=
  match h.malloc with
  | (none, h1) => some (none, h1)
  | (some proto, h1) => do
    let h4 ←
      match proto_base with
      | none => some h1
      | some b => do
        let (_, h2) ← Protocol_setOwner h1 (some b) (some proto)
        let (_, h3) ← Protocol_setGetSize h2 (some b) (some .Udpv4Proto_getSize)
        let (_, h4) ← Protocol_setGetBitstream h3 (some b) (some .Udpv4Proto_getBitstream)
        some h4
    some (some proto, h4.store proto (.udpv4 ⟨sport, dport, length, checksum, proto_base⟩))

/-- The constructor `Udpv4Proto_create` of `udpv4.c`; `ret` gives the value
that its call of `Protocol_create` hands back. -/
def Udpv4Proto_create (ret : Ptr → Ptr) (h : Heap) : Option (Ptr × Heap) := do
  let (proto_base, h1) ← Protocol_create ret h
  Udpv4Proto_createWithParams h1 0 0 UDPV4_HEADER_LEN 0 proto_base

/-- The function `Udpv4Proto_getSize` of `udpv4.c`. -/
def Udpv4Proto_getSize (_proto : Ptr) : Nat := UDPV4_HEADER_LEN

/-- The function `Udpv4Proto_getBitstream` of `udpv4.c`.  The local `res` is
initialised to `-1` and never assigned again. -/
def Udpv4Proto_getBitstream (h : Heap) (proto : Ptr) (m : Bytes) (buf : Ptr) (size : Nat) :
    Option (Int × Bytes) :=
  match proto, buf with
  | none, _ => some (-1, m)
  | some _, none => some (-1, m)
  | some a, some b =>
    if size < UDPV4_HEADER_LEN then some (-1, m)
    else do
      let e ← h.getUdpv4 a
      let sport := htons e.sport
      let dport := htons e.dport
      let length := htons e.length
      let checksum := htons e.checksum
      let m1 := memcpy m b sport 2
      let m2 := memcpy m1 (b + 2) dport 2
      let m3 := memcpy m2 (b + 4) length 2
      let m4 := memcpy m3 (b + 6) checksum 2
      some (-1, m4)

/-- The getter `Udpv4Proto_getProtoBase` of `udpv4.c`. -/
def Udpv4Proto_getProtoBase (h : Heap) (proto : Ptr) : Option Ptr :=
  match proto with
  | none => some none
  | some a => do
    let e ← h.getUdpv4 a
    some e.proto_base

/-! ## packet.c: Packet -/

/-- A call through a `Protocol_getSizeFunc_t` function pointer. -/
def callGetSize (f : GetSizeFn) (arg : Ptr) : Nat :=
  match f with
  | .EtherProto_getSize => EtherProto_getSize arg
  | .Ipv4Proto_getSize => Ipv4Proto_getSize arg
  | .Udpv4Proto_getSize => Udpv4Proto_getSize arg

/-- A call through a `Protocol_getBitstreamFunc_t` function pointer. -/
def callGetBitstream (f : GetBitstreamFn) (h : Heap) (arg : Ptr) (m : Bytes) (buf : Ptr)
    (size : Nat) : Option (Int × Bytes) :=
  match f with
  | .EtherProto_getBitstream => EtherProto_getBitstream h arg m buf size
  | .Ipv4Proto_getBitstream => Ipv4Proto_getBitstream h arg m buf size
  | .Udpv4Proto_getBitstream => Udpv4Proto_getBitstream h arg m buf size

/-- The constructor `Packet_createWithParams` of `packet.c`. -/
def Packet_createWithParams (h : Heap) (stack : Ptr) : Option (Ptr × Heap) :=
  match h.malloc with
  | (none, h1) => some (none, h1)
  | (some pack, h1) => do
    let (r, h2) ← Stack_setOwner h1 stack (some pack)
    if r ≠ 0 then some (none, h2.free (some pack))
    else some (some pack, h2.store pack (.packet ⟨stack⟩))

/-- The constructor `Packet_create` of `packet.c`; `junk` is the indeterminate
content that `Stack_create` leaves in the member `owner`. -/
def Packet_create (h : Heap) (junk : Ptr) : Option (Ptr × Heap) :=
  let (stack, h1) := Stack_create h junk
  Packet_createWithParams h1 stack

/-- The operation `Packet_stack` of `packet.c`. -/
def Packet_stack (fuel : Nat) (h : Heap) (pack proto : Ptr) : Option (Int × Heap) :=
  match pack with
  | none => some (0, h)
  | some pa => do
    let pk ← h.getPacket pa
    match pk.stack, proto with
    | none, _ => some (0, h)
    | some _, none => some (0, h)
    | some s, some p => do
      let item ← Protocol_getItem h (some p)
      Stack_push fuel h (some s) item

/-- The `for` loop of `Packet_getSize`, started at `iter` with the running
`total_size`. -/
def Packet_getSize_loop : Nat → Heap → Ptr → Nat → Option Nat
  | 0, _, _, _ => none
  | _ + 1, _, none, total_size => some total_size
  | fuel + 1, h, some iter, total_size => do
    let proto ← StackItem_getOwner h (some iter)
    let total_size1 ←
      match proto with
      | some pa => do
        let p ← h.getProtocol pa
        let f ← p.getSize
        some ((total_size + callGetSize f proto) % UINT_MOD)
      | none => some total_size
    let i ← h.getItem iter
    Packet_getSize_loop fuel h i.next total_size1

/-- The function `Packet_getSize` of `packet.c`. -/
def Packet_getSize (fuel : Nat) (h : Heap) (pack : Ptr) : Option Nat :=
  match pack with
  | none => some 0
  | some pa => do
    let pk ← h.getPacket pa
    match pk.stack with
    | none => some 0
    | some s => do
      let stack ← h.getStack s
      Packet_getSize_loop fuel h stack.bottom 0

/-- The `for` loop of `Packet_getBitstream`, started at `iter` with the
running `current_offset`; the result carries the final offset. -/
def Packet_getBitstream_loop : Nat → Heap → Ptr → Bytes → Nat → Nat → Nat →
    Option (Nat × Bytes)
  | 0, _, _, _, _, _, _ => none
  | _ + 1, _, none, m, _, _, current_offset => some (current_offset, m)
  | fuel + 1, h, some iter, m, buf, size, current_offset => do
    let proto ← StackItem_getOwner h (some iter)
    let (current_offset1, m1) ←
      match proto with
      | some pa => do
        let p ← h.getProtocol pa
        let f ← p.getBitstream
        let owner ← Protocol_getOwner h proto
        let (r, m1) ← callGetBitstream f h owner m (some (buf + current_offset))
          ((size + UINT_MOD - current_offset) % UINT_MOD)
        some ((current_offset + toUnsigned r) % UINT_MOD, m1)
      | none => some (current_offset, m)
    let i ← h.getItem iter
    Packet_getBitstream_loop fuel h i.next m1 buf size current_offset1

/-- The function `Packet_getBitstream` of `packet.c`.  The local `ok` is
initialised to `0` and never assigned again. -/
def Packet_getBitstream (fuel : Nat) (h : Heap) (pack : Ptr) (m : Bytes) (buf : Ptr)
    (size : Nat) : Option (Int × Bytes) :=
  match pack with
  | none => some (0, m)
  | some pa => do
    let pk ← h.getPacket pa
    match pk.stack, buf with
    | none, _ => some (0, m)
    | some _, none => some (0, m)
    | some s, some b => do
      let total ← Packet_getSize fuel h pack
      if size < total then some (0, m)
      else do
        let stack ← h.getStack s
        let (_, m1) ← Packet_getBitstream_loop fuel h stack.bottom m b size 0
        some (0, m1)

/-! ## The example program `examples/p1.c` -/

/-- The pointers held by `main` in `p1.c`. -/
structure P1 where
  pack : Ptr
  ether : Ptr
  ipv4 : Ptr
  udpv4 : Ptr

/-- The packet and header constructor calls of `main` in `p1.c`; a
constructor that returns `NULL` ends the program.  The socket, which `main`
creates first, is no part of the packet and is left out.  `ret` gives the
value that each call of `Protocol_create` hands back. -/
def p1_create (ret : Ptr → Ptr) (h : Heap) (junkOwner : Ptr) (junkProto : Nat) :
    Option (P1 × Heap) := do
  let r1 ← Packet_create h junkOwner
  if r1.1 = none then none
  else do
    let r2 ← EtherProto_create ret r1.2
    if r2.1 = none then none
    else do
      let r3 ← Ipv4Proto_create ret r2.2 junkProto
      if r3.1 = none then none
      else do
        let r4 ← Udpv4Proto_create ret r3.2
        if r4.1 = none then none
        else some (⟨r1.1, r2.1, r3.1, r4.1⟩, r4.2)

/-- The three `Packet_stack` calls and the two setter calls of `main` in
`p1.c`; the return values are discarded as in the source. -/
def p1_stack (fuel : Nat) (h : Heap) (v : P1) : Option Heap := do
  let eb ← EtherProto_getProtoBase h v.ether
  let r5 ← Packet_stack fuel h v.pack eb
  let ib ← Ipv4Proto_getProtoBase r5.2 v.ipv4
  let r6 ← Packet_stack fuel r5.2 v.pack ib
  let ub ← Udpv4Proto_getProtoBase r6.2 v.udpv4
  let r7 ← Packet_stack fuel r6.2 v.pack ub
  let r8 ← Ipv4Proto_setProtocol r7.2 v.ipv4 17
  let r9 ← Ipv4Proto_setLength r8.2 v.ipv4 28
  some r9.2

/-- The packet built by `main` in `p1.c`, with the heap that holds it; `ret`
gives the value that each call of `Protocol_create` hands back. -/
def p1_build (ret : Ptr → Ptr) (fuel : Nat) (h : Heap) (junkOwner : Ptr) (junkProto : Nat) :
    Option (Ptr × Heap) := do
  let r ← p1_create ret h junkOwner junkProto
  let h1 ← p1_stack fuel r.2 r.1
  some (r.1.pack, h1)

/-! ## Packets built from a list of layers -/

/-- The three header kinds; an IPv4 layer carries the indeterminate content
that its constructor leaves in the member `proto`. -/
inductive Layer where
  | ether
  | ipv4 (junk : Nat)
  | udpv4
  deriving DecidableEq, Repr

namespace Layer

/-- The constructor of the header kind; `ret` gives the value that its call
of `Protocol_create` hands back. -/
def create (k : Layer) (ret : Ptr → Ptr) (h : Heap) : Option (Ptr × Heap) :=
  match k with
  | .ether => EtherProto_create ret h
  | .ipv4 junk => Ipv4Proto_create ret h junk
  | .udpv4 => Udpv4Proto_create ret h

/-- The `getProtoBase` getter of the header kind. -/
def getProtoBase (k : Layer) (h : Heap) (hdr : Ptr) : Option Ptr :=
  match k with
  | .ether => EtherProto_getProtoBase h hdr
  | .ipv4 _ => Ipv4Proto_getProtoBase h hdr
  | .udpv4 => Udpv4Proto_getProtoBase h hdr

/-- The `getSize` function of the header kind, applied to a header. -/
def getSize (k : Layer) (hdr : Ptr) : Nat :=
  match k with
  | .ether => EtherProto_getSize hdr
  | .ipv4 _ => Ipv4Proto_getSize hdr
  | .udpv4 => Udpv4Proto_getSize hdr

/-- The `getBitstream` function of the header kind, applied to a header. -/
def getBitstream (k : Layer) (h : Heap) (hdr : Ptr) (m : Bytes) (buf : Ptr) (size : Nat) :
    Option (Int × Bytes) :=
  match k with
  | .ether => EtherProto_getBitstream h hdr m buf size
  | .ipv4 _ => Ipv4Proto_getBitstream h hdr m buf size
  | .udpv4 => Udpv4Proto_getBitstream h hdr m buf size

end Layer

/-- Create one header per entry of the list, in order; a constructor that
returns `NULL` ends the run, as in `p1.c`.  `ret` gives the value that each
call of `Protocol_create` hands back. -/
def createLayers (ret : Ptr → Ptr) (h : Heap) :
    List Layer → Option (List (Layer × Ptr) × Heap)
  | [] => some ([], h)
  | k :: rest => do
    let r ← k.create ret h
    if r.1 = none then none
    else do
      let rs ← createLayers ret r.2 rest
      some ((k, r.1) :: rs.1, rs.2)

/-- Call `Packet_stack (pack, getProtoBase (hdr))` for each header of the
list, in order; the results of the calls are collected. -/
def stackLayers (fuel : Nat) (h : Heap) (pack : Ptr) :
    List (Layer × Ptr) → Option (List Int × Heap)
  | [] => some ([], h)
  | (k, hdr) :: rest => do
    let b ← k.getProtoBase h hdr
    let r ← Packet_stack fuel h pack b
    let rs ← stackLayers fuel r.2 pack rest
    some (r.1 :: rs.1, rs.2)

/-- The result of `buildPacket`: the packet, the headers in stacking order,
the values returned by the `Packet_stack` calls and the final heap. -/
structure Built where
  pack : Ptr
  hdrs : List (Layer × Ptr)
  rets : List Int
  heap : Heap

/-- A freshly created packet onto which one new header per entry of the list
is stacked, in the order of the list: `Packet_create`, the constructors, then
the `Packet_stack` calls, in the order of `main` in `p1.c`.  `ret` gives the
value that each call of `Protocol_create` hands back. -/
def buildPacket (ret : Ptr → Ptr) (fuel : Nat) (h : Heap) (junkOwner : Ptr)
    (layers : List Layer) :
    Option Built := do
  let r ← Packet_create h junkOwner
  if r.1 = none then none
  else do
    let ls ← createLayers ret r.2 layers
    let st ← stackLayers fuel ls.2 r.1 ls.1
    some ⟨r.1, ls.1, st.1, st.2⟩

/-- The wire bytes of each header, produced by the header's own
`getBitstream` into a scratch buffer of exactly its size, concatenated in
list order. -/
def layerBytes (h : Heap) : List (Layer × Ptr) → Option (List Nat)
  | [] => some []
  | (k, hdr) :: rest => do
    let r ← k.getBitstream h hdr (fun _ => 0) (some 0) (k.getSize hdr)
    let bs ← layerBytes h rest
    some (readBytes r.2 0 (k.getSize hdr) ++ bs)

/-! ## Linked nodes -/

/-- The nodes reached from pointer `p` by following `next` links are exactly
the addresses of the list, in order, and the last `next` link is `NULL`. -/
def Seg (h : Heap) : Ptr → List Nat → Prop
  | p, [] => p = none
  | p, a :: rest => p = some a ∧ ∃ it, h.getItem a = some it ∧ Seg h it.next rest

/-- The contribution of one node to `Packet_getSize`: the size function of
the owning `Protocol_t`, nothing for a node without owner.  `none` when the
loop body would fault. -/
def nodeSize (h : Heap) (a : Nat) : Option Nat := do
  let it ← h.getItem a
  match it.owner with
  | none => some 0
  | some pa => do
    let p ← h.getProtocol pa
    let f ← p.getSize
    some (callGetSize f (some pa))

/-- The value registered as `getSize` by the constructor of the header kind. -/
def Layer.sizeFn : Layer → GetSizeFn
  | .ether => .EtherProto_getSize
  | .ipv4 _ => .Ipv4Proto_getSize
  | .udpv4 => .Udpv4Proto_getSize

/-- The value registered as `getBitstream` by the constructor of the header
kind. -/
def Layer.bitstreamFn : Layer → GetBitstreamFn
  | .ether => .EtherProto_getBitstream
  | .ipv4 _ => .Ipv4Proto_getBitstream
  | .udpv4 => .Udpv4Proto_getBitstream

/-- A fully constructed layer: the header at `hdr` refers to the `Protocol_t`
at `pb`, which carries the codec's functions, the header as owner and the
node `i`, whose owner is the `Protocol_t`. -/
def LayerOK (h : Heap) (k : Layer) (hdr pb i : Nat) : Prop :=
  k.getProtoBase h (some hdr) = some (some pb) ∧
  h.getProtocol pb = some ⟨some k.sizeFn, some k.bitstreamFn, some i, some hdr⟩ ∧
  ∃ it, h.getItem i = some it ∧ it.owner = some pb

/-! ## Reference values used in the statements -/

/-- The fixed wire size of each header kind, as stated in the specification:
14 for the link layer, 20 for the network layer, 8 for the transport layer. -/
def Layer.fixedSize : Layer → Nat
  | .ether => 14
  | .ipv4 _ => 20
  | .udpv4 => 8

/-- The sum of the fixed sizes of a list of layers. -/
def totalSize (layers : List Layer) : Nat := (layers.map Layer.fixedSize).sum

/-- The 20 bytes of a default IPv4 header with total length `l` and
upper-protocol number `p`, as listed in the specification. -/
def ipv4Expected (l p : Nat) : List Nat :=
  [0x45, 0x00, l / 256, l % 256, 0x00, 0x2a, 0x00, 0x00, 0x40, p, 0x12, 0x34,
    0x11, 0x22, 0x33, 0x44, 0x55, 0x66, 0x77, 0x88]

/-- An IPv4 header record with the constructor's defaults except for the
given flags and fragment offset. -/
def ipv4WithFrag (flags frag_off : Nat) : Ipv4Proto :=
  { version := 4, hdr_length := 5, tos := 0, length := 20, id := 42, flags := flags,
    frag_off := frag_off, ttl := 64, proto := 17, checksum := 0x1234, saddr := 0x11223344,
    daddr := 0x55667788, opts_padding := none, proto_base := none }

/-- The 42 bytes that the example program `p1.c` hands to the socket, as
listed in the specification: Ethernet, IPv4, UDP. -/
def p1_expected : List Nat :=
  [0x00, 0x01, 0x02, 0x03, 0x04, 0x05, 0x06, 0x07, 0x08, 0x09, 0x0a, 0x0b, 0x08, 0x00,
   0x45, 0x00, 0x00, 0x1c, 0x00, 0x2a, 0x00, 0x00, 0x40, 0x11, 0x12, 0x34,
   0x11, 0x22, 0x33, 0x44, 0x55, 0x66, 0x77, 0x88,
   0x00, 0x00, 0x00, 0x00, 0x00, 0x08, 0x00, 0x00]

/-! ## Observing and driving a stack -/

/-- The nodes visited by the loop
`for (iter = p; iter != NULL; iter = iter->next)`, which is how
`Packet_getSize` and `Stack_delete` go through a stack from `bottom`. -/
def walk : Nat → Heap → Ptr → Option (List Nat)
  | 0, _, _ => none
  | _ + 1, _, none => some []
  | fuel + 1, h, some iter => do
    let i ← h.getItem iter
    let rest ← walk fuel h i.next
    some (iter :: rest)

/-- The nodes reached by following `next` links from `stack->bottom`. -/
def Stack_nodes (fuel : Nat) (h : Heap) (stack : Nat) : Option (List Nat) := do
  let st ← h.getStack stack
  walk fuel h st.bottom

/-- The `prev` links of the nodes of the list: the first points to `p`, each
other one to its predecessor in the list. -/
def Prevs (h : Heap) : Ptr → List Nat → Prop
  | _, [] => True
  | p, a :: rest => (∃ it, h.getItem a = some it ∧ it.prev = p) ∧ Prevs h (some a) rest

/-- A well-formed stack holding the nodes `its`, first pushed first: the
count is the number of nodes and fits an `unsigned int`, no node occurs
twice, `top` is the last node (`NULL` when there is none), and when there is a
node, `bottom` is the first one and the `next` and `prev` links chain the
nodes in order.  Nothing is asked of `bottom` when the stack is empty. -/
def WFStack (h : Heap) (s : Nat) (its : List Nat) : Prop :=
  ∃ st, h.getStack s = some st ∧ st.items = its.length ∧ its.length < UINT_MOD ∧
    its.Nodup ∧ st.top = its.getLast? ∧ (its ≠ [] → Seg h st.bottom its) ∧ Prevs h none its

/-- A stack as `Stack_create` leaves it: no bottom, no top, no items. -/
def FreshStack (h : Heap) (s : Nat) : Prop :=
  ∃ o, h.getStack s = some ⟨none, none, 0, o⟩

/-- A call on a stack. -/
inductive StackOp where
  | push (item : Ptr)
  | pop
  deriving DecidableEq, Repr

/-- The value returned by a call on a stack. -/
inductive StackRes where
  | pushed (ret : Int)
  | popped (item : Ptr)
  deriving DecidableEq, Repr

/-- One call of `Stack_push` or `Stack_pop`. -/
def runOp (fuel : Nat) (h : Heap) (stack : Ptr) : StackOp → Option (StackRes × Heap)
  | .push item => do
    let r ← Stack_push fuel h stack item
    some (.pushed r.1, r.2)
  | .pop => do
    let r ← Stack_pop h stack
    some (.popped r.1, r.2)

/-- A sequence of `Stack_push` and `Stack_pop` calls on one stack, with the
values they return. -/
def runOps (fuel : Nat) : Heap → Ptr → List StackOp → Option (List StackRes × Heap)
  | h, _, [] => some ([], h)
  | h, s, op :: rest => do
    let r ← runOp fuel h s op
    let rs ← runOps fuel r.2 s rest
    some (r.1 :: rs.1, rs.2)

/-- The ordered collection of the specification, as a list of node
identities, first pushed first: `push` of an absent item or of an item already
present fails (value 0) and changes nothing, otherwise it appends the item
(value 1); `pop` fails on the empty collection and otherwise removes and
returns the last item. -/
def specOp (its : List Nat) : StackOp → StackRes × List Nat
  | .push none => (.pushed 0, its)
  | .push (some x) => if x ∈ its then (.pushed 0, its) else (.pushed 1, its ++ [x])
  | .pop =>
    match its.getLast? with
    | none => (.popped none, its)
    | some t => (.popped (some t), its.dropLast)

/-- A sequence of calls on the ordered collection of the specification. -/
def specOps : List Nat → List StackOp → List StackRes × List Nat
  | its, [] => ([], its)
  | its, op :: rest =>
    ((specOp its op).1 :: (specOps (specOp its op).2 rest).1,
      (specOps (specOp its op).2 rest).2)

/-- The ordered collection holds fewer than `UINT_MOD` nodes after each call of
the sequence, so that the count of the stack is the number of its nodes. -/
def specBounded : List Nat → List StackOp → Prop
  | _, [] => True
  | its, op :: rest =>
    (specOp its op).2.length < UINT_MOD ∧ specBounded (specOp its op).2 rest

/-- The calls `Stack_push (stack, x)` for the nodes `x` of a list, in order. -/
def pushes (xs : List Nat) : List StackOp := xs.map (fun x => StackOp.push (some x))

/-- The call `Stack_pop (stack)`, `n` times. -/
def pops (n : Nat) : List StackOp := List.replicate n StackOp.pop

/-- A heap holding an empty stack at address 0 and unlinked nodes at the
addresses 1 to `n`. -/
def nodesHeap (n : Nat) : Heap :=
  { mem := fun a =>
      if a = 0 then some (.stack ⟨none, none, 0, none⟩)
      else if a ≤ n then some (.item ⟨none, none, none⟩)
      else none,
    brk := n + 1,
    avail := 0 }

/-! ## Two stacks -/

/-- A call `Stack_push (A, x)` or `Stack_push (B, x)` on one of two stacks. -/
inductive Push2 where
  | onA (x : Nat)
  | onB (x : Nat)
  deriving DecidableEq, Repr

/-- The node that the call pushes. -/
def Push2.node : Push2 → Nat
  | .onA x => x
  | .onB x => x

/-- The stack that the call pushes onto, of the stacks `a` and `b`. -/
def Push2.target (a b : Nat) : Push2 → Nat
  | .onA _ => a
  | .onB _ => b

/-- A sequence of `Stack_push` calls on the stacks `a` and `b`, with the
values they return. -/
def runPushes2 (fuel : Nat) (a b : Nat) : Heap → List Push2 → Option (List Int × Heap)
  | h, [] => some ([], h)
  | h, op :: rest => do
    let r ← Stack_push fuel h (some (op.target a b)) (some op.node)
    let rs ← runPushes2 fuel a b r.2 rest
    some (r.1 :: rs.1, rs.2)

/-- One push on a pair of ordered collections of the specification. -/
def specPush2 (m : List Nat × List Nat) : Push2 → List Nat × List Nat
  | .onA x => ((specOp m.1 (.push (some x))).2, m.2)
  | .onB x => (m.1, (specOp m.2 (.push (some x))).2)

/-- A sequence of pushes on a pair of ordered collections. -/
def specPushes2 : List Nat × List Nat → List Push2 → List Nat × List Nat
  | m, [] => m
  | m, op :: rest => specPushes2 (specPush2 m op) rest

/-- The collection that the call does not push onto. -/
def Push2.other (m : List Nat × List Nat) : Push2 → List Nat
  | .onA _ => m.2
  | .onB _ => m.1

/-- No call of the sequence pushes a node that the other collection holds at
that time, and both collections stay under `UINT_MOD` nodes. -/
def Exclusive2 : List Nat × List Nat → List Push2 → Prop
  | _, [] => True
  | m, op :: rest =>
    op.node ∉ op.other m ∧ (specPush2 m op).1.length < UINT_MOD ∧
      (specPush2 m op).2.length < UINT_MOD ∧ Exclusive2 (specPush2 m op) rest

/-- Two distinct well-formed stacks that share no node. -/
def TwoStacks (h : Heap) (a b : Nat) (m : List Nat × List Nat) : Prop :=
  a ≠ b ∧ WFStack h a m.1 ∧ WFStack h b m.2 ∧ ∀ x ∈ m.1, x ∉ m.2

/-- A heap holding two empty stacks at the addresses 0 and 1 and unlinked
nodes at the addresses 2 to `n + 1`. -/
def twoStacksHeap (n : Nat) : Heap :=
  { mem := fun a =>
      if a ≤ 1 then some (.stack ⟨none, none, 0, none⟩)
      else if a ≤ n + 1 then some (.item ⟨none, none, none⟩)
      else none,
    brk := n + 2,
    avail := 0 }

/-- A header of the given kind is stored at the address. -/
def HeaderAt (h : Heap) (k : Layer) (hd : Nat) : Prop :=
  match k with
  | .ether => ∃ e, h.getEther hd = some e
  | .ipv4 _ => ∃ e, h.getIpv4 hd = some e
  | .udpv4 => ∃ e, h.getUdpv4 hd = some e

/-- The value that the `getBitstream` function of each header kind returns on
every path: `ETHER_HEADER_LEN` for Ethernet, 20 for IPv4, and for UDP the
local `res`, which is set to -1 and never assigned. -/
def Layer.returned : Layer → Int
  | .ether => 14
  | .ipv4 _ => 20
  | .udpv4 => -1


/-! ## socket.c -/

/-- The record `struct Socket` of `socket.h`; of the link-layer address only
the interface index is kept. -/
structure Socket where
  desc : Int
  ifindex : Int
  deriving DecidableEq, Repr

/-- The macro `WRITE_RETRIES` of `socket.c`. -/
def WRITE_RETRIES : Int := 3

/-- One call of `sendto` made by `Socket_inject`: the descriptor, the value
of `sent` that is added to `bitstream`, and the length argument. -/
structure SendCall where
  desc : Int
  offset : Int
  len : Nat
  deriving DecidableEq, Repr

/-- The behaviour of the system call `sendto`: the value it returns to a
call, given the calls made before it. -/
abbrev SendFn := List SendCall → SendCall → Int

/-- Conversion to `int` (32 bits, two's complement), as in the assignment
`sent = sendto (...)` of an `ssize_t` value. -/
def toInt (r : Int) : Int := (r + 2147483648) % 4294967296 - 2147483648

/-- The `do ... while` loop of `Socket_inject`, entered with the current
`sent` and `tries` and the calls made so far; the result is the final `sent`,
the final `tries` and all the calls, in order.  The length argument
`bs_length - sent` is computed in `unsigned int`, and in the test
`sent < bs_length` the signed `sent` is converted to `unsigned int`; `tries++`
is evaluated only when that test holds. -/
def Socket_inject_loop (send : SendFn) (desc : Int) (bs_length : Nat) :
    Nat → Int → Int → List SendCall → Option (Int × Int × List SendCall)
  | 0, _, _, _ => none
  | fuel + 1, sent, tries, calls =>
    let call : SendCall := ⟨desc, sent, toUnsigned ((bs_length : Int) - sent)⟩
    let sent1 := toInt (send calls call)
    let calls1 := calls ++ [call]
    if toUnsigned sent1 < bs_length then
      if tries < WRITE_RETRIES then
        Socket_inject_loop send desc bs_length fuel sent1 (tries + 1) calls1
      else some (sent1, tries + 1, calls1)
    else some (sent1, tries, calls1)

/-- The function `Socket_inject` of `socket.c`.  The socket record is read
only and is passed by value (`none` is `NULL`); `bitstream` is the block that
`malloc (bs_length)` returns, `NULL` when it fails.  The result is the
returned value, the calls of `sendto` in order, and the byte memory.  The
local `ret` is initialised to -1 and assigned only -1. -/
def Socket_inject (send : SendFn) (fuel : Nat) (h : Heap) (m : Bytes) (sock : Option Socket)
    (pack : Ptr) (bitstream : Ptr) : Option (Int × List SendCall × Bytes) :=
  match sock, pack with
  | none, _ => some (-1, [], m)
  | some _, none => some (-1, [], m)
  | some sk, some pa => do
    let bs_length ← Packet_getSize fuel h (some pa)
    if bs_length = 0 then some (-1, [], m)
    else
      match bitstream with
      | none => some (-1, [], m)
      | some b => do
        let r ← Packet_getBitstream fuel h (some pa) m (some b) bs_length
        let l ← Socket_inject_loop send sk.desc bs_length fuel 0 0 []
        let ret : Int := if l.2.1 ≥ WRITE_RETRIES then -1 else -1
        some (ret, l.2.2, r.2)

/-! ## A Packet around a stack -/

/-- The `for` loop of `Stack_delete`,
`for (iter = stack->bottom; iter != NULL; iter->next) StackItem_delete (iter);`.
The third expression reads `iter->next` and discards the value: `iter` is
never assigned.  The read comes after the node has been freed. -/
def Stack_delete_loop : Nat → Heap → Ptr → Option Heap
  | 0, _, _ => none
  | _ + 1, h, none => some h
  | fuel + 1, h, some iter => do
    let h1 := StackItem_delete h (some iter)
    let _ ← h1.getItem iter
    Stack_delete_loop fuel h1 (some iter)

/-- The destructor `Stack_delete` of `stack.c`. -/
def Stack_delete (fuel : Nat) (h : Heap) (stack : Ptr) : Option Heap :=
  match stack with
  | none => some (h.free none)
  | some s => do
    let st ← h.getStack s
    let h1 ← Stack_delete_loop fuel h st.bottom
    some (h1.free (some s))

/-- The destructor `Packet_delete` of `packet.c`. -/
def Packet_delete (fuel : Nat) (h : Heap) (pack : Ptr) : Option Heap :=
  match pack with
  | none => some (h.free none)
  | some pa => do
    let pk ← h.getPacket pa
    let h1 ← Stack_delete fuel h pk.stack
    some (h1.free (some pa))

/-- The loop of `Stack_delete` as it would run if the discarded read of
`iter->next` were dropped, as a compiler may do: only the repeated
`StackItem_delete (iter)` is left. -/
def Stack_delete_loop_noread : Nat → Heap → Ptr → Option Heap
  | 0, _, _ => none
  | _ + 1, h, none => some h
  | fuel + 1, h, some iter =>
    Stack_delete_loop_noread fuel (StackItem_delete h (some iter)) (some iter)

/-! ## Nodes with and without owner -/

/-- The node at `a` has a non-`NULL` owner. -/
def hasOwner (h : Heap) (a : Nat) : Bool :=
  match h.getItem a with
  | some it => it.owner.isSome
  | none => false

/-- The size of the layer that owns the node at `a`: the value that the
`getSize` function registered in the owning `Protocol_t` returns. -/
def layerSize (h : Heap) (a : Nat) : Option Nat := do
  let it ← h.getItem a
  let pa ← it.owner
  let p ← h.getProtocol pa
  let f ← p.getSize
  some (callGetSize f (some pa))

/-- A heap holding a Packet at address 0, its stack at address 1 and, linked
in the stack from `bottom` to `top`, `n` nodes at the even addresses 2 to
`2 * n`, each owned by the `Protocol_t` with the Ethernet functions at the
next address, followed by one node without owner at address `2 * n + 2`. -/
def layersChainHeap (n : Nat) : Heap :=
  { mem := fun a =>
      if a = 0 then some (.packet ⟨some 1⟩)
      else if a = 1 then some (.stack ⟨some 2, some (2 * n + 2), (n + 1) % UINT_MOD, some 0⟩)
      else if 2 * n + 2 < a then none
      else if a % 2 = 1 then
        some (.protocol ⟨some .EtherProto_getSize, some .EtherProto_getBitstream,
          some (a - 1), none⟩)
      else
        some (.item ⟨if a = 2 then none else some (a - 2),
          if a = 2 * n + 2 then none else some (a + 2),
          if a = 2 * n + 2 then none else some (a + 1)⟩),
    brk := 2 * n + 3,
    avail := 0 }


/-! ## Byte memory lemmas -/

theorem memcpy_apply (src : List Nat) (n : Nat) : ∀ (m : Bytes) (dst a : Nat),
    memcpy m dst src n a =
      if dst ≤ a ∧ a < dst + n then src.getD (a - dst) 0 % 256 else m a := by
  induction n generalizing src with
  | zero =>
    intro m dst a
    have : ¬ (dst ≤ a ∧ a < dst + 0) := by omega
    rw [if_neg this]; rfl
  | succ n ih =>
    intro m dst a
    rw [memcpy, ih]
    by_cases h1 : a = dst
    · subst h1
      have : ¬ (a + 1 ≤ a ∧ a < a + 1 + n) := by omega
      simp [this, poke]
      cases src <;> simp
    · by_cases h2 : dst + 1 ≤ a ∧ a < dst + 1 + n
      · have h3 : dst ≤ a ∧ a < dst + (n + 1) := by omega
        simp only [h2, h3, and_self, if_true]
        obtain ⟨k, rfl⟩ : ∃ k, a = dst + 1 + k := ⟨a - (dst + 1), by omega⟩
        have e1 : dst + 1 + k - (dst + 1) = k := by omega
        have e2 : dst + 1 + k - dst = k + 1 := by omega
        rw [e1, e2]
        cases src <;> simp
      · have h3 : ¬ (dst ≤ a ∧ a < dst + (n + 1)) := by omega
        simp [h2, h3, poke, h1]

theorem memcpy_outside (src : List Nat) (n : Nat) (m : Bytes) (dst a : Nat)
    (ha : a < dst ∨ dst + n ≤ a) : memcpy m dst src n a = m a := by
  rw [memcpy_apply]
  have : ¬ (dst ≤ a ∧ a < dst + n) := by omega
  simp [this]

theorem poke_outside (m : Bytes) (dst v a : Nat) (ha : a ≠ dst) : poke m dst v a = m a := by
  simp [poke, ha]

/-! ## The header records left by the constructors -/

theorem EtherProto_create_hdr {ret : Ptr → Ptr} (h h' : Heap) (p : Nat)
    (hc : EtherProto_create ret h = some (some p, h')) :
    ∃ b, h'.getEther p = some ⟨some b, [0, 1, 2, 3, 4, 5], [6, 7, 8, 9, 10, 11], 0x0800⟩ := by
  unfold EtherProto_create at hc
  split at hc
  · simp at hc
  · simp only [Option.bind_eq_bind, Option.bind_eq_some] at hc
    obtain ⟨⟨pb, h2⟩, _, hc⟩ := hc
    cases pb with
    | none => simp at hc
    | some b =>
      simp only [Option.bind_eq_some] at hc
      obtain ⟨h3, _, h4, _, ⟨ok, h5⟩, _, hc⟩ := hc
      split at hc
      · simp only [Option.bind_eq_bind, Option.bind_eq_some] at hc
        obtain ⟨_, _, hc⟩ := hc
        simp at hc
      · simp only [Option.some.injEq, Prod.mk.injEq] at hc
        obtain ⟨rfl, rfl⟩ := hc
        exact ⟨b, by simp [Heap.getEther, Heap.store, IPV4_TYPE]⟩

theorem Ipv4Proto_create_hdr {ret : Ptr → Ptr} (h h' : Heap) (junk p : Nat)
    (hc : Ipv4Proto_create ret h junk = some (some p, h')) :
    ∃ b, h'.getIpv4 p = some
      { version := 4, hdr_length := 5, tos := 0, length := 20, id := 42, flags := 0,
        frag_off := 0, ttl := 64, proto := junk, checksum := 0x1234, saddr := 0x11223344,
        daddr := 0x55667788, opts_padding := none, proto_base := some b } := by
  unfold Ipv4Proto_create at hc
  split at hc
  · simp at hc
  · simp only [Option.bind_eq_bind, Option.bind_eq_some] at hc
    obtain ⟨⟨pb, h2⟩, _, hc⟩ := hc
    cases pb with
    | none => simp at hc
    | some b =>
      simp only [Option.bind_eq_some] at hc
      obtain ⟨h3, _, h4, _, ⟨ok, h5⟩, _, hc⟩ := hc
      split at hc
      · simp only [Option.bind_eq_bind, Option.bind_eq_some] at hc
        obtain ⟨_, _, hc⟩ := hc
        simp at hc
      · simp only [Option.some.injEq, Prod.mk.injEq] at hc
        obtain ⟨rfl, rfl⟩ := hc
        exact ⟨b, by simp [Heap.getIpv4, Heap.store]⟩

theorem Udpv4Proto_createWithParams_hdr (h h' : Heap) (sport dport length checksum p : Nat)
    (proto_base : Ptr)
    (hc : Udpv4Proto_createWithParams h sport dport length checksum proto_base
      = some (some p, h')) :
    h'.getUdpv4 p = some ⟨sport, dport, length, checksum, proto_base⟩ := by
  unfold Udpv4Proto_createWithParams at hc
  split at hc
  · simp at hc
  · cases proto_base with
    | none =>
      simp only [Option.bind_eq_bind, Option.some_bind, Option.some.injEq, Prod.mk.injEq] at hc
      obtain ⟨rfl, rfl⟩ := hc
      simp [Heap.getUdpv4, Heap.store]
    | some b =>
      simp only [Option.bind_eq_bind, Option.bind_eq_some, Option.some.injEq,
        Prod.mk.injEq] at hc
      obtain ⟨_, _, _, _, _, _, _, _, rfl, rfl⟩ := hc
      simp [Heap.getUdpv4, Heap.store]

theorem Udpv4Proto_create_hdr {ret : Ptr → Ptr} (h h' : Heap) (p : Nat)
    (hc : Udpv4Proto_create ret h = some (some p, h')) :
    ∃ b, h'.getUdpv4 p = some ⟨0, 0, 8, 0, b⟩ := by
  unfold Udpv4Proto_create at hc
  simp only [Option.bind_eq_bind, Option.bind_eq_some] at hc
  obtain ⟨⟨b, h1⟩, _, hc⟩ := hc
  exact ⟨b, Udpv4Proto_createWithParams_hdr _ _ _ _ _ _ _ _ hc⟩

/-! ## Wire format of the three codecs -/

theorem Udpv4Proto_getBitstream_bytes (h : Heap) (p : Nat) (e : Udpv4Proto) (m : Bytes)
    (buf size : Nat) (he : h.getUdpv4 p = some e) (hs : 8 ≤ size) :
    ∃ m', Udpv4Proto_getBitstream h (some p) m (some buf) size = some (-1, m') ∧
      readBytes m' buf 8 = [e.sport / 256 % 256, e.sport % 256, e.dport / 256 % 256,
        e.dport % 256, e.length / 256 % 256, e.length % 256, e.checksum / 256 % 256,
        e.checksum % 256] ∧
      ∀ a, (a < buf ∨ buf + 8 ≤ a) → m' a = m a := by
  refine ⟨memcpy (memcpy (memcpy (memcpy m buf (htons e.sport) 2) (buf + 2)
    (htons e.dport) 2) (buf + 4) (htons e.length) 2) (buf + 6) (htons e.checksum) 2,
    ?_, ?_, ?_⟩
  · have : ¬ size < 8 := by omega
    simp [Udpv4Proto_getBitstream, he, UDPV4_HEADER_LEN, this]
  · simp [readBytes, memcpy_apply, htons, Nat.add_assoc]
  · intro a ha
    rw [memcpy_outside _ _ _ _ _ (by omega), memcpy_outside _ _ _ _ _ (by omega),
      memcpy_outside _ _ _ _ _ (by omega), memcpy_outside _ _ _ _ _ (by omega)]

theorem Ipv4Proto_getBitstream_bytes (h : Heap) (p : Nat) (e : Ipv4Proto) (m : Bytes)
    (buf size : Nat) (he : h.getIpv4 p = some e) :
    ∃ m', Ipv4Proto_getBitstream h (some p) m (some buf) size = some (20, m') ∧
      readBytes m' buf 20 = [((e.version <<< 4) ||| e.hdr_length) % 256, e.tos % 256,
        e.length / 256 % 256, e.length % 256, e.id / 256 % 256, e.id % 256,
        ((e.flags <<< 5) ||| (e.frag_off >>> 11)) % 256, (e.frag_off &&& 0x1f) % 256,
        e.ttl % 256, e.proto % 256, e.checksum / 256 % 256, e.checksum % 256,
        e.saddr / 16777216 % 256, e.saddr / 65536 % 256, e.saddr / 256 % 256, e.saddr % 256,
        e.daddr / 16777216 % 256, e.daddr / 65536 % 256, e.daddr / 256 % 256,
        e.daddr % 256] ∧
      ∀ a, (a < buf ∨ buf + 20 ≤ a) → m' a = m a := by
  refine ⟨memcpy (memcpy (memcpy (poke (poke (poke (poke (memcpy (memcpy (poke (poke m buf
    ((e.version <<< 4) ||| e.hdr_length)) (buf + 1) e.tos) (buf + 2) (htons e.length) 2)
    (buf + 4) (htons e.id) 2) (buf + 6) ((e.flags <<< 5) ||| (e.frag_off >>> 11)))
    (buf + 7) (e.frag_off &&& 0x1f)) (buf + 8) e.ttl) (buf + 9) e.proto) (buf + 10)
    (htons e.checksum) 2) (buf + 12) (htonl e.saddr) 4) (buf + 16) (htonl e.daddr) 4,
    ?_, ?_, ?_⟩
  · simp [Ipv4Proto_getBitstream, he]
  · simp [readBytes, memcpy_apply, poke, htons, htonl, Nat.add_assoc]
  · intro a ha
    rw [memcpy_outside _ _ _ _ _ (by omega), memcpy_outside _ _ _ _ _ (by omega),
      memcpy_outside _ _ _ _ _ (by omega), poke_outside _ _ _ _ (by omega),
      poke_outside _ _ _ _ (by omega), poke_outside _ _ _ _ (by omega),
      poke_outside _ _ _ _ (by omega), memcpy_outside _ _ _ _ _ (by omega),
      memcpy_outside _ _ _ _ _ (by omega), poke_outside _ _ _ _ (by omega),
      poke_outside _ _ _ _ (by omega)]

theorem EtherProto_getBitstream_bytes (h : Heap) (p : Nat) (e : EtherProto) (m : Bytes)
    (buf size : Nat) (he : h.getEther p = some e) (hs : 14 ≤ size) :
    ∃ m', EtherProto_getBitstream h (some p) m (some buf) size = some (14, m') ∧
      readBytes m' buf 14 = [e.daddr.getD 0 0 % 256, e.daddr.getD 1 0 % 256,
        e.daddr.getD 2 0 % 256, e.daddr.getD 3 0 % 256, e.daddr.getD 4 0 % 256,
        e.daddr.getD 5 0 % 256, e.saddr.getD 0 0 % 256, e.saddr.getD 1 0 % 256,
        e.saddr.getD 2 0 % 256, e.saddr.getD 3 0 % 256, e.saddr.getD 4 0 % 256,
        e.saddr.getD 5 0 % 256, e.type / 256 % 256, e.type % 256] ∧
      ∀ a, (a < buf ∨ buf + 14 ≤ a) → m' a = m a := by
  refine ⟨memcpy (memcpy (memcpy m buf e.daddr 6) (buf + 6) e.saddr 6) (buf + 12)
    (htons e.type) 2, ?_, ?_, ?_⟩
  · have : ¬ size < 14 := by omega
    simp [EtherProto_getBitstream, he, ETHER_HEADER_LEN, ADDR_LEN, this]
  · simp [readBytes, memcpy_apply, htons, Nat.add_assoc]
  · intro a ha
    rw [memcpy_outside _ _ _ _ _ (by omega), memcpy_outside _ _ _ _ _ (by omega),
      memcpy_outside _ _ _ _ _ (by omega)]

theorem getIpv4_setIpv4 (h : Heap) (p : Nat) (e : Ipv4Proto) (f : Ipv4Proto → Ipv4Proto)
    (he : h.getIpv4 p = some e) :
    ∃ h', h.setIpv4 p f = some h' ∧ h'.getIpv4 p = some (f e) := by
  refine ⟨h.store p (.ipv4 (f e)), ?_, ?_⟩
  · simp [Heap.setIpv4, he]
  · simp [Heap.getIpv4, Heap.store]

/-! ## Default and parameterised headers on the wire -/

/-- C6: a header returned by `EtherProto_create`, serialised by
`EtherProto_getBitstream` into a 14-byte buffer, yields exactly the bytes
00 01 02 03 04 05 06 07 08 09 0a 0b 08 00; no byte outside the buffer is
written. -/
theorem C6_ether_default_encoding (ret : Ptr → Ptr) (h h' : Heap) (p : Nat) (m : Bytes) (buf : Nat)
    (hc : EtherProto_create ret h = some (some p, h')) :
    ∃ m', EtherProto_getBitstream h' (some p) m (some buf) 14 = some (14, m') ∧
      readBytes m' buf 14 = [0x00, 0x01, 0x02, 0x03, 0x04, 0x05, 0x06, 0x07, 0x08, 0x09,
        0x0a, 0x0b, 0x08, 0x00] ∧
      ∀ a, (a < buf ∨ buf + 14 ≤ a) → m' a = m a := by
  obtain ⟨b, hb⟩ := EtherProto_create_hdr h h' p hc
  obtain ⟨m', h1, h2, h3⟩ := EtherProto_getBitstream_bytes h' p _ m buf 14 hb (le_refl _)
  exact ⟨m', h1, by rw [h2]; dsimp only; decide, h3⟩

/-- Witness of C6: the first header created on the initial heap. -/
theorem C6_ether_default_encoding_witness :
    ∃ h', EtherProto_create id (Heap.init 3) = some (some 0, h') ∧
      ∃ m', EtherProto_getBitstream h' (some 0) (fun _ => 0xff) (some 0) 14 = some (14, m') ∧
        readBytes m' 0 14 = [0x00, 0x01, 0x02, 0x03, 0x04, 0x05, 0x06, 0x07, 0x08, 0x09,
          0x0a, 0x0b, 0x08, 0x00] ∧
        ∀ a, (a < 0 ∨ 0 + 14 ≤ a) → m' a = (fun _ => 0xff) a :=
  ⟨_, rfl, C6_ether_default_encoding id (Heap.init 3) _ 0 (fun _ => 0xff) 0 rfl⟩

/-- C7: a header returned by `Udpv4Proto_create`, serialised by
`Udpv4Proto_getBitstream` into an 8-byte buffer, yields exactly the bytes
00 00 00 00 00 08 00 00; no byte outside the buffer is written. -/
theorem C7_udpv4_default_encoding (ret : Ptr → Ptr) (h h' : Heap) (p : Nat) (m : Bytes) (buf : Nat)
    (hc : Udpv4Proto_create ret h = some (some p, h')) :
    ∃ r m', Udpv4Proto_getBitstream h' (some p) m (some buf) 8 = some (r, m') ∧
      readBytes m' buf 8 = [0x00, 0x00, 0x00, 0x00, 0x00, 0x08, 0x00, 0x00] ∧
      ∀ a, (a < buf ∨ buf + 8 ≤ a) → m' a = m a := by
  obtain ⟨b, hb⟩ := Udpv4Proto_create_hdr h h' p hc
  obtain ⟨m', h1, h2, h3⟩ := Udpv4Proto_getBitstream_bytes h' p _ m buf 8 hb (le_refl _)
  exact ⟨-1, m', h1, by rw [h2]; dsimp only, h3⟩

/-- Witness of C7: the header created on the initial heap. -/
theorem C7_udpv4_default_encoding_witness :
    ∃ h', Udpv4Proto_create id (Heap.init 3) = some (some 2, h') ∧
      ∃ r m', Udpv4Proto_getBitstream h' (some 2) (fun _ => 0xff) (some 0) 8 = some (r, m') ∧
        readBytes m' 0 8 = [0x00, 0x00, 0x00, 0x00, 0x00, 0x08, 0x00, 0x00] ∧
        ∀ a, (a < 0 ∨ 0 + 8 ≤ a) → m' a = (fun _ => 0xff) a :=
  ⟨_, rfl, C7_udpv4_default_encoding id (Heap.init 3) _ 2 (fun _ => 0xff) 0 rfl⟩

theorem Ipv4Proto_setters_hdr (h : Heap) (q l p : Nat) (e : Ipv4Proto)
    (he : h.getIpv4 q = some e) :
    (∃ h2 h3, Ipv4Proto_setLength h (some q) l = some (0, h2) ∧
      Ipv4Proto_setProtocol h2 (some q) p = some (0, h3) ∧
      h3.getIpv4 q = some { e with length := l, proto := p }) ∧
    (∃ h2 h3, Ipv4Proto_setProtocol h (some q) p = some (0, h2) ∧
      Ipv4Proto_setLength h2 (some q) l = some (0, h3) ∧
      h3.getIpv4 q = some { e with length := l, proto := p }) := by
  constructor
  · obtain ⟨h2, e2, g2⟩ := getIpv4_setIpv4 h q e (fun e => { e with length := l }) he
    obtain ⟨h3, e3, g3⟩ := getIpv4_setIpv4 h2 q _ (fun e => { e with proto := p }) g2
    exact ⟨h2, h3, by simp [Ipv4Proto_setLength, e2], by simp [Ipv4Proto_setProtocol, e3], g3⟩
  · obtain ⟨h2, e2, g2⟩ := getIpv4_setIpv4 h q e (fun e => { e with proto := p }) he
    obtain ⟨h3, e3, g3⟩ := getIpv4_setIpv4 h2 q _ (fun e => { e with length := l }) g2
    exact ⟨h2, h3, by simp [Ipv4Proto_setProtocol, e2], by simp [Ipv4Proto_setLength, e3], g3⟩

theorem Ipv4Proto_default_bytes (h : Heap) (q l p : Nat) (b : Ptr) (m : Bytes) (buf size : Nat)
    (hl : l < 65536) (hp : p < 256)
    (he : h.getIpv4 q = some
      { version := 4, hdr_length := 5, tos := 0, length := l, id := 42, flags := 0,
        frag_off := 0, ttl := 64, proto := p, checksum := 0x1234, saddr := 0x11223344,
        daddr := 0x55667788, opts_padding := none, proto_base := b }) :
    ∃ m', Ipv4Proto_getBitstream h (some q) m (some buf) size = some (20, m') ∧
      readBytes m' buf 20 = ipv4Expected l p ∧
      ∀ a, (a < buf ∨ buf + 20 ≤ a) → m' a = m a := by
  obtain ⟨m', h1, h2, h3⟩ := Ipv4Proto_getBitstream_bytes h q _ m buf size he
  refine ⟨m', h1, ?_, h3⟩
  rw [h2]
  have e1 : l / 256 % 256 = l / 256 := Nat.mod_eq_of_lt (by omega)
  have e2 : p % 256 = p := Nat.mod_eq_of_lt hp
  dsimp only [ipv4Expected]
  rw [e1, e2]
  rfl

/-- C8: on a header returned by `Ipv4Proto_create`, after `Ipv4Proto_setLength`
with a 16-bit `l` and `Ipv4Proto_setProtocol` with an 8-bit `p` (in either
order, both setters returning 0), `Ipv4Proto_getBitstream` into a buffer of at
least 20 bytes returns 20 and writes exactly
45 00 (l / 256) (l % 256) 00 2a 00 00 40 p 12 34 11 22 33 44 55 66 77 88
and nothing outside these 20 bytes. -/
theorem C8_ipv4_encoding (ret : Ptr → Ptr) (h h1 : Heap) (junk q l p : Nat) (m : Bytes) (buf size : Nat)
    (hl : l < 65536) (hp : p < 256) (_hs : 20 ≤ size)
    (hc : Ipv4Proto_create ret h junk = some (some q, h1)) :
    (∃ h2 h3 m', Ipv4Proto_setLength h1 (some q) l = some (0, h2) ∧
      Ipv4Proto_setProtocol h2 (some q) p = some (0, h3) ∧
      Ipv4Proto_getBitstream h3 (some q) m (some buf) size = some (20, m') ∧
      readBytes m' buf 20 = ipv4Expected l p ∧
      ∀ a, (a < buf ∨ buf + 20 ≤ a) → m' a = m a) ∧
    (∃ h2 h3 m', Ipv4Proto_setProtocol h1 (some q) p = some (0, h2) ∧
      Ipv4Proto_setLength h2 (some q) l = some (0, h3) ∧
      Ipv4Proto_getBitstream h3 (some q) m (some buf) size = some (20, m') ∧
      readBytes m' buf 20 = ipv4Expected l p ∧
      ∀ a, (a < buf ∨ buf + 20 ≤ a) → m' a = m a) := by
  obtain ⟨b, hb⟩ := Ipv4Proto_create_hdr h h1 junk q hc
  obtain ⟨⟨h2, h3, s1, s2, g⟩, ⟨k2, k3, t1, t2, g'⟩⟩ := Ipv4Proto_setters_hdr h1 q l p _ hb
  obtain ⟨m', b1, b2, b3⟩ := Ipv4Proto_default_bytes h3 q l p _ m buf size hl hp g
  obtain ⟨n', c1, c2, c3⟩ := Ipv4Proto_default_bytes k3 q l p _ m buf size hl hp g'
  exact ⟨⟨h2, h3, m', s1, s2, b1, b2, b3⟩, ⟨k2, k3, n', t1, t2, c1, c2, c3⟩⟩

/-- Witness of C8: the values of the example program, length 28 and
protocol 17, on the first header of the initial heap. -/
theorem C8_ipv4_encoding_witness :
    ∃ h1, Ipv4Proto_create id (Heap.init 3) 0 = some (some 0, h1) ∧
      ((∃ h2 h3 m', Ipv4Proto_setLength h1 (some 0) 28 = some (0, h2) ∧
        Ipv4Proto_setProtocol h2 (some 0) 17 = some (0, h3) ∧
        Ipv4Proto_getBitstream h3 (some 0) (fun _ => 0) (some 0) 20 = some (20, m') ∧
        readBytes m' 0 20 = ipv4Expected 28 17 ∧
        ∀ a, (a < 0 ∨ 0 + 20 ≤ a) → m' a = (fun _ => 0) a) ∧
      (∃ h2 h3 m', Ipv4Proto_setProtocol h1 (some 0) 17 = some (0, h2) ∧
        Ipv4Proto_setLength h2 (some 0) 28 = some (0, h3) ∧
        Ipv4Proto_getBitstream h3 (some 0) (fun _ => 0) (some 0) 20 = some (20, m') ∧
        readBytes m' 0 20 = ipv4Expected 28 17 ∧
        ∀ a, (a < 0 ∨ 0 + 20 ≤ a) → m' a = (fun _ => 0) a)) :=
  ⟨_, rfl, C8_ipv4_encoding id (Heap.init 3) _ 0 0 28 17 (fun _ => 0) 0 20
    (by decide) (by decide) (by decide) rfl⟩

/-- C9 (what the code does): for every header record, `Ipv4Proto_getBitstream`
writes byte 6 as `(flags << 5 | frag_off >> 11)` and byte 7 as
`frag_off & 0x1f`.  At flags 0 and fragment offset 32 the two bytes are 00 00,
the same as for fragment offset 0, whereas the big-endian value
`(f << 13) | o` required by the documented layout has the bytes 00 20. -/
theorem C9_frag_bytes_code (h : Heap) (q : Nat) (e : Ipv4Proto) (m : Bytes) (buf size : Nat)
    (he : h.getIpv4 q = some e) :
    (∃ m', Ipv4Proto_getBitstream h (some q) m (some buf) size = some (20, m') ∧
      readBytes m' (buf + 6) 2 =
        [((e.flags <<< 5) ||| (e.frag_off >>> 11)) % 256, (e.frag_off &&& 0x1f) % 256]) ∧
    (∃ m32 m0,
      Ipv4Proto_getBitstream ((Heap.init 0).store 0 (.ipv4 (ipv4WithFrag 0 32))) (some 0)
        (fun _ => 0xff) (some 0) 20 = some (20, m32) ∧
      Ipv4Proto_getBitstream ((Heap.init 0).store 0 (.ipv4 (ipv4WithFrag 0 0))) (some 0)
        (fun _ => 0xff) (some 0) 20 = some (20, m0) ∧
      readBytes m32 6 2 = [0, 0] ∧ readBytes m32 0 20 = readBytes m0 0 20 ∧
      [(0 <<< 5) ||| (32 >>> 8), 32 &&& 0xff] = [0, 32]) := by
  constructor
  · obtain ⟨m', h1, h2, _⟩ := Ipv4Proto_getBitstream_bytes h q e m buf size he
    refine ⟨m', h1, ?_⟩
    simp only [readBytes, List.cons.injEq] at h2 ⊢
    simp only [Nat.add_assoc] at h2
    refine ⟨h2.2.2.2.2.2.2.1, h2.2.2.2.2.2.2.2.1, trivial⟩
  · exact ⟨_, _, rfl, rfl, by decide, by decide, by decide⟩

/-- Witness of C9 (what the code does): a record with flags 1 and offset 256. -/
theorem C9_frag_bytes_code_witness :
    ((∃ m', Ipv4Proto_getBitstream ((Heap.init 0).store 0 (.ipv4 (ipv4WithFrag 1 256)))
        (some 0) (fun _ => 0) (some 0) 20 = some (20, m') ∧
      readBytes m' (0 + 6) 2 =
        [(((ipv4WithFrag 1 256).flags <<< 5) ||| ((ipv4WithFrag 1 256).frag_off >>> 11)) % 256,
          ((ipv4WithFrag 1 256).frag_off &&& 0x1f) % 256])) :=
  (C9_frag_bytes_code ((Heap.init 0).store 0 (.ipv4 (ipv4WithFrag 1 256))) 0
    (ipv4WithFrag 1 256) (fun _ => 0) 0 20 rfl).1

/-- C10: a header built by `Udpv4Proto_createWithParams` from 16-bit `sport`,
`dport`, `length` and `checksum` serialises into a buffer of at least 8 bytes
as these four values in that order, each most significant byte first; the
checksum bytes are those of the argument. -/
theorem C10_udpv4_params_encoding (h h' : Heap) (sport dport length checksum p : Nat)
    (base : Ptr) (m : Bytes) (buf size : Nat)
    (h1 : sport < 65536) (h2 : dport < 65536) (h3 : length < 65536) (h4 : checksum < 65536)
    (hs : 8 ≤ size)
    (hc : Udpv4Proto_createWithParams h sport dport length checksum base = some (some p, h')) :
    ∃ r m', Udpv4Proto_getBitstream h' (some p) m (some buf) size = some (r, m') ∧
      readBytes m' buf 8 = [sport / 256, sport % 256, dport / 256, dport % 256,
        length / 256, length % 256, checksum / 256, checksum % 256] ∧
      ∀ a, (a < buf ∨ buf + 8 ≤ a) → m' a = m a := by
  have hb := Udpv4Proto_createWithParams_hdr _ _ _ _ _ _ _ _ hc
  obtain ⟨m', g1, g2, g3⟩ := Udpv4Proto_getBitstream_bytes h' p _ m buf size hb hs
  refine ⟨-1, m', g1, ?_, g3⟩
  rw [g2]
  dsimp only
  rw [Nat.mod_eq_of_lt (show sport / 256 < 256 by omega),
    Nat.mod_eq_of_lt (show dport / 256 < 256 by omega),
    Nat.mod_eq_of_lt (show length / 256 < 256 by omega),
    Nat.mod_eq_of_lt (show checksum / 256 < 256 by omega)]

/-- Witness of C10: ports 0x1234 and 0x0035, length 8, checksum 0xbeef. -/
theorem C10_udpv4_params_encoding_witness :
    ∃ h', Udpv4Proto_createWithParams (Heap.init 1) 0x1234 0x0035 8 0xbeef none
        = some (some 0, h') ∧
      ∃ r m', Udpv4Proto_getBitstream h' (some 0) (fun _ => 0) (some 0) 8 = some (r, m') ∧
        readBytes m' 0 8 = [0x1234 / 256, 0x1234 % 256, 0x0035 / 256, 0x0035 % 256,
          8 / 256, 8 % 256, 0xbeef / 256, 0xbeef % 256] ∧
        ∀ a, (a < 0 ∨ 0 + 8 ≤ a) → m' a = (fun _ => 0) a :=
  ⟨_, rfl, C10_udpv4_params_encoding (Heap.init 1) _ 0x1234 0x0035 8 0xbeef 0 none
    (fun _ => 0) 0 8 (by decide) (by decide) (by decide) (by decide) (by decide) rfl⟩

/-! ## The packet serialiser on the example program -/

theorem readBytes_append (m : Bytes) (n k : Nat) : ∀ a,
    readBytes m a (n + k) = readBytes m a n ++ readBytes m (a + n) k := by
  induction n with
  | zero => intro a; simp [readBytes]
  | succ n ih =>
    intro a
    have : n + 1 + k = (n + k) + 1 := by omega
    rw [this, readBytes, readBytes, ih (a + 1)]
    have e : a + 1 + n = a + (n + 1) := by omega
    rw [e]; rfl

theorem readBytes_congr (m m' : Bytes) (n : Nat) : ∀ a,
    (∀ b, a ≤ b → b < a + n → m' b = m b) → readBytes m' a n = readBytes m a n := by
  induction n with
  | zero => intro a _; rfl
  | succ n ih =>
    intro a hm
    rw [readBytes, readBytes, hm a (le_refl _) (by omega),
      ih (a + 1) (fun b h1 h2 => hm b (by omega) (by omega))]

/-- The example program `p1.c` in a build in which every `Protocol_create`
hands back the value of its callee (`ret = id`), started on the initial heap
with at least the 11 allocations it performs, the loops getting at least 4
steps: `Packet_getSize` is 42 and `Packet_getBitstream` into a 42-byte buffer
writes the 42 bytes of `p1_expected` and nothing outside the buffer. -/
theorem p1_build_bitstream (junkOwner : Ptr) (junkProto : Nat) (k f : Nat) (m : Bytes)
    (buf : Nat) :
    ∃ p h m', p1_build id (f + 4) (Heap.init (k + 11)) junkOwner junkProto = some (p, h) ∧
      Packet_getSize (f + 4) h p = some 42 ∧
      Packet_getBitstream (f + 4) h p m (some buf) 42 = some (0, m') ∧
      readBytes m' buf 42 = p1_expected ∧
      ∀ a, (a < buf ∨ buf + 42 ≤ a) → m' a = m a := by
  obtain ⟨p, h, hb, hsz, he, hi, hu, hg⟩ : ∃ p h,
      p1_build id (f + 4) (Heap.init (k + 11)) junkOwner junkProto = some (p, h) ∧
      Packet_getSize (f + 4) h p = some 42 ∧
      h.getEther 2 = some ⟨some 4, [0, 1, 2, 3, 4, 5], [6, 7, 8, 9, 10, 11], 0x0800⟩ ∧
      h.getIpv4 5 = some
        { version := 4, hdr_length := 5, tos := 0, length := 28, id := 42, flags := 0,
          frag_off := 0, ttl := 64, proto := 17, checksum := 0x1234, saddr := 0x11223344,
          daddr := 0x55667788, opts_padding := none, proto_base := some 7 } ∧
      h.getUdpv4 10 = some ⟨0, 0, 8, 0, some 9⟩ ∧
      Packet_getBitstream (f + 4) h p m (some buf) 42 =
        (EtherProto_getBitstream h (some 2) m (some buf) 42).bind (fun r1 =>
        (Ipv4Proto_getBitstream h (some 5) r1.2 (some (buf + 14)) 28).bind (fun r2 =>
        (Udpv4Proto_getBitstream h (some 10) r2.2 (some (buf + 34)) 8).bind (fun r3 =>
          some (0, r3.2)))) := ⟨_, _, rfl, rfl, rfl, rfl, rfl, rfl⟩
  obtain ⟨m1, e1, b1, f1⟩ := EtherProto_getBitstream_bytes h 2 _ m buf 42 he (by decide)
  obtain ⟨m2, e2, b2, f2⟩ := Ipv4Proto_default_bytes h 5 28 17 _ m1 (buf + 14) 28
    (by decide) (by decide) hi
  obtain ⟨m3, e3, b3, f3⟩ := Udpv4Proto_getBitstream_bytes h 10 _ m2 (buf + 34) 8 hu
    (le_refl _)
  refine ⟨p, h, m3, hb, hsz, ?_, ?_, ?_⟩
  · rw [hg, e1, Option.some_bind, e2, Option.some_bind, e3, Option.some_bind]
  · have s1 : readBytes m3 buf 14 = readBytes m1 buf 14 :=
      readBytes_congr m1 m3 14 buf (fun b h1 h2 => by
        rw [f3 b (by omega), f2 b (by omega)])
    have s2 : readBytes m3 (buf + 14) 20 = readBytes m2 (buf + 14) 20 :=
      readBytes_congr m2 m3 20 (buf + 14) (fun b h1 h2 => by rw [f3 b (by omega)])
    have e : (42 : Nat) = 14 + (20 + 8) := rfl
    rw [e, readBytes_append, readBytes_append, s1, s2, b1, b2, Nat.add_assoc, b3]
    rfl
  · intro a ha
    rw [f3 a (by omega), f2 a (by omega), f1 a (by omega)]

/-- C4: whenever `Packet_getSize` gives `total` and the capacity `size` is
smaller than `total` (so `total > 0`; in particular `size = total - 1`),
`Packet_getBitstream` returns 0, the value of its failure flag `ok`, and
leaves the whole byte memory as it was. -/
theorem C4_undersized_buffer (fuel : Nat) (h : Heap) (pack : Ptr) (m : Bytes) (buf : Ptr)
    (size total : Nat) (hsz : Packet_getSize fuel h pack = some total) (hlt : size < total) :
    Packet_getBitstream fuel h pack m buf size = some (0, m) := by
  cases pack with
  | none => rfl
  | some pa =>
    unfold Packet_getBitstream
    have hsz' := hsz
    unfold Packet_getSize at hsz
    cases hp : h.getPacket pa with
    | none => simp [hp] at hsz
    | some pk =>
      simp only [hp, Option.bind_eq_bind, Option.some_bind] at hsz ⊢
      cases hs : pk.stack with
      | none => rfl
      | some s =>
        cases buf with
        | none => rfl
        | some b => simp [hsz', hlt]


/-- Witness of C4: the packet of the example program and a 41-byte buffer. -/
theorem C4_undersized_buffer_witness :
    ∃ p h, p1_build id 4 (Heap.init 11) none 0 = some (p, h) ∧
      Packet_getSize 4 h p = some 42 ∧
      Packet_getBitstream 4 h p (fun _ => 0xff) (some 0) 41 = some (0, fun _ => 0xff) :=
  ⟨_, _, rfl, rfl, C4_undersized_buffer 4 _ _ (fun _ => 0xff) (some 0) 41 42 rfl (by decide)⟩

/-- C5 (what the code does): whatever the packet and the buffer,
`Packet_getBitstream` returns 0 when it returns, because its result variable
`ok` is never assigned after its initialisation; so for a non-empty packet and
a sufficient buffer the value returned is not the number of bytes written,
and it is the same value as for a buffer that is too small. -/
theorem C5_bitstream_returns_zero (fuel : Nat) (h : Heap) (pack : Ptr) (m m' : Bytes)
    (buf : Ptr) (size total : Nat) (r : Int)
    (hsz : Packet_getSize fuel h pack = some total)
    (hr : Packet_getBitstream fuel h pack m buf size = some (r, m')) :
    r = 0 ∧ (0 < total → r ≠ (total : Int)) := by
  have h0 : r = 0 := by
    unfold Packet_getBitstream at hr
    cases pack with
    | none => simp at hr; exact hr.1.symm
    | some pa =>
      simp only [Option.bind_eq_bind, Option.bind_eq_some] at hr
      obtain ⟨pk, _, hr⟩ := hr
      split at hr
      · simp at hr; exact hr.1.symm
      · simp at hr; exact hr.1.symm
      · simp only [Option.bind_eq_some] at hr
        obtain ⟨t, _, hr⟩ := hr
        split at hr
        · simp at hr; exact hr.1.symm
        · simp only [Option.bind_eq_bind, Option.bind_eq_some] at hr
          obtain ⟨_, _, _, _, hr⟩ := hr
          simp at hr; exact hr.1.symm
  refine ⟨h0, fun ht => ?_⟩
  rw [h0]
  have : (0 : Int) < (total : Int) := by exact_mod_cast ht
  omega

/-- Witness of C5 (what the code does): the packet of the example program
with a 42-byte buffer; 42 bytes are written and 0 is returned. -/
theorem C5_bitstream_returns_zero_witness :
    ∃ p h m', p1_build id 4 (Heap.init 11) none 0 = some (p, h) ∧
      Packet_getSize 4 h p = some 42 ∧
      Packet_getBitstream 4 h p (fun _ => 0xff) (some 0) 42 = some (0, m') ∧
      readBytes m' 0 42 = p1_expected ∧
      ((0 : Int) = 0 ∧ (0 < 42 → (0 : Int) ≠ ((42 : Nat) : Int))) := by
  obtain ⟨p, h, m', hb, hs, hg, hbytes⟩ : ∃ p h m',
      p1_build id 4 (Heap.init 11) none 0 = some (p, h) ∧
      Packet_getSize 4 h p = some 42 ∧
      Packet_getBitstream 4 h p (fun _ => 0xff) (some 0) 42 = some (0, m') ∧
      readBytes m' 0 42 = p1_expected := ⟨_, _, _, rfl, rfl, rfl, by decide⟩
  exact ⟨p, h, m', hb, hs, hg, hbytes,
    C5_bitstream_returns_zero 4 h p (fun _ => 0xff) m' (some 0) 42 42 0 hs hg⟩

/-- C2 (what the code does): a fresh packet with an Ethernet, a UDP and an
IPv4 header stacked in that order has size 42, and `Packet_getBitstream` into
a 42-byte buffer filled with ff gives the 13 first Ethernet bytes, then the 20
IPv4 bytes from offset 13 on, then 9 untouched bytes; the concatenation of the
three headers' own bytes in stacking order is something else.  The UDP codec
returns -1 after writing its 8 bytes at offset 14, so the running offset goes
back to 13 and the next layer overwrites the last Ethernet byte and the UDP
header.  The headers are created with `ret = id`. -/
theorem C2_udp_then_more_layers :
    ∃ b m', buildPacket id 4 (Heap.init 11) none [.ether, .udpv4, .ipv4 17] = some b ∧
      b.rets = [1, 1, 1] ∧
      Packet_getSize 4 b.heap b.pack = some 42 ∧
      Packet_getBitstream 4 b.heap b.pack (fun _ => 0xff) (some 0) 42 = some (0, m') ∧
      readBytes m' 0 42 =
        [0x00, 0x01, 0x02, 0x03, 0x04, 0x05, 0x06, 0x07, 0x08, 0x09, 0x0a, 0x0b, 0x08,
         0x45, 0x00, 0x00, 0x14, 0x00, 0x2a, 0x00, 0x00, 0x40, 0x11, 0x12, 0x34,
         0x11, 0x22, 0x33, 0x44, 0x55, 0x66, 0x77, 0x88,
         0xff, 0xff, 0xff, 0xff, 0xff, 0xff, 0xff, 0xff, 0xff] ∧
      layerBytes b.heap b.hdrs = some
        [0x00, 0x01, 0x02, 0x03, 0x04, 0x05, 0x06, 0x07, 0x08, 0x09, 0x0a, 0x0b, 0x08, 0x00,
         0x00, 0x00, 0x00, 0x00, 0x00, 0x08, 0x00, 0x00,
         0x45, 0x00, 0x00, 0x14, 0x00, 0x2a, 0x00, 0x00, 0x40, 0x11, 0x12, 0x34,
         0x11, 0x22, 0x33, 0x44, 0x55, 0x66, 0x77, 0x88] ∧
      some (readBytes m' 0 42) ≠ layerBytes b.heap b.hdrs :=
  ⟨_, _, rfl, rfl, rfl, rfl, by decide, by decide, by decide⟩

/-! ## Heap access lemmas -/

theorem getItem_store_same (h : Heap) (a : Nat) (x : StackItem) :
    (h.store a (.item x)).getItem a = some x := by
  simp [Heap.getItem, Heap.store]

theorem getItem_store_other (h : Heap) (a b : Nat) (o : Obj) (hne : b ≠ a) :
    (h.store a o).getItem b = h.getItem b := by
  simp [Heap.getItem, Heap.store, hne]

theorem getStack_store_same (h : Heap) (a : Nat) (x : Stack) :
    (h.store a (.stack x)).getStack a = some x := by
  simp [Heap.getStack, Heap.store]

theorem getStack_store_other (h : Heap) (a b : Nat) (o : Obj) (hne : b ≠ a) :
    (h.store a o).getStack b = h.getStack b := by
  simp [Heap.getStack, Heap.store, hne]

theorem getProtocol_store_other (h : Heap) (a b : Nat) (o : Obj) (hne : b ≠ a) :
    (h.store a o).getProtocol b = h.getProtocol b := by
  simp [Heap.getProtocol, Heap.store, hne]

theorem getProtocol_store_item (h : Heap) (a b : Nat) (x : StackItem) :
    (h.store a (.item x)).getProtocol b = if b = a then none else h.getProtocol b := by
  by_cases hb : b = a <;> simp [Heap.getProtocol, Heap.store, hb]

theorem getItem_ne_getStack (h : Heap) (a b : Nat) (x : StackItem) (st : Stack)
    (ha : h.getItem a = some x) (hb : h.getStack b = some st) : a ≠ b := by
  rintro rfl
  unfold Heap.getItem at ha
  unfold Heap.getStack at hb
  split at ha <;> simp_all

theorem getItem_ne_getProtocol (h : Heap) (a b : Nat) (x : StackItem) (p : Protocol)
    (ha : h.getItem a = some x) (hb : h.getProtocol b = some p) : a ≠ b := by
  rintro rfl
  unfold Heap.getItem at ha
  unfold Heap.getProtocol at hb
  split at ha <;> simp_all

theorem getStack_ne_getProtocol (h : Heap) (a b : Nat) (x : Stack) (p : Protocol)
    (ha : h.getStack a = some x) (hb : h.getProtocol b = some p) : a ≠ b := by
  rintro rfl
  unfold Heap.getStack at ha
  unfold Heap.getProtocol at hb
  split at ha <;> simp_all

theorem setItem_eq (h : Heap) (a : Nat) (x : StackItem) (f : StackItem → StackItem)
    (ha : h.getItem a = some x) : h.setItem a f = some (h.store a (.item (f x))) := by
  simp [Heap.setItem, ha]

theorem setStack_eq (h : Heap) (a : Nat) (x : Stack) (f : Stack → Stack)
    (ha : h.getStack a = some x) : h.setStack a f = some (h.store a (.stack (f x))) := by
  simp [Heap.setStack, ha]

/-! ## Linked nodes -/

theorem Seg_congr (h h' : Heap) (its : List Nat) : ∀ p,
    (∀ a ∈ its, h'.getItem a = h.getItem a) → Seg h p its → Seg h' p its := by
  induction its with
  | nil => intro p _ hs; exact hs
  | cons a rest ih =>
    intro p hm hs
    obtain ⟨hp, it, hit, hr⟩ := hs
    refine ⟨hp, it, ?_, ih _ (fun b hb => hm b (List.mem_cons_of_mem _ hb)) hr⟩
    rw [hm a (List.mem_cons_self _ _)]; exact hit

theorem Seg_getLast (h : Heap) (its : List Nat) : ∀ p, Seg h p its → ∀ t,
    its.getLast? = some t → ∃ it, h.getItem t = some it ∧ it.next = none := by
  induction its with
  | nil => intro p _ t ht; simp at ht
  | cons a rest ih =>
    intro p hs t ht
    obtain ⟨_, it, hit, hr⟩ := hs
    cases rest with
    | nil =>
      simp at ht; subst ht
      exact ⟨it, hit, hr⟩
    | cons b rest' =>
      rw [List.getLast?_cons_cons] at ht
      exact ih _ hr t ht

/-- Appending a node: the last node's `next` is redirected to the new node,
whose own `next` is `NULL`. -/
theorem Seg_snoc (h : Heap) (i : Nat) (x : StackItem) (its : List Nat) : ∀ p t tx h1,
    Seg h p its → its.getLast? = some t → i ∉ its → its.Nodup →
    h.getItem t = some tx →
    h1 = (h.store t (.item { tx with next := some i })) →
    ∀ h2, (∀ a ∈ its, h2.getItem a = h1.getItem a) → h2.getItem i = some x →
      x.next = none → Seg h2 p (its ++ [i]) := by
  induction its with
  | nil => intro p t tx h1 _ ht; simp at ht
  | cons a rest ih =>
    intro p t tx h1 hs ht hi hnd htx hh1 h2 hfr hx hxn
    obtain ⟨hp, it, hit, hr⟩ := hs
    have hia : i ≠ a := fun e => hi (e ▸ List.mem_cons_self _ _)
    have hir : i ∉ rest := fun e => hi (List.mem_cons_of_mem _ e)
    cases rest with
    | nil =>
      simp at ht; subst ht
      obtain rfl : it = tx := by
        rw [hit] at htx; exact Option.some.inj htx
      refine ⟨hp, { it with next := some i }, ?_, ?_⟩
      · rw [hfr a (List.mem_cons_self _ _), hh1]; exact getItem_store_same _ _ _
      · exact ⟨rfl, x, hx, by rw [hxn]; rfl⟩
    | cons b rest' =>
      rw [List.getLast?_cons_cons] at ht
      have hat : a ≠ t := by
        intro e
        have : t ∈ b :: rest' := List.mem_of_getLast?_eq_some ht
        rw [← e] at this
        exact (List.nodup_cons.mp hnd).1 this
      refine ⟨hp, it, ?_, ?_⟩
      · rw [hfr a (List.mem_cons_self _ _), hh1, getItem_store_other _ _ _ _ hat]; exact hit
      · exact ih _ t tx h1 hr ht hir (List.nodup_cons.mp hnd).2 htx hh1 h2
          (fun c hc => hfr c (List.mem_cons_of_mem _ hc)) hx hxn

/-! ## stack.c -/

theorem Stack_itemExists_loop_absent (h : Heap) (i : Nat) (its : List Nat) :
    ∀ p fuel, Seg h p its → i ∉ its → its.length < fuel →
      Stack_itemExists_loop fuel h p i = some 0 := by
  induction its with
  | nil =>
    intro p fuel hs _ hf
    cases fuel with
    | zero => omega
    | succ n => rw [hs]; rfl
  | cons a rest ih =>
    intro p fuel hs hi hf
    obtain ⟨hp, it, hit, hr⟩ := hs
    cases fuel with
    | zero => omega
    | succ n =>
      have hia : a ≠ i := fun e => hi (e ▸ List.mem_cons_self _ _)
      rw [hp]
      simp only [Stack_itemExists_loop, hia, if_false, hit, Option.bind_eq_bind,
        Option.some_bind]
      exact ih _ n hr (fun e => hi (List.mem_cons_of_mem _ e)) (by simp at hf; omega)

theorem Seg_mem_item (h : Heap) (its : List Nat) : ∀ p, Seg h p its → ∀ a ∈ its,
    ∃ y, h.getItem a = some y := by
  induction its with
  | nil => intro p _ a ha; simp at ha
  | cons b rest ih =>
    intro p hs a ha
    obtain ⟨_, it, hit, hr⟩ := hs
    rcases List.mem_cons.mp ha with rfl | hm
    · exact ⟨it, hit⟩
    · exact ih _ hr a hm

theorem Stack_itemExists_absent (fuel : Nat) (h : Heap) (s i : Nat) (st : Stack)
    (its : List Nat) (hst : h.getStack s = some st)
    (hseg : its ≠ [] → Seg h st.bottom its) (hn : st.items = its.length)
    (hi : i ∉ its) (hf : its.length < fuel) :
    Stack_itemExists fuel h (some s) (some i) = some 0 := by
  simp only [Stack_itemExists, hst, Option.bind_eq_bind, Option.some_bind]
  by_cases h0 : st.items = 0
  · simp [h0]
  · have hne : its ≠ [] := by
      intro e; rw [e] at hn; exact h0 hn
    simp only [h0, if_false]
    exact Stack_itemExists_loop_absent h i its _ fuel (hseg hne) hi hf

/-- The effect of `Stack_push` of a node that is not in the stack: the call
returns 1, the node is appended after the old top, the count grows by one,
and nothing else changes but the `next` link of the old top. -/
theorem Stack_push_absent (fuel : Nat) (h : Heap) (s i : Nat) (st : Stack) (x : StackItem)
    (its : List Nat) (hst : h.getStack s = some st) (hx : h.getItem i = some x)
    (hseg : its ≠ [] → Seg h st.bottom its) (hn : st.items = its.length)
    (hlt : its.length + 1 < UINT_MOD) (htop : its ≠ [] → st.top = its.getLast?)
    (hi : i ∉ its) (hnd : its.Nodup) (hf : its.length < fuel) :
    ∃ h' st', Stack_push fuel h (some s) (some i) = some (1, h') ∧
      h'.getStack s = some st' ∧ st'.items = its.length + 1 ∧ st'.top = some i ∧
      st'.owner = st.owner ∧ Seg h' st'.bottom (its ++ [i]) ∧
      h'.getItem i = some ⟨its.getLast?, none, x.owner⟩ ∧
      (∀ a y, a ≠ i → h.getItem a = some y →
        ∃ y', h'.getItem a = some y' ∧ y'.owner = y.owner ∧ y'.prev = y.prev ∧
          (some a ≠ its.getLast? → y'.next = y.next)) ∧
      (∀ a, a ≠ s → (∀ y, h.getItem a ≠ some y) → h'.mem a = h.mem a) ∧
      h'.brk = h.brk ∧ h'.avail = h.avail := by
  have hex := Stack_itemExists_absent fuel h s i st its hst hseg hn hi hf
  have his : i ≠ s := getItem_ne_getStack h i s x st hx hst
  have hmod : (its.length + 1) % UINT_MOD = its.length + 1 := Nat.mod_eq_of_lt hlt
  cases its with
  | nil =>
    have h0 : st.items = 0 := hn
    refine ⟨((((h.store i (.item { x with prev := none })).store s
      (.stack { st with bottom := some i, top := some i })).store i
      (.item { prev := none, next := none, owner := x.owner })).store s
      (.stack { bottom := some i, top := some i, items := 1, owner := st.owner })),
      { bottom := some i, top := some i, items := 1, owner := st.owner }, ?_, ?_, rfl, rfl,
      rfl, ?_, ?_, ?_, ?_, rfl, rfl⟩
    · simp only [Stack_push, hex, Option.bind_eq_bind, Option.some_bind, hst, h0, ne_eq,
        not_true_eq_false, if_false, if_true]
      rw [setItem_eq h i x _ hx, Option.some_bind,
        setStack_eq _ s st _ (by rw [getStack_store_other _ _ _ _ his.symm]; exact hst),
        Option.some_bind,
        setItem_eq _ i _ _ (by rw [getItem_store_other _ _ _ _ his, getItem_store_same]),
        Option.some_bind,
        setStack_eq _ s _ _ (by rw [getStack_store_other _ _ _ _ his.symm,
          getStack_store_same]),
        Option.some_bind]
      simp only [h0]
      rfl
    · exact getStack_store_same _ _ _
    · refine ⟨rfl, { prev := none, next := none, owner := x.owner }, ?_, ?_⟩
      · rw [getItem_store_other _ _ _ _ his, getItem_store_same]
      · exact rfl
    · rw [getItem_store_other _ _ _ _ his, getItem_store_same]; rfl
    · intro a y hai hy
      have has : a ≠ s := getItem_ne_getStack h a s y st hy hst
      refine ⟨y, ?_, rfl, rfl, fun _ => rfl⟩
      rw [getItem_store_other _ _ _ _ has, getItem_store_other _ _ _ _ hai,
        getItem_store_other _ _ _ _ has, getItem_store_other _ _ _ _ hai]
      exact hy
    · intro a has hna
      have hai : a ≠ i := by
        rintro rfl; exact hna x hx
      simp [Heap.store, has, hai]
  | cons b rest =>
    have hne : b :: rest ≠ [] := List.cons_ne_nil _ _
    have h0 : st.items ≠ 0 := by rw [hn]; simp
    obtain ⟨t, ht⟩ : ∃ t, (b :: rest).getLast? = some t :=
      ⟨(b :: rest).getLast hne, List.getLast?_eq_getLast _ hne⟩
    have htop' : st.top = some t := by rw [htop hne, ht]
    obtain ⟨tx, htx, _⟩ := Seg_getLast h _ _ (hseg hne) t ht
    have htmem : t ∈ b :: rest := List.mem_of_getLast?_eq_some ht
    have hti : t ≠ i := fun e => hi (e ▸ htmem)
    have hts : t ≠ s := getItem_ne_getStack h t s tx st htx hst
    have g1 : (h.store i (.item { x with prev := st.top })).getStack s = some st := by
      rw [getStack_store_other _ _ _ _ his.symm]; exact hst
    have g2 : (h.store i (.item { x with prev := st.top })).getItem t = some tx := by
      rw [getItem_store_other _ _ _ _ hti]; exact htx
    have g3 : ((h.store i (.item { x with prev := st.top })).store t
        (.item { tx with next := some i })).getStack s = some st := by
      rw [getStack_store_other _ _ _ _ hts.symm]; exact g1
    have g4 : (((h.store i (.item { x with prev := st.top })).store t
        (.item { tx with next := some i })).store s
        (.stack { st with top := some i })).getItem i = some { x with prev := st.top } := by
      rw [getItem_store_other _ _ _ _ his, getItem_store_other _ _ _ _ hti.symm,
        getItem_store_same]
    have g5 : ((((h.store i (.item { x with prev := st.top })).store t
        (.item { tx with next := some i })).store s
        (.stack { st with top := some i })).store i
        (.item { prev := st.top, next := none, owner := x.owner })).getStack s
        = some { st with top := some i } := by
      rw [getStack_store_other _ _ _ _ his.symm, getStack_store_same]
    refine ⟨(((((h.store i (.item { x with prev := st.top })).store t
        (.item { tx with next := some i })).store s
        (.stack { st with top := some i })).store i
        (.item { prev := st.top, next := none, owner := x.owner })).store s
        (.stack ⟨st.bottom, some i, (b :: rest).length + 1, st.owner⟩)),
      ⟨st.bottom, some i, (b :: rest).length + 1, st.owner⟩,
      ?_, ?_, rfl, rfl, rfl, ?_, ?_, ?_, ?_, rfl, rfl⟩
    · simp only [Stack_push, hex, Option.bind_eq_bind, Option.some_bind, hst, h0, ne_eq,
        not_true_eq_false, if_false]
      rw [setItem_eq h i x _ hx, Option.some_bind, g1, Option.some_bind]
      simp only [htop', Option.some_bind]
      rw [setItem_eq _ t tx _ (by rw [← htop']; exact g2), Option.some_bind,
        setStack_eq _ s st _ (by rw [← htop']; exact g3), Option.some_bind,
        setItem_eq _ i _ _ (by rw [← htop']; exact g4), Option.some_bind,
        setStack_eq _ s _ _ (by rw [← htop']; exact g5), Option.some_bind]
      simp only [hn, hmod, htop']
    · exact getStack_store_same _ _ _
    · refine Seg_snoc h i { prev := st.top, next := none, owner := x.owner } (b :: rest)
        st.bottom t tx _ (hseg hne) ht hi hnd htx rfl _ ?_ ?_ rfl
      · intro a ha
        obtain ⟨y, hy⟩ := Seg_mem_item h _ _ (hseg hne) a ha
        have has : a ≠ s := getItem_ne_getStack h a s y st hy hst
        have hai : a ≠ i := fun e => hi (e ▸ ha)
        rw [getItem_store_other _ _ _ _ has, getItem_store_other _ _ _ _ hai,
          getItem_store_other _ _ _ _ has]
        by_cases hat : a = t
        · subst hat
          rw [getItem_store_same, getItem_store_same]
        · rw [getItem_store_other _ _ _ _ hat, getItem_store_other _ _ _ _ hai,
            getItem_store_other _ _ _ _ hat]
      · rw [getItem_store_other _ _ _ _ his, getItem_store_same]
    · rw [getItem_store_other _ _ _ _ his, getItem_store_same, htop hne]
    · intro a y hai hy
      have has : a ≠ s := getItem_ne_getStack h a s y st hy hst
      rw [getItem_store_other _ _ _ _ has, getItem_store_other _ _ _ _ hai,
        getItem_store_other _ _ _ _ has]
      by_cases hat : a = t
      · subst hat
        rw [getItem_store_same]
        rw [htx] at hy
        obtain rfl := Option.some.inj hy
        exact ⟨_, rfl, rfl, rfl, fun hc => absurd (by rw [ht]) hc⟩
      · rw [getItem_store_other _ _ _ _ hat, getItem_store_other _ _ _ _ hai]
        exact ⟨y, hy, rfl, rfl, fun _ => rfl⟩
    · intro a has hna
      have hai : a ≠ i := by
        rintro rfl; exact hna x hx
      have hat : a ≠ t := by
        rintro rfl; exact hna tx htx
      simp [Heap.store, has, hai, hat]

/-! ## packet.c: the size loop -/

theorem Packet_getSize_loop_step (fuel : Nat) (h : Heap) (a n acc : Nat) (it : StackItem)
    (hit : h.getItem a = some it) (hn : nodeSize h a = some n) (hacc : acc < UINT_MOD) :
    Packet_getSize_loop (fuel + 1) h (some a) acc =
      Packet_getSize_loop fuel h it.next ((acc + n) % UINT_MOD) := by
  unfold nodeSize at hn
  simp only [hit, Option.bind_eq_bind, Option.some_bind] at hn
  simp only [Packet_getSize_loop, StackItem_getOwner, hit, Option.bind_eq_bind,
    Option.some_bind]
  cases ho : it.owner with
  | none =>
    simp only [ho, Option.some.injEq] at hn
    subst hn
    simp [Nat.mod_eq_of_lt hacc]
  | some pa =>
    simp only [ho, Option.bind_eq_some] at hn
    obtain ⟨p, hp, f, hf, hn⟩ := hn
    simp only [Option.some.injEq] at hn
    subst hn
    simp [hp, hf]

theorem Packet_getSize_loop_seg (h : Heap) (its : List Nat) :
    ∀ (sizes : List Nat) (p : Ptr) (fuel acc : Nat), Seg h p its →
      List.Forall₂ (fun a n => nodeSize h a = some n) its sizes →
      its.length < fuel → acc < UINT_MOD →
      Packet_getSize_loop fuel h p acc = some ((acc + sizes.sum) % UINT_MOD) := by
  induction its with
  | nil =>
    intro sizes p fuel acc hs hf hfu hacc
    cases hf
    cases fuel with
    | zero => simp at hfu
    | succ n =>
      rw [hs]
      simp [Packet_getSize_loop, Nat.mod_eq_of_lt hacc]
  | cons a rest ih =>
    intro sizes p fuel acc hs hf hfu hacc
    obtain ⟨hp, it, hit, hr⟩ := hs
    cases hf with
    | cons hn hrest =>
      rename_i n ns
      cases fuel with
      | zero => simp at hfu
      | succ fuel =>
        rw [hp, Packet_getSize_loop_step fuel h a n acc it hit hn hacc,
          ih ns it.next fuel _ hr hrest (by simp at hfu; omega)
            (Nat.mod_lt _ (by decide))]
        simp [Nat.add_assoc]

/-! ## The packet serialiser on a packet of three layers -/

theorem nodeSize_of_LayerOK (h : Heap) (k : Layer) (hd pb i : Nat) (hl : LayerOK h k hd pb i) :
    nodeSize h i = some k.fixedSize := by
  obtain ⟨_, l2, it, l3, l4⟩ := hl
  simp only [nodeSize, l3, Option.bind_eq_bind, Option.some_bind, l4, l2]
  cases k <;> rfl

/-- One pass of the `for` loop of `Packet_getBitstream` over the node of a
fully constructed layer: the codec of the layer is called on the header with
the buffer moved by the running offset and the remaining capacity, and the
value it returns is added to the offset. -/
theorem Packet_getBitstream_loop_step (fuel : Nat) (h : Heap) (k : Layer) (hd pb i : Nat)
    (it : StackItem) (m m1 : Bytes) (buf size off : Nat) (r : Int)
    (hl : LayerOK h k hd pb i) (hit : h.getItem i = some it)
    (hc : k.getBitstream h (some hd) m (some (buf + off))
      ((size + UINT_MOD - off) % UINT_MOD) = some (r, m1)) :
    Packet_getBitstream_loop (fuel + 1) h (some i) m buf size off =
      Packet_getBitstream_loop fuel h it.next m1 buf size
        ((off + toUnsigned r) % UINT_MOD) := by
  obtain ⟨_, l2, it', l3, l4⟩ := hl
  rw [hit] at l3
  obtain rfl := Option.some.inj l3
  have hc' : callGetBitstream k.bitstreamFn h (some hd) m (some (buf + off))
      ((size + UINT_MOD - off) % UINT_MOD) = some (r, m1) := by
    cases k <;> exact hc
  simp only [Packet_getBitstream_loop, StackItem_getOwner, hit, Option.bind_eq_bind,
    Option.some_bind, l4, l2, Protocol_getOwner, hc']

/-- C3: a packet whose stack links, from `bottom`, the nodes of three fully
constructed layers, in this order: an Ethernet header with the constructor's
values, an IPv4 header with the constructor's values, upper-protocol number 17
and total length 28, and a UDP header with the constructor's values (the
packet that the example program `p1.c` stacks).  `Packet_getSize` is 42 and
`Packet_getBitstream` into a 42-byte buffer writes exactly
00 01 02 03 04 05 06 07 08 09 0a 0b 08 00 | 45 00 00 1c 00 2a 00 00 40 11 12 34
11 22 33 44 55 66 77 88 | 00 00 00 00 00 08 00 00, the first-stacked layer
first, and nothing outside the buffer. -/
theorem C3_example_bitstream (fuel : Nat) (h : Heap) (pk s e eb en i ib inn u ub un : Nat)
    (st : Stack) (m : Bytes) (buf : Nat)
    (hpk : h.getPacket pk = some ⟨some s⟩) (hst : h.getStack s = some st)
    (hseg : Seg h st.bottom [en, inn, un])
    (hE : LayerOK h Layer.ether e eb en) (hI : LayerOK h (Layer.ipv4 17) i ib inn)
    (hU : LayerOK h Layer.udpv4 u ub un)
    (he : h.getEther e = some ⟨some eb, [0, 1, 2, 3, 4, 5], [6, 7, 8, 9, 10, 11], 0x0800⟩)
    (hi : h.getIpv4 i = some
      { version := 4, hdr_length := 5, tos := 0, length := 28, id := 42, flags := 0,
        frag_off := 0, ttl := 64, proto := 17, checksum := 0x1234, saddr := 0x11223344,
        daddr := 0x55667788, opts_padding := none, proto_base := some ib })
    (hu : h.getUdpv4 u = some ⟨0, 0, 8, 0, some ub⟩)
    (hf : 3 < fuel) :
    ∃ m', Packet_getSize fuel h (some pk) = some 42 ∧
      Packet_getBitstream fuel h (some pk) m (some buf) 42 = some (0, m') ∧
      readBytes m' buf 42 = p1_expected ∧
      ∀ a, (a < buf ∨ buf + 42 ≤ a) → m' a = m a := by
  obtain ⟨f4, rfl⟩ : ∃ f4, fuel = f4 + 4 := ⟨fuel - 4, by omega⟩
  obtain ⟨hb, it1, g1, n1, it2, g2, n2, it3, g3, hend⟩ := id hseg
  have hend' : it3.next = none := hend
  obtain ⟨m1, e1, b1, f1⟩ := EtherProto_getBitstream_bytes h e _ m buf 42 he (by decide)
  obtain ⟨m2, e2, b2, f2⟩ := Ipv4Proto_default_bytes h i 28 17 _ m1 (buf + 14) 28
    (by decide) (by decide) hi
  obtain ⟨m3, e3, b3, f3⟩ := Udpv4Proto_getBitstream_bytes h u _ m2 (buf + 34) 8 hu
    (le_refl _)
  have hsz : Packet_getSize (f4 + 4) h (some pk) = some 42 := by
    have hloop := Packet_getSize_loop_seg h [en, inn, un] [14, 20, 8] st.bottom (f4 + 4) 0 hseg
      (List.Forall₂.cons (nodeSize_of_LayerOK h _ e eb en hE)
        (List.Forall₂.cons (nodeSize_of_LayerOK h _ i ib inn hI)
          (List.Forall₂.cons (nodeSize_of_LayerOK h _ u ub un hU) List.Forall₂.nil)))
      (by simp) (by decide)
    simp only [Packet_getSize, hpk, hst, Option.bind_eq_bind, Option.some_bind, hloop]
    rfl
  have s1 := Packet_getBitstream_loop_step (f4 + 3) h Layer.ether e eb en it1 m m1 buf 42 0 14
    hE g1 e1
  have s2 := Packet_getBitstream_loop_step (f4 + 2) h (Layer.ipv4 17) i ib inn it2 m1 m2 buf 42
    14 20 hI g2 e2
  have s3 := Packet_getBitstream_loop_step (f4 + 1) h Layer.udpv4 u ub un it3 m2 m3 buf 42
    34 (-1) hU g3 e3
  refine ⟨m3, hsz, ?_, ?_, ?_⟩
  · simp only [Packet_getBitstream, hpk, hsz, hst, Option.bind_eq_bind, Option.some_bind,
      Nat.lt_irrefl, if_false]
    have o1 : (0 + toUnsigned 14) % UINT_MOD = 14 := by decide
    have o2 : (14 + toUnsigned 20) % UINT_MOD = 34 := by decide
    rw [hb, s1, n1, o1, s2, n2, o2, s3, hend']
    rfl
  · have t1 : readBytes m3 buf 14 = readBytes m1 buf 14 :=
      readBytes_congr m1 m3 14 buf (fun b h1 h2 => by
        rw [f3 b (by omega), f2 b (by omega)])
    have t2 : readBytes m3 (buf + 14) 20 = readBytes m2 (buf + 14) 20 :=
      readBytes_congr m2 m3 20 (buf + 14) (fun b h1 h2 => by rw [f3 b (by omega)])
    have e42 : (42 : Nat) = 14 + (20 + 8) := rfl
    rw [e42, readBytes_append, readBytes_append, t1, t2, b1, b2, Nat.add_assoc, b3]
    dsimp only
    rfl
  · intro a ha
    rw [f3 a (by omega), f2 a (by omega), f1 a (by omega)]

/-- Witness of C3: the heap on which the calls of `main` in `p1.c` end when
every `Protocol_create` hands back the value of its callee (`ret = id`), on
the initial heap with 11 allocations, and a buffer filled with ff. -/
theorem C3_example_bitstream_witness :
    ∃ h, p1_build id 4 (Heap.init 11) none 0 = some (some 1, h) ∧
      ∃ m', Packet_getSize 4 h (some 1) = some 42 ∧
        Packet_getBitstream 4 h (some 1) (fun _ => 0xff) (some 0) 42 = some (0, m') ∧
        readBytes m' 0 42 = p1_expected ∧
        ∀ a, (a < 0 ∨ 0 + 42 ≤ a) → m' a = (fun _ => 0xff) a := by
  obtain ⟨h, hb, hpk, hst, hseg, hE, hI, hU, he, hi, hu⟩ : ∃ h,
      p1_build id 4 (Heap.init 11) none 0 = some (some 1, h) ∧
      h.getPacket 1 = some ⟨some 0⟩ ∧
      h.getStack 0 = some ⟨some 3, some 8, 3, some 1⟩ ∧
      Seg h (some 3) [3, 6, 8] ∧
      LayerOK h Layer.ether 2 4 3 ∧ LayerOK h (Layer.ipv4 17) 5 7 6 ∧
      LayerOK h Layer.udpv4 10 9 8 ∧
      h.getEther 2 = some ⟨some 4, [0, 1, 2, 3, 4, 5], [6, 7, 8, 9, 10, 11], 0x0800⟩ ∧
      h.getIpv4 5 = some
        { version := 4, hdr_length := 5, tos := 0, length := 28, id := 42, flags := 0,
          frag_off := 0, ttl := 64, proto := 17, checksum := 0x1234, saddr := 0x11223344,
          daddr := 0x55667788, opts_padding := none, proto_base := some 7 } ∧
      h.getUdpv4 10 = some ⟨0, 0, 8, 0, some 9⟩ :=
    ⟨_, rfl, rfl, rfl, ⟨rfl, _, rfl, rfl, _, rfl, rfl, _, rfl, rfl⟩,
      ⟨rfl, rfl, _, rfl, rfl⟩, ⟨rfl, rfl, _, rfl, rfl⟩, ⟨rfl, rfl, _, rfl, rfl⟩,
      rfl, rfl, rfl⟩
  exact ⟨h, hb, C3_example_bitstream 4 h 1 0 2 4 3 5 7 6 10 9 8 _ (fun _ => 0xff) 0
    hpk hst hseg hE hI hU he hi hu (by decide)⟩

/-! ## The constructors -/

theorem malloc_ok (h : Heap) (hav : h.avail ≠ 0) :
    h.malloc = (some h.brk, { h with brk := h.brk + 1, avail := h.avail - 1 }) := by
  simp [Heap.malloc, hav]

theorem getProtocol_store_same (h : Heap) (a : Nat) (x : Protocol) :
    (h.store a (.protocol x)).getProtocol a = some x := by
  simp [Heap.getProtocol, Heap.store]

theorem setProtocol_eq (h : Heap) (a : Nat) (x : Protocol) (f : Protocol → Protocol)
    (ha : h.getProtocol a = some x) :
    h.setProtocol a f = some (h.store a (.protocol (f x))) := by
  simp [Heap.setProtocol, ha]

theorem StackItem_create_ok (h : Heap) (hav : h.avail ≠ 0) :
    StackItem_create h = (some h.brk,
      Heap.store { h with brk := h.brk + 1, avail := h.avail - 1 } h.brk
        (.item ⟨none, none, none⟩)) := by
  simp [StackItem_create, StackItem_createWithParams, malloc_ok h hav]

theorem Protocol_createWithParams_ok (h : Heap) (gs : Option GetSizeFn)
    (gb : Option GetBitstreamFn) (i : Nat) (x : StackItem) (o : Ptr) (hav : h.avail ≠ 0)
    (hx : h.getItem i = some x) :
    Protocol_createWithParams h gs gb (some i) o = some (some h.brk,
      Heap.store (Heap.store { h with brk := h.brk + 1, avail := h.avail - 1 } i
        (.item { x with owner := some h.brk })) h.brk (.protocol ⟨none, none, some i, none⟩))
      := by
  have hx' : Heap.getItem { h with brk := h.brk + 1, avail := h.avail - 1 } i = some x := hx
  simp [Protocol_createWithParams, malloc_ok h hav, StackItem_setOwner, setItem_eq _ _ _ _ hx']

/-- `Protocol_create` in a build in which the caller receives the value of the
callee (`ret = id`), on a heap with room for the node and the `Protocol_t`. -/
theorem Protocol_create_ok (h : Heap) (hav : 2 ≤ h.avail) :
    ∃ h', Protocol_create id h = some (some (h.brk + 1), h') ∧ h'.brk = h.brk + 2 ∧
      h'.avail = h.avail - 2 ∧
      h'.getItem h.brk = some ⟨none, none, some (h.brk + 1)⟩ ∧
      h'.getProtocol (h.brk + 1) = some ⟨none, none, some h.brk, none⟩ ∧
      ∀ a, a ≠ h.brk → a ≠ h.brk + 1 → h'.mem a = h.mem a := by
  have h1 : h.avail ≠ 0 := by omega
  have h2 : h.avail - 1 ≠ 0 := by omega
  simp only [Protocol_create, StackItem_create_ok h h1]
  rw [Protocol_createWithParams_ok _ _ _ h.brk ⟨none, none, none⟩ _ h2
    (getItem_store_same _ _ _)]
  refine ⟨_, rfl, rfl, ?_, ?_, ?_, ?_⟩
  · show h.avail - 1 - 1 = h.avail - 2
    omega
  · rw [getItem_store_other _ _ _ _ (by simp [Heap.store]), getItem_store_same]
    rfl
  · exact getProtocol_store_same _ _ _
  · intro a ha hb
    simp [Heap.store, ha, hb]

/-- `EtherProto_create` with `ret = id` on a heap with room for its three
allocations returns a fully constructed layer. -/
theorem EtherProto_create_ok (h : Heap) (hav : 3 ≤ h.avail) :
    ∃ h', EtherProto_create id h = some (some h.brk, h') ∧ h'.brk = h.brk + 3 ∧
      h'.avail = h.avail - 3 ∧ LayerOK h' .ether h.brk (h.brk + 2) (h.brk + 1) ∧
      ∀ a, (a < h.brk ∨ h.brk + 3 ≤ a) → h'.mem a = h.mem a := by
  have h1 : h.avail ≠ 0 := by omega
  obtain ⟨h2, e2, b2, a2, i2, p2, f2⟩ :=
    Protocol_create_ok { h with brk := h.brk + 1, avail := h.avail - 1 }
      (show 2 ≤ h.avail - 1 by omega)
  dsimp only at e2 b2 a2 i2 p2 f2
  simp only [EtherProto_create, malloc_ok h h1, e2, Option.bind_eq_bind, Option.some_bind]
  rw [setProtocol_eq h2 _ _ _ p2, Option.some_bind,
    setProtocol_eq _ _ _ _ (getProtocol_store_same _ _ _), Option.some_bind]
  simp only [Protocol_setOwner, setProtocol_eq _ _ _ _ (getProtocol_store_same _ _ _),
    Option.bind_eq_bind, Option.some_bind]
  simp only [one_ne_zero, if_false]
  refine ⟨_, rfl, b2, ?_, ⟨?_, ?_, ?_⟩, ?_⟩
  · show h2.avail = h.avail - 3
    omega
  · simp [Layer.getProtoBase, EtherProto_getProtoBase, Heap.getEther, Heap.store]
  · rw [getProtocol_store_other _ _ _ _ (by omega)]
    exact getProtocol_store_same _ _ _
  · refine ⟨⟨none, none, some (h.brk + 1 + 1)⟩, ?_, rfl⟩
    rw [getItem_store_other _ _ _ _ (by omega), getItem_store_other _ _ _ _ (by omega),
      getItem_store_other _ _ _ _ (by omega), getItem_store_other _ _ _ _ (by omega)]
    exact i2
  · intro a ha
    have := f2 a (by omega) (by omega)
    simp only [Heap.store]
    rw [if_neg (by omega), if_neg (by omega), if_neg (by omega), if_neg (by omega)]
    exact this

/-- `Ipv4Proto_create` with `ret = id` on a heap with room for its three
allocations returns a fully constructed layer. -/
theorem Ipv4Proto_create_ok (h : Heap) (junk : Nat) (hav : 3 ≤ h.avail) :
    ∃ h', Ipv4Proto_create id h junk = some (some h.brk, h') ∧ h'.brk = h.brk + 3 ∧
      h'.avail = h.avail - 3 ∧ LayerOK h' (.ipv4 junk) h.brk (h.brk + 2) (h.brk + 1) ∧
      ∀ a, (a < h.brk ∨ h.brk + 3 ≤ a) → h'.mem a = h.mem a := by
  have h1 : h.avail ≠ 0 := by omega
  obtain ⟨h2, e2, b2, a2, i2, p2, f2⟩ :=
    Protocol_create_ok { h with brk := h.brk + 1, avail := h.avail - 1 }
      (show 2 ≤ h.avail - 1 by omega)
  dsimp only at e2 b2 a2 i2 p2 f2
  simp only [Ipv4Proto_create, malloc_ok h h1, e2, Option.bind_eq_bind, Option.some_bind]
  rw [setProtocol_eq h2 _ _ _ p2, Option.some_bind,
    setProtocol_eq _ _ _ _ (getProtocol_store_same _ _ _), Option.some_bind]
  simp only [Protocol_setOwner, setProtocol_eq _ _ _ _ (getProtocol_store_same _ _ _),
    Option.bind_eq_bind, Option.some_bind]
  simp only [one_ne_zero, if_false]
  refine ⟨_, rfl, b2, ?_, ⟨?_, ?_, ?_⟩, ?_⟩
  · show h2.avail = h.avail - 3
    omega
  · simp [Layer.getProtoBase, Ipv4Proto_getProtoBase, Heap.getIpv4, Heap.store]
  · rw [getProtocol_store_other _ _ _ _ (by omega)]
    exact getProtocol_store_same _ _ _
  · refine ⟨⟨none, none, some (h.brk + 1 + 1)⟩, ?_, rfl⟩
    rw [getItem_store_other _ _ _ _ (by omega), getItem_store_other _ _ _ _ (by omega),
      getItem_store_other _ _ _ _ (by omega), getItem_store_other _ _ _ _ (by omega)]
    exact i2
  · intro a ha
    have := f2 a (by omega) (by omega)
    simp only [Heap.store]
    rw [if_neg (by omega), if_neg (by omega), if_neg (by omega), if_neg (by omega)]
    exact this

/-- `Udpv4Proto_create` with `ret = id` on a heap with room for its three
allocations returns a fully constructed layer. -/
theorem Udpv4Proto_create_ok (h : Heap) (hav : 3 ≤ h.avail) :
    ∃ h', Udpv4Proto_create id h = some (some (h.brk + 2), h') ∧ h'.brk = h.brk + 3 ∧
      h'.avail = h.avail - 3 ∧ LayerOK h' .udpv4 (h.brk + 2) (h.brk + 1) h.brk ∧
      ∀ a, (a < h.brk ∨ h.brk + 3 ≤ a) → h'.mem a = h.mem a := by
  obtain ⟨h2, e2, b2, a2, i2, p2, f2⟩ := Protocol_create_ok h (show 2 ≤ h.avail by omega)
  have h3 : h2.avail ≠ 0 := by omega
  have p2' : Heap.getProtocol { h2 with brk := h2.brk + 1, avail := h2.avail - 1 }
      (h.brk + 1) = some ⟨none, none, some h.brk, none⟩ := p2
  simp only [Udpv4Proto_create, e2, Option.bind_eq_bind, Option.some_bind,
    Udpv4Proto_createWithParams, malloc_ok h2 h3, Protocol_setOwner, Protocol_setGetSize,
    Protocol_setGetBitstream]
  simp only [setProtocol_eq _ _ _ _ p2', Option.some_bind]
  simp only [setProtocol_eq _ _ _ _ (getProtocol_store_same _ _ _), Option.some_bind]
  rw [b2]
  refine ⟨_, rfl, ?_, ?_, ⟨?_, ?_, ?_⟩, ?_⟩
  · show h.brk + 2 + 1 = h.brk + 3
    omega
  · show h2.avail - 1 = h.avail - 3
    omega
  · simp [Layer.getProtoBase, Udpv4Proto_getProtoBase, Heap.getUdpv4, Heap.store]
  · rw [getProtocol_store_other _ _ _ _ (by omega)]
    exact getProtocol_store_same _ _ _
  · refine ⟨⟨none, none, some (h.brk + 1)⟩, ?_, rfl⟩
    rw [getItem_store_other _ _ _ _ (by omega), getItem_store_other _ _ _ _ (by omega),
      getItem_store_other _ _ _ _ (by omega), getItem_store_other _ _ _ _ (by omega)]
    exact i2
  · intro a ha
    have := f2 a (by omega) (by omega)
    simp only [Heap.store]
    rw [if_neg (by omega), if_neg (by omega), if_neg (by omega), if_neg (by omega)]
    exact this

theorem Layer_create_ok (k : Layer) (h : Heap) (hav : 3 ≤ h.avail) :
    ∃ hd pb i h', k.create id h = some (some hd, h') ∧ h'.brk = h.brk + 3 ∧
      h'.avail = h.avail - 3 ∧ LayerOK h' k hd pb i ∧
      (h.brk ≤ hd ∧ hd < h.brk + 3) ∧ (h.brk ≤ pb ∧ pb < h.brk + 3) ∧
      (h.brk ≤ i ∧ i < h.brk + 3) ∧
      ∀ a, (a < h.brk ∨ h.brk + 3 ≤ a) → h'.mem a = h.mem a := by
  cases k with
  | ether =>
    obtain ⟨h', e, b, a, l, f⟩ := EtherProto_create_ok h hav
    exact ⟨_, _, _, h', e, b, a, l, by omega, by omega, by omega, f⟩
  | ipv4 junk =>
    obtain ⟨h', e, b, a, l, f⟩ := Ipv4Proto_create_ok h junk hav
    exact ⟨_, _, _, h', e, b, a, l, by omega, by omega, by omega, f⟩
  | udpv4 =>
    obtain ⟨h', e, b, a, l, f⟩ := Udpv4Proto_create_ok h hav
    exact ⟨_, _, _, h', e, b, a, l, by omega, by omega, by omega, f⟩

theorem getProtoBase_congr (k : Layer) (h h' : Heap) (hd : Nat)
    (hm : h'.mem hd = h.mem hd) :
    k.getProtoBase h' (some hd) = k.getProtoBase h (some hd) := by
  cases k <;>
    simp [Layer.getProtoBase, EtherProto_getProtoBase, Ipv4Proto_getProtoBase,
      Udpv4Proto_getProtoBase, Heap.getEther, Heap.getIpv4, Heap.getUdpv4, hm]

theorem getProtocol_congr (h h' : Heap) (a : Nat) (hm : h'.mem a = h.mem a) :
    h'.getProtocol a = h.getProtocol a := by
  simp [Heap.getProtocol, hm]

theorem getItem_congr (h h' : Heap) (a : Nat) (hm : h'.mem a = h.mem a) :
    h'.getItem a = h.getItem a := by
  simp [Heap.getItem, hm]

theorem getStack_congr (h h' : Heap) (a : Nat) (hm : h'.mem a = h.mem a) :
    h'.getStack a = h.getStack a := by
  simp [Heap.getStack, hm]

theorem getPacket_congr (h h' : Heap) (a : Nat) (hm : h'.mem a = h.mem a) :
    h'.getPacket a = h.getPacket a := by
  simp [Heap.getPacket, hm]

theorem LayerOK_congr (k : Layer) (h h' : Heap) (hd pb i : Nat)
    (h1 : h'.mem hd = h.mem hd) (h2 : h'.mem pb = h.mem pb) (h3 : h'.mem i = h.mem i)
    (hl : LayerOK h k hd pb i) : LayerOK h' k hd pb i := by
  obtain ⟨l1, l2, it, l3, l4⟩ := hl
  refine ⟨?_, ?_, it, ?_, l4⟩
  · rw [getProtoBase_congr k h h' hd h1]; exact l1
  · rw [getProtocol_congr h h' pb h2]; exact l2
  · rw [getItem_congr h h' i h3]; exact l3

theorem createLayers_ok (layers : List Layer) : ∀ h, 3 * layers.length ≤ h.avail →
    ∃ hs is h', createLayers id h layers = some (hs, h') ∧
      h'.brk = h.brk + 3 * layers.length ∧ h'.avail = h.avail - 3 * layers.length ∧
      (∀ a, (a < h.brk ∨ h'.brk ≤ a) → h'.mem a = h.mem a) ∧
      hs.map Prod.fst = layers ∧
      List.Forall₂ (fun (x : Layer × Ptr) (i : Nat) => ∃ hd pb, x.2 = some hd ∧
        LayerOK h' x.1 hd pb i) hs is ∧
      is.Nodup ∧ ∀ i ∈ is, h.brk ≤ i ∧ i < h'.brk := by
  induction layers with
  | nil =>
    intro h _
    exact ⟨[], [], h, rfl, rfl, rfl, fun _ _ => rfl, rfl, List.Forall₂.nil, List.nodup_nil,
      fun i hi => by simp at hi⟩
  | cons k rest ih =>
    intro h hav
    simp only [List.length_cons] at hav
    obtain ⟨hd, pb, i, h1, e1, b1, a1, l1, bh, bp, bi, f1⟩ := Layer_create_ok k h (by omega)
    obtain ⟨hs, is, h', e2, b2, a2, f2, m2, l2, n2, r2⟩ := ih h1 (by omega)
    refine ⟨(k, some hd) :: hs, i :: is, h', ?_, ?_, ?_, ?_, ?_, ?_, ?_, ?_⟩
    · simp [createLayers, e1, e2]
    · simp only [List.length_cons]; omega
    · simp only [List.length_cons]; omega
    · intro a ha
      rw [f2 a (by omega), f1 a (by omega)]
    · simp [m2]
    · refine List.Forall₂.cons ⟨hd, pb, rfl, ?_⟩ l2
      exact LayerOK_congr k h1 h' hd pb i (f2 hd (by omega)) (f2 pb (by omega))
        (f2 i (by omega)) l1
    · refine List.nodup_cons.mpr ⟨fun hi => ?_, n2⟩
      have := r2 i hi
      omega
    · intro j hj
      rcases List.mem_cons.mp hj with rfl | hj
      · omega
      · have := r2 j hj
        omega

theorem getPacket_store_same (h : Heap) (a : Nat) (x : Packet) :
    (h.store a (.packet x)).getPacket a = some x := by
  simp [Heap.getPacket, Heap.store]

theorem Packet_create_ok (h : Heap) (junk : Ptr) (hav : 2 ≤ h.avail) :
    ∃ h', Packet_create h junk = some (some (h.brk + 1), h') ∧ h'.brk = h.brk + 2 ∧
      h'.avail = h.avail - 2 ∧ h'.getPacket (h.brk + 1) = some ⟨some h.brk⟩ ∧
      h'.getStack h.brk = some ⟨none, none, 0, some (h.brk + 1)⟩ ∧
      ∀ a, (a < h.brk ∨ h.brk + 2 ≤ a) → h'.mem a = h.mem a := by
  have h1 : h.avail ≠ 0 := by omega
  have h2 : (Heap.store { h with brk := h.brk + 1, avail := h.avail - 1 } h.brk
      (.stack ⟨none, none, 0, junk⟩)).avail ≠ 0 := by
    show h.avail - 1 ≠ 0
    omega
  simp only [Packet_create, Stack_create, malloc_ok h h1, Packet_createWithParams,
    malloc_ok _ h2, Stack_setOwner]
  have g : Heap.getStack
      { mem := (Heap.store { h with brk := h.brk + 1, avail := h.avail - 1 } h.brk
          (.stack ⟨none, none, 0, junk⟩)).mem,
        brk := (Heap.store { h with brk := h.brk + 1, avail := h.avail - 1 } h.brk
          (.stack ⟨none, none, 0, junk⟩)).brk + 1,
        avail := (Heap.store { h with brk := h.brk + 1, avail := h.avail - 1 } h.brk
          (.stack ⟨none, none, 0, junk⟩)).avail - 1,
        script := (Heap.store { h with brk := h.brk + 1, avail := h.avail - 1 } h.brk
          (.stack ⟨none, none, 0, junk⟩)).script } h.brk
      = some ⟨none, none, 0, junk⟩ := by
    simp [Heap.getStack, Heap.store]
  simp only [setStack_eq _ _ _ _ g, Option.bind_eq_bind, Option.some_bind, ne_eq,
    not_true_eq_false, if_false]
  refine ⟨_, rfl, rfl, ?_, ?_, ?_, ?_⟩
  · show h.avail - 1 - 1 = h.avail - 2
    omega
  · simp [Heap.getPacket, Heap.store]
  · simp [Heap.getStack, Heap.store]
  · intro a ha
    have e1 : a ≠ h.brk := by omega
    have e2 : a ≠ h.brk + 1 := by omega
    simp [Heap.store, e1, e2]

/-! ## Stacking layers -/

theorem not_item_of_getProtocol (h : Heap) (a : Nat) (p : Protocol)
    (hp : h.getProtocol a = some p) : ∀ y, h.getItem a ≠ some y :=
  fun y hy => getItem_ne_getProtocol h a a y p hy hp rfl

theorem nodeSize_preserved (h h1 : Heap) (s : Nat) (st : Stack)
    (hst : h.getStack s = some st)
    (hq : ∀ a y, h.getItem a = some y → ∃ y', h1.getItem a = some y' ∧ y'.owner = y.owner)
    (hfr : ∀ a, a ≠ s → (∀ y, h.getItem a ≠ some y) → h1.mem a = h.mem a)
    (a n : Nat) (hn : nodeSize h a = some n) : nodeSize h1 a = some n := by
  unfold nodeSize at hn ⊢
  simp only [Option.bind_eq_bind, Option.bind_eq_some] at hn
  obtain ⟨it, hit, hn⟩ := hn
  obtain ⟨it', hit', ho⟩ := hq a it hit
  simp only [hit', Option.bind_eq_bind, Option.some_bind, ho]
  cases hown : it.owner with
  | none => simpa [hown] using hn
  | some pa =>
    simp only [hown, Option.bind_eq_some] at hn ⊢
    obtain ⟨p, hp, f, hf, hn⟩ := hn
    refine ⟨p, ?_, f, hf, hn⟩
    rw [getProtocol_congr h h1 pa
      (hfr pa (getStack_ne_getProtocol h s pa st p hst hp).symm
        (not_item_of_getProtocol h pa p hp))]
    exact hp

theorem getEther_mem (h : Heap) (a : Nat) (e : EtherProto) (he : h.getEther a = some e) :
    h.mem a = some (.ether e) := by
  unfold Heap.getEther at he
  split at he <;> simp_all

theorem getIpv4_mem (h : Heap) (a : Nat) (e : Ipv4Proto) (he : h.getIpv4 a = some e) :
    h.mem a = some (.ipv4 e) := by
  unfold Heap.getIpv4 at he
  split at he <;> simp_all

theorem getUdpv4_mem (h : Heap) (a : Nat) (e : Udpv4Proto) (he : h.getUdpv4 a = some e) :
    h.mem a = some (.udpv4 e) := by
  unfold Heap.getUdpv4 at he
  split at he <;> simp_all

theorem getProtoBase_mem (k : Layer) (h : Heap) (hd pb : Nat)
    (hb : k.getProtoBase h (some hd) = some (some pb)) :
    (∀ y, h.getItem hd ≠ some y) ∧ (∀ st, h.getStack hd ≠ some st) := by
  cases k with
  | ether =>
    simp only [Layer.getProtoBase, EtherProto_getProtoBase, Option.bind_eq_bind,
      Option.bind_eq_some] at hb
    obtain ⟨e, he, _⟩ := hb
    have hm := getEther_mem h hd e he
    constructor <;> intro y hy <;> simp [Heap.getItem, Heap.getStack, hm] at hy
  | ipv4 junk =>
    simp only [Layer.getProtoBase, Ipv4Proto_getProtoBase, Option.bind_eq_bind,
      Option.some_bind, Option.bind_eq_some] at hb
    obtain ⟨e, he, _⟩ := hb
    have hm := getIpv4_mem h hd e he
    constructor <;> intro y hy <;> simp [Heap.getItem, Heap.getStack, hm] at hy
  | udpv4 =>
    simp only [Layer.getProtoBase, Udpv4Proto_getProtoBase, Option.bind_eq_bind,
      Option.bind_eq_some] at hb
    obtain ⟨e, he, _⟩ := hb
    have hm := getUdpv4_mem h hd e he
    constructor <;> intro y hy <;> simp [Heap.getItem, Heap.getStack, hm] at hy

theorem LayerOK_preserved (k : Layer) (h h1 : Heap) (s : Nat) (st : Stack)
    (hst : h.getStack s = some st)
    (hq : ∀ a y, h.getItem a = some y → ∃ y', h1.getItem a = some y' ∧ y'.owner = y.owner)
    (hfr : ∀ a, a ≠ s → (∀ y, h.getItem a ≠ some y) → h1.mem a = h.mem a)
    (hd pb i : Nat) (hl : LayerOK h k hd pb i) : LayerOK h1 k hd pb i := by
  obtain ⟨l1, l2, it, l3, l4⟩ := hl
  obtain ⟨it', hit', ho⟩ := hq i it l3
  obtain ⟨n1, n2⟩ := getProtoBase_mem k h hd pb l1
  refine ⟨?_, ?_, it', hit', by rw [ho]; exact l4⟩
  · rw [getProtoBase_congr k h h1 hd (hfr hd (fun e => n2 st (e ▸ hst)) n1)]; exact l1
  · rw [getProtocol_congr h h1 pb
      (hfr pb (getStack_ne_getProtocol h s pb st _ hst l2).symm
        (not_item_of_getProtocol h pb _ l2))]
    exact l2

theorem callGetSize_sizeFn (k : Layer) (a b : Ptr) :
    callGetSize k.sizeFn a = k.getSize b := by
  cases k <;> rfl

theorem getPacket_ne_getStack (h : Heap) (a b : Nat) (x : Packet) (st : Stack)
    (ha : h.getPacket a = some x) (hb : h.getStack b = some st) : a ≠ b := by
  rintro rfl
  unfold Heap.getPacket at ha
  unfold Heap.getStack at hb
  split at ha <;> simp_all

theorem getPacket_not_item (h : Heap) (a : Nat) (x : Packet)
    (ha : h.getPacket a = some x) : ∀ y, h.getItem a ≠ some y := by
  intro y hy
  unfold Heap.getPacket at ha
  unfold Heap.getItem at hy
  split at ha <;> simp_all

theorem stackLayers_ok (fuel pk s : Nat) : ∀ (hs : List (Layer × Ptr)) (is : List Nat)
    (h : Heap) (pushed sizes : List Nat) (st : Stack),
    h.getPacket pk = some ⟨some s⟩ → h.getStack s = some st →
    Seg h st.bottom pushed → st.items = pushed.length →
    (pushed ≠ [] → st.top = pushed.getLast?) → pushed.Nodup →
    (∀ i ∈ is, i ∉ pushed) → is.Nodup →
    List.Forall₂ (fun (x : Layer × Ptr) (i : Nat) => ∃ hd pb, x.2 = some hd ∧
      LayerOK h x.1 hd pb i) hs is →
    List.Forall₂ (fun a n => nodeSize h a = some n) pushed sizes →
    pushed.length + is.length < UINT_MOD → pushed.length + is.length < fuel →
    ∃ rets h' st', stackLayers fuel h (some pk) hs = some (rets, h') ∧
      rets = List.replicate hs.length 1 ∧
      h'.getPacket pk = some ⟨some s⟩ ∧ h'.getStack s = some st' ∧
      Seg h' st'.bottom (pushed ++ is) ∧ st'.items = (pushed ++ is).length ∧
      List.Forall₂ (fun a n => nodeSize h' a = some n) (pushed ++ is)
        (sizes ++ hs.map (fun x => x.1.getSize x.2)) ∧
      h'.brk = h.brk ∧ h'.avail = h.avail := by
  intro hs
  induction hs with
  | nil =>
    intro is h pushed sizes st hpk hst hseg hn _ _ _ _ hl hsz _ _
    cases hl
    refine ⟨[], h, st, rfl, rfl, hpk, hst, ?_, ?_, ?_, rfl, rfl⟩
    · simpa using hseg
    · simpa using hn
    · simpa using hsz
  | cons x rest ih =>
    intro is h pushed sizes st hpk hst hseg hn htop hnd hdis hnd2 hl hsz hlt hfu
    obtain ⟨k, hdr⟩ := x
    cases hl with
    | cons hx hrest =>
      rename_i i is'
      obtain ⟨hd, pb, rfl, hlay⟩ := hx
      obtain ⟨l1, l2, it, l3, l4⟩ := hlay
      simp only [List.length_cons] at hlt hfu
      obtain ⟨h1, st1, e1, g1, n1, t1, _, s1, i1, q1, f1, b1, a1⟩ :=
        Stack_push_absent fuel h s i st it pushed hst l3 (fun _ => hseg) hn (by omega) htop
          (hdis i (List.mem_cons_self _ _)) hnd (by omega)
      have hq : ∀ a y, h.getItem a = some y →
          ∃ y', h1.getItem a = some y' ∧ y'.owner = y.owner := by
        intro a y hy
        by_cases hai : a = i
        · subst hai
          rw [l3] at hy
          obtain rfl := Option.some.inj hy
          exact ⟨_, i1, rfl⟩
        · obtain ⟨y', e, o, _⟩ := q1 a y hai hy
          exact ⟨y', e, o⟩
      have hpk1 : h1.getPacket pk = some ⟨some s⟩ := by
        rw [getPacket_congr h h1 pk (f1 pk (getPacket_ne_getStack h pk s _ st hpk hst)
          (getPacket_not_item h pk _ hpk))]
        exact hpk
      have hsz1 : List.Forall₂ (fun a n => nodeSize h1 a = some n) (pushed ++ [i])
          (sizes ++ [k.getSize (some hd)]) := by
        refine List.rel_append (List.Forall₂.imp
          (fun a n hn => nodeSize_preserved h h1 s st hst hq f1 a n hn) hsz) ?_
        refine List.Forall₂.cons ?_ List.Forall₂.nil
        have hp1 : h1.getProtocol pb = some ⟨some k.sizeFn, some k.bitstreamFn, some i,
            some hd⟩ := by
          rw [getProtocol_congr h h1 pb
            (f1 pb (getStack_ne_getProtocol h s pb st _ hst l2).symm
              (not_item_of_getProtocol h pb _ l2))]
          exact l2
        simp only [nodeSize, i1, Option.bind_eq_bind, Option.some_bind, l4, hp1]
        rw [callGetSize_sizeFn k (some pb) (some hd)]
      have hdis1 : ∀ j ∈ is', j ∉ pushed ++ [i] := by
        intro j hj hm
        rcases List.mem_append.mp hm with hm | hm
        · exact hdis j (List.mem_cons_of_mem _ hj) hm
        · simp only [List.mem_singleton] at hm
          subst hm
          exact (List.nodup_cons.mp hnd2).1 hj
      have hnd1 : (pushed ++ [i]).Nodup := by
        rw [List.nodup_append]
        refine ⟨hnd, List.nodup_singleton _, ?_⟩
        intro a ha hb
        simp only [List.mem_singleton] at hb
        subst hb
        exact hdis a (List.mem_cons_self _ _) ha
      obtain ⟨rets, h', st', e2, r2, p2, g2, s2, n2, z2, b2, a2⟩ :=
        ih is' h1 (pushed ++ [i]) (sizes ++ [k.getSize (some hd)]) st1 hpk1 g1 s1
          (by simp [n1]) (fun _ => by simp [t1]) hnd1 hdis1 (List.nodup_cons.mp hnd2).2
          (List.Forall₂.imp (fun x j ⟨hd', pb', e, l⟩ =>
            ⟨hd', pb', e, LayerOK_preserved x.1 h h1 s st hst hq f1 hd' pb' j l⟩) hrest)
          hsz1 (by simp; omega) (by simp; omega)
      refine ⟨1 :: rets, h', st', ?_, ?_, p2, g2, ?_, ?_, ?_, by rw [b2, b1],
        by rw [a2, a1]⟩
      · simp only [stackLayers, l1, Option.bind_eq_bind, Option.some_bind, Packet_stack, hpk,
          Protocol_getItem, l2, e1, e2]
      · simp [r2, List.replicate_succ]
      · simpa using s2
      · simpa using n2
      · simpa using z2

/-! ## Size of a packet built from a list of layers -/

theorem Layer_getSize_eq (k : Layer) (hdr : Ptr) : k.getSize hdr = k.fixedSize := by
  cases k <;> rfl

theorem map_getSize_eq (hs : List (Layer × Ptr)) :
    hs.map (fun x => x.1.getSize x.2) = (hs.map Prod.fst).map Layer.fixedSize := by
  induction hs with
  | nil => rfl
  | cons x rest ih => simp [Layer_getSize_eq, ih]

/-- Building a packet from a list of layers, in a build in which
`Protocol_create` hands back the value of its callee (`ret = id`), succeeds
when the allocator has room for the 3 objects per layer and the 2 objects of
the packet; every
`Packet_stack` call returns 1 and `Packet_getSize` returns the sum of the
fixed sizes modulo `2 ^ 32`. -/
theorem buildPacket_getSize (fuel : Nat) (h : Heap) (junkOwner : Ptr) (layers : List Layer)
    (hav : 3 * layers.length + 2 ≤ h.avail) (hlen : layers.length < UINT_MOD)
    (hfuel : layers.length < fuel) :
    ∃ b, buildPacket id fuel h junkOwner layers = some b ∧
      b.rets = List.replicate layers.length 1 ∧ b.hdrs.map Prod.fst = layers ∧
      Packet_getSize fuel b.heap b.pack = some (totalSize layers % UINT_MOD) := by
  obtain ⟨h1, e1, b1, a1, p1, s1, _⟩ := Packet_create_ok h junkOwner (by omega)
  obtain ⟨hs, is, h2, e2, b2, a2, f2, m2, l2, n2, r2⟩ := createLayers_ok layers h1 (by omega)
  have hpk2 : h2.getPacket (h.brk + 1) = some ⟨some h.brk⟩ := by
    rw [getPacket_congr h1 h2 _ (f2 _ (by omega))]; exact p1
  have hst2 : h2.getStack h.brk = some ⟨none, none, 0, some (h.brk + 1)⟩ := by
    rw [getStack_congr h1 h2 _ (f2 _ (by omega))]; exact s1
  have hlen2 : is.length = layers.length := by
    rw [← l2.length_eq, ← m2, List.length_map]
  obtain ⟨rets, h3, st3, e3, r3, p3, g3, s3, n3, z3, _, _⟩ :=
    stackLayers_ok fuel (h.brk + 1) h.brk hs is h2 [] [] _ hpk2 hst2 rfl rfl
      (fun hne => absurd rfl hne) List.nodup_nil (fun _ _ => List.not_mem_nil _) n2 l2
      List.Forall₂.nil (by simp; omega) (by simp; omega)
  refine ⟨⟨some (h.brk + 1), hs, rets, h3⟩, ?_, ?_, m2, ?_⟩
  · simp [buildPacket, e1, e2, e3]
  · rw [r3, ← m2, List.length_map]
  · simp only [List.nil_append] at s3 z3
    have hloop := Packet_getSize_loop_seg h3 is _ st3.bottom fuel 0 s3 z3 (by omega)
      (by decide)
    simp only [Packet_getSize, p3, g3, Option.bind_eq_bind, Option.some_bind, hloop]
    rw [map_getSize_eq, m2]
    simp [totalSize]

theorem length_le_totalSize (layers : List Layer) : layers.length ≤ totalSize layers := by
  induction layers with
  | nil => simp [totalSize]
  | cons k rest ih =>
    have : 1 ≤ k.fixedSize := by cases k <;> simp [Layer.fixedSize]
    simp only [totalSize, List.map_cons, List.sum_cons, List.length_cons] at ih ⊢
    omega

theorem totalSize_perm (l1 l2 : List Layer) (hp : l1.Perm l2) :
    totalSize l1 = totalSize l2 :=
  (hp.map Layer.fixedSize).sum_eq

theorem totalSize_replicate (n : Nat) (k : Layer) :
    totalSize (List.replicate n k) = n * k.fixedSize := by
  simp [totalSize, List.map_replicate, List.sum_replicate]

/-- Stacking fully constructed layers with distinct nodes onto a packet whose
stack is empty: every `Packet_stack` returns 1 and `Packet_getSize` returns
the sum of the fixed sizes modulo `2 ^ 32`. -/
theorem stackLayers_getSize (fuel pk s : Nat) (h : Heap) (o : Ptr) (hs : List (Layer × Ptr))
    (is : List Nat) (hpk : h.getPacket pk = some ⟨some s⟩)
    (hst : h.getStack s = some ⟨none, none, 0, o⟩) (hnd : is.Nodup)
    (hl : List.Forall₂ (fun (x : Layer × Ptr) (i : Nat) => ∃ hd pb, x.2 = some hd ∧
      LayerOK h x.1 hd pb i) hs is)
    (hlen : hs.length < UINT_MOD) (hfuel : hs.length < fuel) :
    ∃ rets h', stackLayers fuel h (some pk) hs = some (rets, h') ∧
      rets = List.replicate hs.length 1 ∧
      Packet_getSize fuel h' (some pk) = some (totalSize (hs.map Prod.fst) % UINT_MOD) := by
  have hlen2 : is.length = hs.length := hl.length_eq.symm
  obtain ⟨rets, h3, st3, e3, r3, p3, g3, s3, n3, z3, _, _⟩ :=
    stackLayers_ok fuel pk s hs is h [] [] _ hpk hst rfl rfl
      (fun hne => absurd rfl hne) List.nodup_nil (fun _ _ => List.not_mem_nil _) hnd hl
      List.Forall₂.nil (by simp; omega) (by simp; omega)
  refine ⟨rets, h3, e3, r3, ?_⟩
  simp only [List.nil_append] at s3 z3
  have hloop := Packet_getSize_loop_seg h3 is _ st3.bottom fuel 0 s3 z3 (by omega)
    (by decide)
  simp only [Packet_getSize, p3, g3, Option.bind_eq_bind, Option.some_bind, hloop]
  rw [map_getSize_eq]
  simp [totalSize]

/-- C1 (amended): a freshly created packet (its stack is empty) and a list of
fully constructed Ethernet, IPv4 and UDP layers with distinct nodes, whose
fixed sizes (14, 20, 8) sum to less than `2 ^ 32`.  Stacking the layers in the
order of the list succeeds (every `Packet_stack` returns 1) and
`Packet_getSize` then returns the sum of the fixed sizes; the same holds for
every permutation of the list, with the same size; one layer of each kind
gives 42. -/
theorem C1_size_is_sum (fuel pk s : Nat) (h : Heap) (hs : List (Layer × Ptr)) (is : List Nat)
    (hpk : h.getPacket pk = some ⟨some s⟩)
    (hst : h.getStack s = some ⟨none, none, 0, some pk⟩) (hnd : is.Nodup)
    (hl : List.Forall₂ (fun (x : Layer × Ptr) (i : Nat) => ∃ hd pb, x.2 = some hd ∧
      LayerOK h x.1 hd pb i) hs is)
    (hfuel : hs.length < fuel) (hsum : totalSize (hs.map Prod.fst) < UINT_MOD) :
    (∃ rets h', stackLayers fuel h (some pk) hs = some (rets, h') ∧
      rets = List.replicate hs.length 1 ∧
      Packet_getSize fuel h' (some pk) = some (totalSize (hs.map Prod.fst))) ∧
    (∀ hs', hs'.Perm hs →
      ∃ rets h', stackLayers fuel h (some pk) hs' = some (rets, h') ∧
        rets = List.replicate hs.length 1 ∧
        Packet_getSize fuel h' (some pk) = some (totalSize (hs.map Prod.fst))) ∧
    (∀ junk, totalSize [Layer.ether, Layer.ipv4 junk, Layer.udpv4] = 42) := by
  have key : ∀ hs', hs'.Perm hs →
      ∃ rets h', stackLayers fuel h (some pk) hs' = some (rets, h') ∧
        rets = List.replicate hs.length 1 ∧
        Packet_getSize fuel h' (some pk) = some (totalSize (hs.map Prod.fst)) := by
    intro hs' hp
    obtain ⟨is', hl', hp'⟩ := List.perm_comp_forall₂ hp hl
    have hlen : hs'.length = hs.length := hp.length_eq
    have ht : totalSize (hs'.map Prod.fst) = totalSize (hs.map Prod.fst) :=
      totalSize_perm _ _ (hp.map Prod.fst)
    have hle := length_le_totalSize (hs.map Prod.fst)
    rw [List.length_map] at hle
    obtain ⟨rets, h', e, r, g⟩ := stackLayers_getSize fuel pk s h (some pk) hs' is' hpk hst
      (hp'.nodup_iff.mpr hnd) hl' (by omega) (by omega)
    refine ⟨rets, h', e, by rw [r, hlen], ?_⟩
    rw [g, ht, Nat.mod_eq_of_lt hsum]
  exact ⟨key hs (List.Perm.refl _), key, fun _ => rfl⟩

/-- Witness of C1 (amended): the packet of `Packet_create` on the initial heap
and one header of each kind, as the three constructors leave them when every
`Protocol_create` hands back the value of its callee (`ret = id`). -/
theorem C1_size_is_sum_witness :
    ∃ h0 hs h, Packet_create (Heap.init 11) none = some (some 1, h0) ∧
      createLayers id h0 [Layer.ether, Layer.ipv4 0, Layer.udpv4] = some (hs, h) ∧
      hs = [(Layer.ether, some 2), (Layer.ipv4 0, some 5), (Layer.udpv4, some 10)] ∧
      ((∃ rets h', stackLayers 4 h (some 1) hs = some (rets, h') ∧
        rets = List.replicate hs.length 1 ∧
        Packet_getSize 4 h' (some 1) = some (totalSize (hs.map Prod.fst))) ∧
      (∀ hs', hs'.Perm hs →
        ∃ rets h', stackLayers 4 h (some 1) hs' = some (rets, h') ∧
          rets = List.replicate hs.length 1 ∧
          Packet_getSize 4 h' (some 1) = some (totalSize (hs.map Prod.fst))) ∧
      (∀ junk, totalSize [Layer.ether, Layer.ipv4 junk, Layer.udpv4] = 42)) := by
  obtain ⟨h0, hs, h, e0, e1, e2, hpk, hst, hl⟩ : ∃ h0 hs h,
      Packet_create (Heap.init 11) none = some (some 1, h0) ∧
      createLayers id h0 [Layer.ether, Layer.ipv4 0, Layer.udpv4] = some (hs, h) ∧
      hs = [(Layer.ether, some 2), (Layer.ipv4 0, some 5), (Layer.udpv4, some 10)] ∧
      h.getPacket 1 = some ⟨some 0⟩ ∧ h.getStack 0 = some ⟨none, none, 0, some 1⟩ ∧
      List.Forall₂ (fun (x : Layer × Ptr) (i : Nat) => ∃ hd pb, x.2 = some hd ∧
        LayerOK h x.1 hd pb i) hs [3, 6, 8] :=
    ⟨_, _, _, rfl, rfl, rfl, rfl, rfl,
      List.Forall₂.cons ⟨2, 4, rfl, rfl, rfl, _, rfl, rfl⟩
        (List.Forall₂.cons ⟨5, 7, rfl, rfl, rfl, _, rfl, rfl⟩
          (List.Forall₂.cons ⟨10, 9, rfl, rfl, rfl, _, rfl, rfl⟩ List.Forall₂.nil))⟩
  exact ⟨h0, hs, h, e0, e1, e2, C1_size_is_sum 4 1 0 h hs [3, 6, 8] hpk hst (by decide) hl
    (by rw [e2]; decide) (by rw [e2]; decide)⟩

/-- C1 (counterexample): 306783379 Ethernet layers, of total size
14 * 306783379 = 4294967306, stacked onto a fresh packet: every `Packet_stack`
succeeds, and `Packet_getSize` returns 10, not the sum, because `total_size`
is an `unsigned int`.  The headers are created with `ret = id`. -/
theorem C1_sum_wraps :
    ∃ b, buildPacket id 306783380 (Heap.init 920350139) none
        (List.replicate 306783379 Layer.ether) = some b ∧
      b.rets = List.replicate 306783379 1 ∧
      b.hdrs.map Prod.fst = List.replicate 306783379 Layer.ether ∧
      totalSize (List.replicate 306783379 Layer.ether) = 4294967306 ∧
      Packet_getSize 306783380 b.heap b.pack = some 10 ∧
      Packet_getSize 306783380 b.heap b.pack
        ≠ some (totalSize (List.replicate 306783379 Layer.ether)) := by
  have ht : totalSize (List.replicate 306783379 Layer.ether) = 4294967306 := by
    rw [totalSize_replicate]; rfl
  have hl : (List.replicate 306783379 Layer.ether).length = 306783379 :=
    List.length_replicate _ _
  obtain ⟨b, e, r, m, g⟩ := buildPacket_getSize 306783380 (Heap.init 920350139) none
    (List.replicate 306783379 Layer.ether)
    (by rw [hl]; exact Nat.le_refl _) (by rw [hl]; decide) (by rw [hl]; decide)
  rw [hl] at r
  have g' : Packet_getSize 306783380 b.heap b.pack = some 10 := by
    rw [g, ht]; rfl
  refine ⟨b, e, r, m, ht, g', ?_⟩
  rw [g', ht]
  decide

/-! ## Return values and capacity checks of the three codecs -/

theorem Layer_getBitstream_small (h : Heap) (k : Layer) (hd : Nat) (m : Bytes) (buf size : Nat)
    (hh : HeaderAt h k hd) (hs : size < k.fixedSize) :
    ∃ r m', k.getBitstream h (some hd) m (some buf) size = some (r, m') ∧
      r = k.returned ∧
      ((∀ junk, k ≠ Layer.ipv4 junk) → m' = m) ∧
      (∀ junk, k = Layer.ipv4 junk →
        k.getBitstream h (some hd) m (some buf) 20 = some (r, m')) := by
  cases k with
  | ether =>
    have hs' : size < 14 := hs
    exact ⟨14, m, by simp [Layer.getBitstream, EtherProto_getBitstream, ETHER_HEADER_LEN, hs'],
      rfl, fun _ => rfl, fun j hj => by cases hj⟩
  | ipv4 junk =>
    obtain ⟨e, he⟩ := hh
    obtain ⟨m', h1, _, _⟩ := Ipv4Proto_getBitstream_bytes h hd e m buf size he
    obtain ⟨m'', h2, _, _⟩ := Ipv4Proto_getBitstream_bytes h hd e m buf 20 he
    have e12 : m'' = m' := by
      have : Ipv4Proto_getBitstream h (some hd) m (some buf) 20
          = Ipv4Proto_getBitstream h (some hd) m (some buf) size := rfl
      rw [h1, h2] at this
      simpa using this
    subst e12
    exact ⟨20, m'', h1, rfl, fun hne => absurd rfl (hne junk), fun _ _ => h2⟩
  | udpv4 =>
    have hs' : size < 8 := hs
    exact ⟨-1, m, by simp [Layer.getBitstream, Udpv4Proto_getBitstream, UDPV4_HEADER_LEN, hs'],
      rfl, fun _ => rfl, fun j hj => by cases hj⟩

theorem Layer_getBitstream_enough (h : Heap) (k : Layer) (hd : Nat) (m : Bytes)
    (buf size : Nat) (hh : HeaderAt h k hd) (hs : k.fixedSize ≤ size) :
    ∃ r m', k.getBitstream h (some hd) m (some buf) size = some (r, m') ∧
      r = k.returned := by
  cases k with
  | ether =>
    obtain ⟨e, he⟩ := hh
    obtain ⟨m', h1, _, _⟩ := EtherProto_getBitstream_bytes h hd e m buf size he hs
    exact ⟨14, m', h1, rfl⟩
  | ipv4 junk =>
    obtain ⟨e, he⟩ := hh
    obtain ⟨m', h1, _, _⟩ := Ipv4Proto_getBitstream_bytes h hd e m buf size he
    exact ⟨20, m', h1, rfl⟩
  | udpv4 =>
    obtain ⟨e, he⟩ := hh
    obtain ⟨m', h1, _, _⟩ := Udpv4Proto_getBitstream_bytes h hd e m buf size he hs
    exact ⟨-1, m', h1, rfl⟩

/-- C11 (what the code does): for a header of each kind and every capacity
that is at least the codec's fixed size, `getBitstream` returns 14 for
Ethernet and 20 for IPv4, the values of their `getSize`, but -1 for UDP, whose
`getSize` is 8: `Udpv4Proto_getBitstream` initialises `res` to -1 and never
assigns it, also after it has written its 8 bytes. -/
theorem C11_codec_return_values (h : Heap) (k : Layer) (hd : Nat) (m : Bytes) (buf size : Nat)
    (hh : HeaderAt h k hd) (hs : k.fixedSize ≤ size) :
    ∃ r m', k.getBitstream h (some hd) m (some buf) size = some (r, m') ∧
      k.getSize (some hd) = k.fixedSize ∧
      r = k.returned := by
  obtain ⟨r, m', h1, h2⟩ := Layer_getBitstream_enough h k hd m buf size hh hs
  exact ⟨r, m', h1, Layer_getSize_eq k (some hd), h2⟩

/-- Witness of C11 (what the code does): the default UDP header and an 8-byte
buffer; the 8 bytes are written and -1 is returned. -/
theorem C11_codec_return_values_witness :
    ∃ h', Udpv4Proto_create id (Heap.init 3) = some (some 2, h') ∧
      HeaderAt h' Layer.udpv4 2 ∧
      ∃ r m', Layer.udpv4.getBitstream h' (some 2) (fun _ => 0xff) (some 0) 8 = some (r, m') ∧
        Layer.udpv4.getSize (some 2) = 8 ∧ r = -1 := by
  obtain ⟨h', hc, hh⟩ : ∃ h', Udpv4Proto_create id (Heap.init 3) = some (some 2, h') ∧
      HeaderAt h' Layer.udpv4 2 := ⟨_, rfl, ⟨_, rfl⟩⟩
  exact ⟨h', hc, hh, C11_codec_return_values h' Layer.udpv4 2 (fun _ => 0xff) 0 8 hh
    (by decide)⟩

/-- C12 (what the code does): for a header of each kind and every capacity
smaller than the codec's fixed size, the Ethernet and the UDP codec leave the
byte memory as it is, but `Ipv4Proto_getBitstream`, which never looks at its
`size` argument, writes the same 20 bytes as with capacity 20. -/
theorem C12_small_capacity_writes (h : Heap) (k : Layer) (hd : Nat) (m : Bytes)
    (buf size : Nat) (hh : HeaderAt h k hd) (hs : size < k.fixedSize) :
    ∃ r m', k.getBitstream h (some hd) m (some buf) size = some (r, m') ∧
      ((∀ junk, k ≠ Layer.ipv4 junk) → m' = m) ∧
      (∀ junk, k = Layer.ipv4 junk →
        k.getBitstream h (some hd) m (some buf) 20 = some (r, m')) := by
  obtain ⟨r, m', h1, _, h3, h4⟩ := Layer_getBitstream_small h k hd m buf size hh hs
  exact ⟨r, m', h1, h3, h4⟩

/-- Witness of C12 (what the code does): the default IPv4 header with
upper-protocol number 17 and capacity 0, on a buffer filled with ff: the 20
header bytes are written. -/
theorem C12_small_capacity_writes_witness :
    ∃ h', Ipv4Proto_create id (Heap.init 3) 17 = some (some 0, h') ∧
      HeaderAt h' (Layer.ipv4 17) 0 ∧
      ∃ r m', (Layer.ipv4 17).getBitstream h' (some 0) (fun _ => 0xff) (some 0) 0
          = some (r, m') ∧
        (Layer.ipv4 17).getBitstream h' (some 0) (fun _ => 0xff) (some 0) 20 = some (r, m') ∧
        readBytes m' 0 20 = ipv4Expected 20 17 ∧
        readBytes (fun _ => 0xff) 0 20 ≠ readBytes m' 0 20 := by
  obtain ⟨h', hc, hh, hb⟩ : ∃ h', Ipv4Proto_create id (Heap.init 3) 17 = some (some 0, h') ∧
      HeaderAt h' (Layer.ipv4 17) 0 ∧
      (∀ r m', (Layer.ipv4 17).getBitstream h' (some 0) (fun _ => 0xff) (some 0) 0
          = some (r, m') → readBytes m' 0 20 = ipv4Expected 20 17) :=
    ⟨_, rfl, ⟨_, rfl⟩, fun r m' hr => by
      have e : m' = _ := (Prod.mk.inj (Option.some.inj hr.symm)).2
      rw [e]
      decide⟩
  obtain ⟨r, m', h1, _, h2⟩ := C12_small_capacity_writes h' (Layer.ipv4 17) 0 (fun _ => 0xff)
    0 0 hh (by decide)
  refine ⟨h', hc, hh, r, m', h1, h2 17 rfl, hb r m' h1, ?_⟩
  rw [hb r m' h1]
  decide

/-- C13 (what the code does): for a header of each kind, a capacity smaller
than the codec's fixed size and a capacity that is sufficient give the same
return value (14 for Ethernet, 20 for IPv4, -1 for UDP): no codec returns a
value that tells the caller that the buffer was too small. -/
theorem C13_same_return_value (h : Heap) (k : Layer) (hd : Nat) (m : Bytes)
    (buf small enough : Nat) (hh : HeaderAt h k hd) (hs : small < k.fixedSize)
    (he : k.fixedSize ≤ enough) :
    ∃ r m1 m2, k.getBitstream h (some hd) m (some buf) small = some (r, m1) ∧
      k.getBitstream h (some hd) m (some buf) enough = some (r, m2) ∧
      r = k.returned := by
  obtain ⟨r, m1, h1, h2, _⟩ := Layer_getBitstream_small h k hd m buf small hh hs
  obtain ⟨r', m2, h3, h4⟩ := Layer_getBitstream_enough h k hd m buf enough hh he
  rw [← h2] at h4
  subst h4
  exact ⟨r', m1, m2, h1, h3, h2⟩

/-- Witness of C13 (what the code does): the default Ethernet header with
capacities 13 and 14 returns 14 both times. -/
theorem C13_same_return_value_witness :
    ∃ h', EtherProto_create id (Heap.init 3) = some (some 0, h') ∧
      HeaderAt h' Layer.ether 0 ∧
      ∃ r m1 m2, Layer.ether.getBitstream h' (some 0) (fun _ => 0xff) (some 0) 13
          = some (r, m1) ∧
        Layer.ether.getBitstream h' (some 0) (fun _ => 0xff) (some 0) 14 = some (r, m2) ∧
        r = 14 := by
  obtain ⟨h', hc, hh⟩ : ∃ h', EtherProto_create id (Heap.init 3) = some (some 0, h') ∧
      HeaderAt h' Layer.ether 0 := ⟨_, rfl, ⟨_, rfl⟩⟩
  exact ⟨h', hc, hh, C13_same_return_value h' Layer.ether 0 (fun _ => 0xff) 0 13 14 hh
    (by decide) (by decide)⟩

/-! ## Stack_push and Stack_pop on a well-formed stack -/

theorem Stack_itemExists_loop_present (h : Heap) (i : Nat) (its : List Nat) :
    ∀ p fuel, Seg h p its → i ∈ its → its.length < fuel →
      Stack_itemExists_loop fuel h p i = some 1 := by
  induction its with
  | nil => intro p fuel _ hi; simp at hi
  | cons a rest ih =>
    intro p fuel hs hi hf
    obtain ⟨hp, it, hit, hr⟩ := hs
    cases fuel with
    | zero => omega
    | succ n =>
      rw [hp]
      by_cases hia : a = i
      · simp [Stack_itemExists_loop, hia]
      · have hir : i ∈ rest := by
          rcases List.mem_cons.mp hi with e | e
          · exact absurd e.symm hia
          · exact e
        simp only [Stack_itemExists_loop, hia, if_false, hit, Option.bind_eq_bind,
          Option.some_bind]
        exact ih _ n hr hir (by simp at hf; omega)

theorem Stack_itemExists_present (fuel : Nat) (h : Heap) (s i : Nat) (st : Stack)
    (its : List Nat) (hst : h.getStack s = some st) (hseg : Seg h st.bottom its)
    (hn : st.items ≠ 0) (hi : i ∈ its) (hf : its.length < fuel) :
    Stack_itemExists fuel h (some s) (some i) = some 1 := by
  simp only [Stack_itemExists, hst, Option.bind_eq_bind, Option.some_bind, hn, if_false]
  exact Stack_itemExists_loop_present h i its _ fuel hseg hi hf

/-- A push of a node that is among the nodes of the stack returns 0 and
leaves the heap as it was. -/
theorem Stack_push_present (fuel : Nat) (h : Heap) (s i : Nat) (st : Stack) (its : List Nat)
    (hst : h.getStack s = some st) (hseg : Seg h st.bottom its) (hn : st.items ≠ 0)
    (hi : i ∈ its) (hf : its.length < fuel) :
    Stack_push fuel h (some s) (some i) = some (0, h) := by
  simp [Stack_push, Stack_itemExists_present fuel h s i st its hst hseg hn hi hf]

/-- C14 (amended): when the item is already among the nodes of the stack (the
nodes reached from `bottom`) and the count is not 0, `Stack_push` returns 0, its
failure value, and the heap after the call is the heap before it, so the
count, `bottom`, `top` and every node's links are unchanged; the same holds
when the stack or the item is `NULL`. -/
theorem C14_push_present (fuel : Nat) (h : Heap) (s i : Nat) (st : Stack) (its : List Nat)
    (hst : h.getStack s = some st) (hseg : Seg h st.bottom its) (hn : st.items ≠ 0)
    (hi : i ∈ its) (hf : its.length < fuel) :
    Stack_push fuel h (some s) (some i) = some (0, h) ∧
    (∀ item, Stack_push fuel h none item = some (0, h)) ∧
    Stack_push fuel h (some s) none = some (0, h) := by
  exact ⟨Stack_push_present fuel h s i st its hst hseg hn hi hf, fun _ => rfl, rfl⟩

/-- Witness of C14 (amended): a stack holding the nodes 2 and 3; node 2 is pushed
again. -/
theorem C14_push_present_witness :
    ∃ h, runOps 3 (nodesHeap 3) (some 0) (pushes [2, 3]) =
        some ([.pushed 1, .pushed 1], h) ∧
      Stack_nodes 3 h 0 = some [2, 3] ∧
      (Stack_push 3 h (some 0) (some 2) = some (0, h) ∧
        (∀ item, Stack_push 3 h none item = some (0, h)) ∧
        Stack_push 3 h (some 0) none = some (0, h)) := by
  obtain ⟨h, hr, hn, hst, hseg⟩ : ∃ h, runOps 3 (nodesHeap 3) (some 0) (pushes [2, 3]) =
        some ([.pushed 1, .pushed 1], h) ∧ Stack_nodes 3 h 0 = some [2, 3] ∧
      h.getStack 0 = some ⟨some 2, some 3, 2, none⟩ ∧ Seg h (some 2) [2, 3] :=
    ⟨_, rfl, rfl, rfl, ⟨rfl, _, rfl, rfl, _, rfl, rfl⟩⟩
  exact ⟨h, hr, hn, C14_push_present 3 h 0 2 _ [2, 3] hst hseg (by decide) (by decide)
    (by decide)⟩

/-- C17: `Stack_pop` on a stack whose count is 0, or on `NULL`, returns
`NULL`; the heap is unchanged and `Stack_numItems` is still 0. -/
theorem C17_pop_empty (h : Heap) (s : Nat) (st : Stack) (hst : h.getStack s = some st)
    (h0 : st.items = 0) :
    Stack_pop h (some s) = some (none, h) ∧ Stack_numItems h (some s) = some 0 ∧
    Stack_pop h none = some (none, h) ∧ Stack_numItems h none = some 0 := by
  refine ⟨?_, ?_, rfl, rfl⟩
  · simp [Stack_pop, hst, h0]
  · simp [Stack_numItems, hst, h0]

/-- Witness of C17: the stack that `Stack_create` returns on the initial
heap. -/
theorem C17_pop_empty_witness :
    Stack_create (Heap.init 1) none = (some 0, (Stack_create (Heap.init 1) none).2) ∧
    (Stack_pop (Stack_create (Heap.init 1) none).2 (some 0)
        = some (none, (Stack_create (Heap.init 1) none).2) ∧
      Stack_numItems (Stack_create (Heap.init 1) none).2 (some 0) = some 0 ∧
      Stack_pop (Stack_create (Heap.init 1) none).2 none
        = some (none, (Stack_create (Heap.init 1) none).2) ∧
      Stack_numItems (Stack_create (Heap.init 1) none).2 none = some 0) :=
  ⟨rfl, C17_pop_empty (Stack_create (Heap.init 1) none).2 0 ⟨none, none, 0, none⟩ rfl rfl⟩
/-- The effect of `Stack_push` of a node that is not in the stack, whatever
the count: as `Stack_push_absent`, with the new count taken modulo
`2 ^ 32`. -/
theorem Stack_push_effect (fuel : Nat) (h : Heap) (s i : Nat) (st : Stack) (x : StackItem)
    (its : List Nat) (hst : h.getStack s = some st) (hx : h.getItem i = some x)
    (hseg : its ≠ [] → Seg h st.bottom its) (hn : st.items = its.length)
    (htop : its ≠ [] → st.top = its.getLast?)
    (hi : i ∉ its) (hnd : its.Nodup) (hf : its.length < fuel) :
    ∃ h' st', Stack_push fuel h (some s) (some i) = some (1, h') ∧
      h'.getStack s = some st' ∧ st'.items = (its.length + 1) % UINT_MOD ∧
      st'.top = some i ∧
      st'.owner = st.owner ∧ Seg h' st'.bottom (its ++ [i]) ∧
      h'.getItem i = some ⟨its.getLast?, none, x.owner⟩ ∧
      (∀ a y, a ≠ i → h.getItem a = some y →
        ∃ y', h'.getItem a = some y' ∧ y'.owner = y.owner ∧ y'.prev = y.prev ∧
          (some a ≠ its.getLast? → y'.next = y.next)) ∧
      (∀ a, a ≠ s → (∀ y, h.getItem a ≠ some y) → h'.mem a = h.mem a) ∧
      h'.brk = h.brk ∧ h'.avail = h.avail := by
  have hex := Stack_itemExists_absent fuel h s i st its hst hseg hn hi hf
  have his : i ≠ s := getItem_ne_getStack h i s x st hx hst
  cases its with
  | nil =>
    have h0 : st.items = 0 := hn
    refine ⟨((((h.store i (.item { x with prev := none })).store s
      (.stack { st with bottom := some i, top := some i })).store i
      (.item { prev := none, next := none, owner := x.owner })).store s
      (.stack { bottom := some i, top := some i, items := 1, owner := st.owner })),
      { bottom := some i, top := some i, items := 1, owner := st.owner }, ?_, ?_, rfl, rfl,
      rfl, ?_, ?_, ?_, ?_, rfl, rfl⟩
    · simp only [Stack_push, hex, Option.bind_eq_bind, Option.some_bind, hst, h0, ne_eq,
        not_true_eq_false, if_false, if_true]
      rw [setItem_eq h i x _ hx, Option.some_bind,
        setStack_eq _ s st _ (by rw [getStack_store_other _ _ _ _ his.symm]; exact hst),
        Option.some_bind,
        setItem_eq _ i _ _ (by rw [getItem_store_other _ _ _ _ his, getItem_store_same]),
        Option.some_bind,
        setStack_eq _ s _ _ (by rw [getStack_store_other _ _ _ _ his.symm,
          getStack_store_same]),
        Option.some_bind]
      simp only [h0]
      rfl
    · exact getStack_store_same _ _ _
    · refine ⟨rfl, { prev := none, next := none, owner := x.owner }, ?_, ?_⟩
      · rw [getItem_store_other _ _ _ _ his, getItem_store_same]
      · exact rfl
    · rw [getItem_store_other _ _ _ _ his, getItem_store_same]; rfl
    · intro a y hai hy
      have has : a ≠ s := getItem_ne_getStack h a s y st hy hst
      refine ⟨y, ?_, rfl, rfl, fun _ => rfl⟩
      rw [getItem_store_other _ _ _ _ has, getItem_store_other _ _ _ _ hai,
        getItem_store_other _ _ _ _ has, getItem_store_other _ _ _ _ hai]
      exact hy
    · intro a has hna
      have hai : a ≠ i := by
        rintro rfl; exact hna x hx
      simp [Heap.store, has, hai]
  | cons b rest =>
    have hne : b :: rest ≠ [] := List.cons_ne_nil _ _
    have h0 : st.items ≠ 0 := by rw [hn]; simp
    obtain ⟨t, ht⟩ : ∃ t, (b :: rest).getLast? = some t :=
      ⟨(b :: rest).getLast hne, List.getLast?_eq_getLast _ hne⟩
    have htop' : st.top = some t := by rw [htop hne, ht]
    obtain ⟨tx, htx, _⟩ := Seg_getLast h _ _ (hseg hne) t ht
    have htmem : t ∈ b :: rest := List.mem_of_getLast?_eq_some ht
    have hti : t ≠ i := fun e => hi (e ▸ htmem)
    have hts : t ≠ s := getItem_ne_getStack h t s tx st htx hst
    have g1 : (h.store i (.item { x with prev := st.top })).getStack s = some st := by
      rw [getStack_store_other _ _ _ _ his.symm]; exact hst
    have g2 : (h.store i (.item { x with prev := st.top })).getItem t = some tx := by
      rw [getItem_store_other _ _ _ _ hti]; exact htx
    have g3 : ((h.store i (.item { x with prev := st.top })).store t
        (.item { tx with next := some i })).getStack s = some st := by
      rw [getStack_store_other _ _ _ _ hts.symm]; exact g1
    have g4 : (((h.store i (.item { x with prev := st.top })).store t
        (.item { tx with next := some i })).store s
        (.stack { st with top := some i })).getItem i = some { x with prev := st.top } := by
      rw [getItem_store_other _ _ _ _ his, getItem_store_other _ _ _ _ hti.symm,
        getItem_store_same]
    have g5 : ((((h.store i (.item { x with prev := st.top })).store t
        (.item { tx with next := some i })).store s
        (.stack { st with top := some i })).store i
        (.item { prev := st.top, next := none, owner := x.owner })).getStack s
        = some { st with top := some i } := by
      rw [getStack_store_other _ _ _ _ his.symm, getStack_store_same]
    refine ⟨(((((h.store i (.item { x with prev := st.top })).store t
        (.item { tx with next := some i })).store s
        (.stack { st with top := some i })).store i
        (.item { prev := st.top, next := none, owner := x.owner })).store s
        (.stack ⟨st.bottom, some i, ((b :: rest).length + 1) % UINT_MOD, st.owner⟩)),
      ⟨st.bottom, some i, ((b :: rest).length + 1) % UINT_MOD, st.owner⟩,
      ?_, ?_, rfl, rfl, rfl, ?_, ?_, ?_, ?_, rfl, rfl⟩
    · simp only [Stack_push, hex, Option.bind_eq_bind, Option.some_bind, hst, h0, ne_eq,
        not_true_eq_false, if_false]
      rw [setItem_eq h i x _ hx, Option.some_bind, g1, Option.some_bind]
      simp only [htop', Option.some_bind]
      rw [setItem_eq _ t tx _ (by rw [← htop']; exact g2), Option.some_bind,
        setStack_eq _ s st _ (by rw [← htop']; exact g3), Option.some_bind,
        setItem_eq _ i _ _ (by rw [← htop']; exact g4), Option.some_bind,
        setStack_eq _ s _ _ (by rw [← htop']; exact g5), Option.some_bind]
      simp only [hn, htop']
    · exact getStack_store_same _ _ _
    · refine Seg_snoc h i { prev := st.top, next := none, owner := x.owner } (b :: rest)
        st.bottom t tx _ (hseg hne) ht hi hnd htx rfl _ ?_ ?_ rfl
      · intro a ha
        obtain ⟨y, hy⟩ := Seg_mem_item h _ _ (hseg hne) a ha
        have has : a ≠ s := getItem_ne_getStack h a s y st hy hst
        have hai : a ≠ i := fun e => hi (e ▸ ha)
        rw [getItem_store_other _ _ _ _ has, getItem_store_other _ _ _ _ hai,
          getItem_store_other _ _ _ _ has]
        by_cases hat : a = t
        · subst hat
          rw [getItem_store_same, getItem_store_same]
        · rw [getItem_store_other _ _ _ _ hat, getItem_store_other _ _ _ _ hai,
            getItem_store_other _ _ _ _ hat]
      · rw [getItem_store_other _ _ _ _ his, getItem_store_same]
    · rw [getItem_store_other _ _ _ _ his, getItem_store_same, htop hne]
    · intro a y hai hy
      have has : a ≠ s := getItem_ne_getStack h a s y st hy hst
      rw [getItem_store_other _ _ _ _ has, getItem_store_other _ _ _ _ hai,
        getItem_store_other _ _ _ _ has]
      by_cases hat : a = t
      · subst hat
        rw [getItem_store_same]
        rw [htx] at hy
        obtain rfl := Option.some.inj hy
        exact ⟨_, rfl, rfl, rfl, fun hc => absurd (by rw [ht]) hc⟩
      · rw [getItem_store_other _ _ _ _ hat, getItem_store_other _ _ _ _ hai]
        exact ⟨y, hy, rfl, rfl, fun _ => rfl⟩
    · intro a has hna
      have hai : a ≠ i := by
        rintro rfl; exact hna x hx
      have hat : a ≠ t := by
        rintro rfl; exact hna tx htx
      simp [Heap.store, has, hai, hat]


/-! ## The `prev` links -/

theorem Prevs_congr (h h' : Heap) (its : List Nat) : ∀ p,
    (∀ a ∈ its, ∀ y, h.getItem a = some y → ∃ y', h'.getItem a = some y' ∧ y'.prev = y.prev) →
    Prevs h p its → Prevs h' p its := by
  induction its with
  | nil => intro p _ _; trivial
  | cons a rest ih =>
    intro p hm hp
    obtain ⟨⟨it, hit, hpv⟩, hr⟩ := hp
    obtain ⟨y', hy', e⟩ := hm a (List.mem_cons_self _ _) it hit
    exact ⟨⟨y', hy', by rw [e, hpv]⟩, ih _ (fun b hb => hm b (List.mem_cons_of_mem _ hb)) hr⟩

theorem Prevs_snoc (h : Heap) (i : Nat) (its : List Nat) : ∀ p, Prevs h p its →
    (∃ it, h.getItem i = some it ∧ it.prev = (its.getLast?).or p) →
    Prevs h p (its ++ [i]) := by
  induction its with
  | nil =>
    intro p _ hi
    obtain ⟨it, hit, hp⟩ := hi
    exact ⟨⟨it, hit, by simpa using hp⟩, trivial⟩
  | cons a rest ih =>
    intro p hp hi
    obtain ⟨ha, hr⟩ := hp
    refine ⟨ha, ih (some a) hr ?_⟩
    obtain ⟨it, hit, hp⟩ := hi
    refine ⟨it, hit, ?_⟩
    rw [hp]
    cases rest with
    | nil => rfl
    | cons b rest' =>
      rw [List.getLast?_cons_cons, List.getLast?_eq_getLast _ (List.cons_ne_nil b rest')]
      rfl

theorem Prevs_unsnoc (h : Heap) (t : Nat) (init : List Nat) : ∀ p,
    Prevs h p (init ++ [t]) →
    (∃ it, h.getItem t = some it ∧ it.prev = (init.getLast?).or p) ∧ Prevs h p init := by
  induction init with
  | nil =>
    intro p hp
    obtain ⟨⟨it, hit, e⟩, _⟩ := hp
    exact ⟨⟨it, hit, by simpa using e⟩, trivial⟩
  | cons a rest ih =>
    intro p hp
    obtain ⟨ha, hr⟩ := hp
    obtain ⟨⟨it, hit, e⟩, hr'⟩ := ih (some a) hr
    refine ⟨⟨it, hit, ?_⟩, ha, hr'⟩
    rw [e]
    cases rest with
    | nil => rfl
    | cons b rest' =>
      rw [List.getLast?_cons_cons, List.getLast?_eq_getLast _ (List.cons_ne_nil b rest')]
      rfl

theorem Prevs_mem_item (h : Heap) (its : List Nat) : ∀ p, Prevs h p its → ∀ a ∈ its,
    ∃ y, h.getItem a = some y := by
  induction its with
  | nil => intro p _ a ha; simp at ha
  | cons b rest ih =>
    intro p hp a ha
    obtain ⟨⟨it, hit, _⟩, hr⟩ := hp
    rcases List.mem_cons.mp ha with rfl | hm
    · exact ⟨it, hit⟩
    · exact ih _ hr a hm

/-- Dropping the last node: the `next` link of the node before it is set to
`NULL`. -/
theorem Seg_unsnoc (h h' : Heap) (t u : Nat) (ux : StackItem) (init : List Nat) : ∀ p,
    Seg h p (init ++ [t]) → init.getLast? = some u → init.Nodup →
    h.getItem u = some ux → h'.getItem u = some { ux with next := none } →
    (∀ a ∈ init, a ≠ u → h'.getItem a = h.getItem a) → Seg h' p init := by
  induction init with
  | nil => intro p _ hu; simp at hu
  | cons a rest ih =>
    intro p hs hu hnd hux hux' hfr
    obtain ⟨hp, it, hit, hr⟩ := hs
    cases rest with
    | nil =>
      simp at hu
      subst hu
      obtain rfl : it = ux := by rw [hit] at hux; exact Option.some.inj hux
      exact ⟨hp, _, hux', rfl⟩
    | cons b rest' =>
      rw [List.getLast?_cons_cons] at hu
      have hau : a ≠ u := by
        intro e
        have : u ∈ b :: rest' := List.mem_of_getLast?_eq_some hu
        rw [← e] at this
        exact (List.nodup_cons.mp hnd).1 this
      refine ⟨hp, it, ?_, ?_⟩
      · rw [hfr a (List.mem_cons_self _ _) hau]; exact hit
      · exact ih _ hr hu (List.nodup_cons.mp hnd).2 hux hux'
          (fun c hc hcu => hfr c (List.mem_cons_of_mem _ hc) hcu)


/-! ## Pop on a well-formed stack -/

/-- The effect of `Stack_pop` on a well-formed non-empty stack: the call
returns the top node, the node before it becomes the top with its `next` link
cleared, the count drops by one, and nothing else changes. The `bottom` field
is never written. -/
theorem Stack_pop_wf (h : Heap) (s t : Nat) (init : List Nat)
    (hwf : WFStack h s (init ++ [t])) :
    ∃ h' it st st', h.getStack s = some st ∧ h.getItem t = some it ∧ st.top = some t ∧
      Stack_pop h (some s) = some (some t, h') ∧
      h'.getStack s = some st' ∧ st'.top = it.prev ∧ it.prev = init.getLast? ∧
      st'.items = st.items - 1 ∧ st'.bottom = st.bottom ∧ st'.owner = st.owner ∧
      WFStack h' s init ∧
      (∀ a y, h.getItem a = some y →
        ∃ y', h'.getItem a = some y' ∧ y'.owner = y.owner ∧ y'.prev = y.prev ∧
          (some a ≠ init.getLast? → y'.next = y.next)) ∧
      (∀ a, a ≠ s → (∀ y, h.getItem a ≠ some y) → h'.mem a = h.mem a) ∧
      h'.brk = h.brk ∧ h'.avail = h.avail := by
  obtain ⟨st, hst, hn, hlt, hnd, htop, hseg, hprev⟩ := hwf
  obtain ⟨⟨it, hit, hpv⟩, hprev'⟩ := Prevs_unsnoc h t init none hprev
  rw [Option.or_none] at hpv
  have htop' : st.top = some t := by rw [htop]; simp
  have hlen : st.items = init.length + 1 := by rw [hn]; simp
  have hn0 : st.items ≠ 0 := by omega
  have hndi : init.Nodup := (List.nodup_append.mp hnd).1
  have hlti : init.length < UINT_MOD := by
    have : (init ++ [t]).length = init.length + 1 := by simp
    omega
  cases hl : init.getLast? with
  | none =>
    have hnil : init = [] := by
      cases init with
      | nil => rfl
      | cons a r => rw [List.getLast?_eq_getLast _ (List.cons_ne_nil a r)] at hl; cases hl
    subst hnil
    have h1 : st.items = 1 := hlen
    refine ⟨(h.store s (.stack { st with top := it.prev })).store s
      (.stack { bottom := st.bottom, top := it.prev, items := st.items - 1, owner := st.owner }),
      it, st, { bottom := st.bottom, top := it.prev, items := st.items - 1, owner := st.owner },
      hst, hit, htop', ?_, getStack_store_same _ _ _, rfl, hpv, rfl, rfl, rfl, ?_, ?_, ?_,
      rfl, rfl⟩
    · simp only [Stack_pop, hst, Option.bind_eq_bind, Option.some_bind, hn0, if_false, htop',
        hit]
      rw [setStack_eq h s st _ hst, Option.some_bind, getStack_store_same, Option.some_bind]
      simp only [h1, gt_iff_lt, lt_self_iff_false, if_false, Option.some_bind]
      rw [setStack_eq _ s _ _ (getStack_store_same _ _ _), Option.some_bind]
    · refine ⟨_, getStack_store_same _ _ _, ?_, hlti, hndi, ?_, fun hne => absurd rfl hne,
        trivial⟩
      · show st.items - 1 = 0
        omega
      · show it.prev = none
        exact hpv
    · intro a y hy
      have has : a ≠ s := getItem_ne_getStack h a s y st hy hst
      refine ⟨y, ?_, rfl, rfl, fun _ => rfl⟩
      rw [getItem_store_other _ _ _ _ has, getItem_store_other _ _ _ _ has]
      exact hy
    · intro a has _
      simp [Heap.store, has]
  | some u =>
    have hne : init ≠ [] := by
      rintro rfl; simp at hl
    have hu : u ∈ init := List.mem_of_getLast?_eq_some hl
    obtain ⟨ux, hux⟩ := Prevs_mem_item h init none hprev' u hu
    have hus : u ≠ s := getItem_ne_getStack h u s ux st hux hst
    rw [hl] at hpv
    have hgt : st.items > 1 := by
      have : 0 < init.length := List.length_pos.mpr hne
      omega
    refine ⟨((h.store s (.stack { st with top := it.prev })).store u
      (.item { ux with next := none })).store s
      (.stack { bottom := st.bottom, top := it.prev, items := st.items - 1, owner := st.owner }),
      it, st, { bottom := st.bottom, top := it.prev, items := st.items - 1, owner := st.owner },
      hst, hit, htop', ?_, getStack_store_same _ _ _, rfl, hpv, rfl, rfl, rfl, ?_, ?_, ?_,
      rfl, rfl⟩
    · simp only [Stack_pop, hst, Option.bind_eq_bind, Option.some_bind, hn0, if_false, htop',
        hit]
      rw [setStack_eq h s st _ hst, Option.some_bind, getStack_store_same, Option.some_bind]
      simp only [hgt, if_true, hpv, Option.bind_eq_bind, Option.some_bind]
      rw [setItem_eq _ u ux _ (by rw [getItem_store_other _ _ _ _ hus]; exact hux),
        Option.some_bind,
        setStack_eq _ s _ _ (by rw [getStack_store_other _ _ _ _ hus.symm,
          getStack_store_same]),
        Option.some_bind]
    · refine ⟨_, getStack_store_same _ _ _, ?_, hlti, hndi, ?_, fun _ => ?_, ?_⟩
      · show st.items - 1 = init.length
        omega
      · show it.prev = init.getLast?
        rw [hpv, hl]
      · show Seg _ st.bottom init
        refine Seg_unsnoc h _ t u ux init st.bottom (hseg (by simp)) hl hndi hux ?_ ?_
        · rw [getItem_store_other _ _ _ _ hus, getItem_store_same]
        · intro a ha hau
          obtain ⟨y, hy⟩ := Prevs_mem_item h init none hprev' a ha
          have has : a ≠ s := getItem_ne_getStack h a s y st hy hst
          rw [getItem_store_other _ _ _ _ has, getItem_store_other _ _ _ _ hau,
            getItem_store_other _ _ _ _ has]
      · refine Prevs_congr h _ init none ?_ hprev'
        intro a _ y hy
        have has : a ≠ s := getItem_ne_getStack h a s y st hy hst
        by_cases hau : a = u
        · subst hau
          refine ⟨{ ux with next := none }, ?_, ?_⟩
          · rw [getItem_store_other _ _ _ _ has, getItem_store_same]
          · rw [hux] at hy; cases hy; rfl
        · refine ⟨y, ?_, rfl⟩
          rw [getItem_store_other _ _ _ _ has, getItem_store_other _ _ _ _ hau,
            getItem_store_other _ _ _ _ has]
          exact hy
    · intro a y hy
      have has : a ≠ s := getItem_ne_getStack h a s y st hy hst
      by_cases hau : a = u
      · subst hau
        refine ⟨{ ux with next := none }, ?_, ?_, ?_, fun hc => absurd rfl hc⟩
        · rw [getItem_store_other _ _ _ _ has, getItem_store_same]
        · rw [hux] at hy; cases hy; rfl
        · rw [hux] at hy; cases hy; rfl
      · refine ⟨y, ?_, rfl, rfl, fun _ => rfl⟩
        rw [getItem_store_other _ _ _ _ has, getItem_store_other _ _ _ _ hau,
          getItem_store_other _ _ _ _ has]
        exact hy
    · intro a has hna
      have hau : a ≠ u := by
        rintro rfl; exact hna ux hux
      simp [Heap.store, has, hau]


/-! ## The calls on a well-formed stack -/

theorem StackItem_eq_of_fields (y y' : StackItem) (h1 : y'.owner = y.owner)
    (h2 : y'.prev = y.prev) (h3 : y'.next = y.next) : y' = y := by
  cases y; cases y'; simp_all

theorem WFStack_itemExists (fuel : Nat) (h : Heap) (s x : Nat) (its : List Nat)
    (hwf : WFStack h s its) (hf : its.length < fuel) :
    Stack_itemExists fuel h (some s) (some x) = some (if x ∈ its then 1 else 0) := by
  obtain ⟨st, hst, hn, _, _, _, hseg, _⟩ := hwf
  by_cases hx : x ∈ its
  · have hne : its ≠ [] := List.ne_nil_of_mem hx
    have h0 : st.items ≠ 0 := by
      rw [hn]; exact fun e => hne (List.length_eq_zero.mp e)
    rw [if_pos hx]
    exact Stack_itemExists_present fuel h s x st its hst (hseg hne) h0 hx hf
  · rw [if_neg hx]
    exact Stack_itemExists_absent fuel h s x st its hst hseg hn hx hf

/-- A push on a well-formed stack does what the ordered collection of the
specification does, as long as the count does not reach `UINT_MOD`; the
stack stays well formed, and the only other change is the `next` link of the
old top. -/
theorem WFStack_push (fuel : Nat) (h : Heap) (s i : Nat) (its : List Nat)
    (hwf : WFStack h s its) (hx : ∃ x, h.getItem i = some x)
    (hlt : i ∉ its → its.length + 1 < UINT_MOD) (hf : its.length < fuel) :
    ∃ r h', Stack_push fuel h (some s) (some i) = some (r, h') ∧
      StackRes.pushed r = (specOp its (.push (some i))).1 ∧
      WFStack h' s (specOp its (.push (some i))).2 ∧
      (∀ a y, h.getItem a = some y → ∃ y', h'.getItem a = some y') ∧
      (∀ a y, a ≠ i → some a ≠ its.getLast? → h.getItem a = some y →
        h'.getItem a = some y) ∧
      (∀ a, a ≠ s → (∀ y, h.getItem a ≠ some y) → h'.mem a = h.mem a) := by
  by_cases hi : i ∈ its
  · obtain ⟨st, hst, hn, _, _, _, hseg, _⟩ := id hwf
    have hne : its ≠ [] := List.ne_nil_of_mem hi
    have h0 : st.items ≠ 0 := by
      rw [hn]; exact fun e => hne (List.length_eq_zero.mp e)
    refine ⟨0, h, Stack_push_present fuel h s i st its hst (hseg hne) h0 hi hf, ?_, ?_,
      fun a y hy => ⟨y, hy⟩, fun a y _ _ hy => hy, fun _ _ _ => rfl⟩
    · simp [specOp, hi]
    · simpa [specOp, hi] using hwf
  · obtain ⟨st, hst, hn, _, hnd, htop, hseg, hprev⟩ := hwf
    obtain ⟨x, hx⟩ := hx
    obtain ⟨h', st', hp, hst', hn', htop', _, hseg', hi', hfr, hmem, _, _⟩ :=
      Stack_push_absent fuel h s i st x its hst hx hseg hn (hlt hi) (fun _ => htop) hi hnd hf
    have hspec : specOp its (.push (some i)) = (.pushed 1, its ++ [i]) := by
      simp [specOp, hi]
    refine ⟨1, h', hp, by rw [hspec], ?_, ?_, ?_, hmem⟩
    · rw [hspec]
      refine ⟨st', hst', by rw [hn']; simp, by simpa using hlt hi, ?_, by rw [htop']; simp,
        fun _ => hseg', ?_⟩
      · exact List.nodup_append.mpr ⟨hnd, List.nodup_singleton i, by
          intro a ha hb
          rw [List.mem_singleton] at hb
          exact hi (hb ▸ ha)⟩
      · refine Prevs_snoc h' i its none (Prevs_congr h h' its none ?_ hprev)
          ⟨_, hi', by simp⟩
        intro a ha y hy
        have hai : a ≠ i := fun e => hi (e ▸ ha)
        obtain ⟨y', hy', _, e, _⟩ := hfr a y hai hy
        exact ⟨y', hy', e⟩
    · intro a y hy
      by_cases hai : a = i
      · exact ⟨_, hai ▸ hi'⟩
      · obtain ⟨y', hy', _⟩ := hfr a y hai hy
        exact ⟨y', hy'⟩
    · intro a y hai hal hy
      obtain ⟨y', hy', e1, e2, e3⟩ := hfr a y hai hy
      rw [hy', StackItem_eq_of_fields y y' e1 e2 (e3 hal)]

/-- A pop on a well-formed stack does what the ordered collection of the
specification does; the stack stays well formed, and the only other change is
the `next` link of the new top. -/
theorem WFStack_pop (h : Heap) (s : Nat) (its : List Nat) (hwf : WFStack h s its) :
    ∃ r h', Stack_pop h (some s) = some (r, h') ∧
      StackRes.popped r = (specOp its .pop).1 ∧
      WFStack h' s (specOp its .pop).2 ∧
      (∀ a y, h.getItem a = some y → ∃ y', h'.getItem a = some y') ∧
      (∀ a y, some a ≠ its.dropLast.getLast? → h.getItem a = some y →
        h'.getItem a = some y) ∧
      (∀ a, a ≠ s → (∀ y, h.getItem a ≠ some y) → h'.mem a = h.mem a) := by
  rcases List.eq_nil_or_concat its with rfl | ⟨init, t, hc⟩
  on_goal 2 => rw [List.concat_eq_append] at hc; subst hc
  · obtain ⟨st, hst, hn, _⟩ := id hwf
    refine ⟨none, h, by simp [Stack_pop, hst, show st.items = 0 from hn], rfl, hwf,
      fun a y hy => ⟨y, hy⟩, fun a y _ hy => hy, fun _ _ _ => rfl⟩
  · obtain ⟨h', it, st, st', _, _, _, hp, _, _, _, _, _, _, hwf', hfr, hmem, _, _⟩ :=
      Stack_pop_wf h s t init hwf
    have hspec : specOp (init ++ [t]) .pop = (.popped (some t), init) := by
      simp [specOp]
    refine ⟨some t, h', hp, by rw [hspec], by rw [hspec]; exact hwf', ?_, ?_, hmem⟩
    · intro a y hy
      obtain ⟨y', hy', _⟩ := hfr a y hy
      exact ⟨y', hy'⟩
    · intro a y hal hy
      rw [List.dropLast_concat] at hal
      obtain ⟨y', hy', e1, e2, e3⟩ := hfr a y hy
      rw [hy', StackItem_eq_of_fields y y' e1 e2 (e3 hal)]


/-! ## The ordered collection of the specification -/

theorem specOps_append (a b : List StackOp) : ∀ its,
    specOps its (a ++ b) =
      ((specOps its a).1 ++ (specOps (specOps its a).2 b).1,
        (specOps (specOps its a).2 b).2) := by
  induction a with
  | nil => intro its; rfl
  | cons op rest ih => intro its; simp [specOps, ih]

theorem specOps_pushes (xs : List Nat) : ∀ its, (its ++ xs).Nodup →
    specOps its (pushes xs) = (List.replicate xs.length (.pushed 1), its ++ xs) := by
  induction xs with
  | nil => intro its _; simp [pushes, specOps]
  | cons x rest ih =>
    intro its hnd
    have hx : x ∉ its := by
      intro hm
      have := (List.nodup_append.mp hnd).2.2 hm (List.mem_cons_self x rest)
      exact this
    have hnd' : ((its ++ [x]) ++ rest).Nodup := by simpa using hnd
    have e := ih (its ++ [x]) hnd'
    simp only [pushes] at e ⊢
    simp [specOps, specOp, hx, e, List.replicate_succ]

theorem specOps_pops (k : Nat) : ∀ its : List Nat, k ≤ its.length →
    specOps its (pops k) =
      ((its.reverse.take k).map (fun x => StackRes.popped (some x)),
        its.take (its.length - k)) := by
  induction k with
  | zero => intro its _; simp [pops, specOps]
  | succ n ih =>
    intro its hk
    rcases List.eq_nil_or_concat its with rfl | ⟨init, t, hc⟩
    · simp at hk
    · rw [List.concat_eq_append] at hc
      subst hc
      have hk' : n ≤ init.length := by simp at hk; omega
      have e := ih init hk'
      simp only [pops] at e ⊢
      have ht : (init ++ [t]).length - (n + 1) = init.length - n := by simp
      have hl : init.length - n ≤ init.length := Nat.sub_le _ _
      simp [List.replicate_succ, specOps, specOp, e, ht, List.take_append_of_le_length hl]

theorem specOp_length_le (its : List Nat) (op : StackOp) :
    (specOp its op).2.length ≤ its.length + 1 := by
  cases op with
  | push item =>
    cases item with
    | none => simp [specOp]
    | some x => by_cases hx : x ∈ its <;> simp [specOp, hx]
  | pop =>
    cases hl : its.getLast? with
    | none => simp [specOp, hl]
    | some t => simp [specOp, hl]; omega

theorem specOp_pop_length_le (its : List Nat) :
    (specOp its .pop).2.length ≤ its.length := by
  cases hl : its.getLast? with
  | none => simp [specOp, hl]
  | some t => simp [specOp, hl]

theorem specBounded_of_length (ops : List StackOp) : ∀ its,
    its.length + ops.length < UINT_MOD → specBounded its ops := by
  induction ops with
  | nil => intro its _; trivial
  | cons op rest ih =>
    intro its hl
    have h1 := specOp_length_le its op
    simp only [List.length_cons] at hl
    exact ⟨by omega, ih _ (by omega)⟩

theorem specBounded_pops (k : Nat) : ∀ its : List Nat, its.length < UINT_MOD →
    specBounded its (pops k) := by
  induction k with
  | zero => intro its _; trivial
  | succ n ih =>
    intro its hl
    have h1 := specOp_pop_length_le its
    exact ⟨by omega, ih _ (by omega)⟩

theorem specBounded_append (a b : List StackOp) : ∀ its, specBounded its a →
    specBounded (specOps its a).2 b → specBounded its (a ++ b) := by
  induction a with
  | nil => intro its _ hb; exact hb
  | cons op rest ih =>
    intro its ha hb
    exact ⟨ha.1, ih _ ha.2 hb⟩


/-! ## Sequences of calls refine the ordered collection -/

theorem getItem_of_mem_eq (h h' : Heap) (a : Nat) (e : h'.mem a = h.mem a) :
    h'.getItem a = h.getItem a := by
  simp [Heap.getItem, e]

theorem getStack_of_mem_eq (h h' : Heap) (a : Nat) (e : h'.mem a = h.mem a) :
    h'.getStack a = h.getStack a := by
  simp [Heap.getStack, e]

theorem runOps_append (fuel : Nat) (s : Ptr) (a b : List StackOp) : ∀ (h : Heap)
    (ra : List StackRes) (ha : Heap), runOps fuel h s a = some (ra, ha) →
    runOps fuel h s (a ++ b) =
      (runOps fuel ha s b).map (fun r => (ra ++ r.1, r.2)) := by
  induction a with
  | nil =>
    intro h ra ha e
    simp only [runOps, Option.some.injEq, Prod.mk.injEq] at e
    obtain ⟨rfl, rfl⟩ := e
    rw [List.nil_append]
    cases runOps fuel h s b <;> rfl
  | cons op rest ih =>
    intro h ra ha e
    simp only [runOps, Option.bind_eq_bind] at e
    cases h1 : runOp fuel h s op with
    | none => rw [h1] at e; simp at e
    | some r =>
      rw [h1, Option.some_bind] at e
      cases h2 : runOps fuel r.2 s rest with
      | none => rw [h2] at e; simp at e
      | some rs =>
        rw [h2, Option.some_bind] at e
        simp only [Option.some.injEq, Prod.mk.injEq] at e
        obtain ⟨rfl, rfl⟩ := e
        have e2 := ih r.2 rs.1 rs.2 h2
        rw [List.cons_append]
        simp only [runOps, Option.bind_eq_bind, h1, Option.some_bind]
        rw [e2]
        cases runOps fuel rs.2 s b <;> rfl

/-- Refinement: on a well-formed stack, a sequence of `Stack_push` and
`Stack_pop` calls returns what the ordered collection of the specification
returns and leaves a well-formed stack holding the nodes of the collection,
as long as the pushed pointers are nodes, the collection stays under
`UINT_MOD` nodes and the fuel covers the scans.  Nodes stay nodes and memory
that is neither a node nor the stack is untouched. -/
theorem runOps_refines (fuel : Nat) (s : Nat) (ops : List StackOp) : ∀ (h : Heap)
    (its : List Nat), WFStack h s its →
    (∀ i, StackOp.push (some i) ∈ ops → ∃ y, h.getItem i = some y) →
    specBounded its ops → its.length + ops.length < fuel →
    ∃ h', runOps fuel h (some s) ops = some ((specOps its ops).1, h') ∧
      WFStack h' s (specOps its ops).2 ∧
      (∀ a y, h.getItem a = some y → ∃ y', h'.getItem a = some y') ∧
      (∀ a, a ≠ s → (∀ y, h.getItem a ≠ some y) → h'.mem a = h.mem a) := by
  induction ops with
  | nil =>
    intro h its hwf _ _ _
    exact ⟨h, rfl, hwf, fun a y hy => ⟨y, hy⟩, fun _ _ _ => rfl⟩
  | cons op rest ih =>
    intro h its hwf hit hb hf
    simp only [List.length_cons] at hf
    have hlen := specOp_length_le its op
    have step : ∃ r h1, runOp fuel h (some s) op = some (r, h1) ∧ r = (specOp its op).1 ∧
        WFStack h1 s (specOp its op).2 ∧
        (∀ a y, h.getItem a = some y → ∃ y', h1.getItem a = some y') ∧
        (∀ a, a ≠ s → (∀ y, h.getItem a ≠ some y) → h1.mem a = h.mem a) := by
      cases op with
      | push item =>
        cases item with
        | none =>
          exact ⟨.pushed 0, h, rfl, rfl, hwf, fun a y hy => ⟨y, hy⟩, fun _ _ _ => rfl⟩
        | some i =>
          have hlt : i ∉ its → its.length + 1 < UINT_MOD := by
            intro hi
            have := hb.1
            simpa [specOp, hi] using this
          obtain ⟨r, h1, hp, hr, hwf1, hk, _, hm⟩ :=
            WFStack_push fuel h s i its hwf (hit i (List.mem_cons_self _ _)) hlt (by omega)
          exact ⟨.pushed r, h1, by simp [runOp, hp], hr, hwf1, hk, hm⟩
      | pop =>
        obtain ⟨r, h1, hp, hr, hwf1, hk, _, hm⟩ := WFStack_pop h s its hwf
        exact ⟨.popped r, h1, by simp [runOp, hp], hr, hwf1, hk, hm⟩
    obtain ⟨r, h1, hrun, hr, hwf1, hk, hm⟩ := step
    obtain ⟨h', hrun', hwf', hk', hm'⟩ := ih h1 (specOp its op).2 hwf1
      (fun i hi => by
        obtain ⟨y, hy⟩ := hit i (List.mem_cons_of_mem _ hi)
        exact hk i y hy)
      hb.2 (by omega)
    refine ⟨h', ?_, hwf', ?_, ?_⟩
    · simp only [runOps, Option.bind_eq_bind, hrun, Option.some_bind, hrun', specOps, hr]
    · intro a y hy
      obtain ⟨y1, hy1⟩ := hk a y hy
      exact hk' a y1 hy1
    · intro a has hna
      have e1 := hm a has hna
      rw [hm' a has (fun y => by rw [getItem_of_mem_eq h h1 a e1]; exact hna y), e1]


/-! ## Filling a stack until the count wraps -/

theorem nodesHeap_getStack (m : Nat) :
    (nodesHeap m).getStack 0 = some ⟨none, none, 0, none⟩ := by
  simp [nodesHeap, Heap.getStack]

theorem nodesHeap_getItem (m i : Nat) (h1 : 1 ≤ i) (h2 : i ≤ m) :
    (nodesHeap m).getItem i = some ⟨none, none, none⟩ := by
  have h0 : i ≠ 0 := by omega
  simp [nodesHeap, Heap.getItem, h0, h2]

theorem nodesHeap_wf (m : Nat) : WFStack (nodesHeap m) 0 [] :=
  ⟨_, nodesHeap_getStack m, rfl, by simp [UINT_MOD], List.nodup_nil, rfl,
    fun hne => absurd rfl hne, trivial⟩

theorem mem_pushes (xs : List Nat) (i : Nat) (hi : StackOp.push (some i) ∈ pushes xs) :
    i ∈ xs := by
  simp only [pushes, List.mem_map] at hi
  obtain ⟨x, hx, e⟩ := hi
  cases e
  exact hx

theorem length_pushes (xs : List Nat) : (pushes xs).length = xs.length := by
  simp [pushes]

/-- Pushing distinct nodes onto a well-formed stack that holds none of them,
while the count stays under `UINT_MOD`: every push returns 1 and the stack
holds the old nodes followed by the new ones. -/
theorem runOps_pushes (fuel : Nat) (h : Heap) (s : Nat) (its xs : List Nat)
    (hwf : WFStack h s its) (hit : ∀ i ∈ xs, ∃ y, h.getItem i = some y)
    (hnd : (its ++ xs).Nodup) (hlt : its.length + xs.length < UINT_MOD)
    (hf : its.length + xs.length < fuel) :
    ∃ h', runOps fuel h (some s) (pushes xs) =
        some (List.replicate xs.length (.pushed 1), h') ∧
      WFStack h' s (its ++ xs) ∧
      (∀ a y, h.getItem a = some y → ∃ y', h'.getItem a = some y') ∧
      (∀ a, a ≠ s → (∀ y, h.getItem a ≠ some y) → h'.mem a = h.mem a) := by
  have e := specOps_pushes xs its hnd
  obtain ⟨h', hr, hwf', hk, hm⟩ := runOps_refines fuel s (pushes xs) h its hwf
    (fun i hi => hit i (mem_pushes xs i hi))
    (specBounded_of_length _ _ (by rw [length_pushes]; exact hlt))
    (by rw [length_pushes]; exact hf)
  rw [e] at hr hwf'
  exact ⟨h', hr, hwf', hk, hm⟩

/-- When the nodes 1 to `n + 1` are pushed in order onto the empty stack of
`nodesHeap (n + 1)` and `n + 1` is `UINT_MOD`, every push returns 1 and the
count is back to 0, with all the nodes linked from `bottom`. -/
theorem pushes_wrap (n fuel : Nat) (hn : n + 1 = UINT_MOD) (hf : n < fuel) :
    ∃ h1 h2 st2,
      runOps fuel (nodesHeap (n + 1)) (some 0) (pushes (List.range' 1 n)) =
        some (List.replicate n (.pushed 1), h1) ∧
      WFStack h1 0 (List.range' 1 n) ∧
      Stack_push fuel h1 (some 0) (some (n + 1)) = some (1, h2) ∧
      runOps fuel (nodesHeap (n + 1)) (some 0) (pushes (List.range' 1 (n + 1))) =
        some (List.replicate (n + 1) (.pushed 1), h2) ∧
      h2.getStack 0 = some st2 ∧ st2.items = 0 ∧ st2.top = some (n + 1) ∧
      Seg h2 st2.bottom (List.range' 1 (n + 1)) := by
  have hnd : ([] ++ List.range' 1 n).Nodup := by
    rw [List.nil_append]; exact List.nodup_range' 1 n
  obtain ⟨h1, hr1, hwf1, hk1, _⟩ := runOps_pushes fuel (nodesHeap (n + 1)) 0 []
    (List.range' 1 n) (nodesHeap_wf _)
    (fun i hi => by
      rw [List.mem_range'_1] at hi
      exact ⟨_, nodesHeap_getItem (n + 1) i hi.1 (by omega)⟩)
    hnd (by simp only [List.length_nil, List.length_range']; omega)
    (by simp only [List.length_nil, List.length_range']; omega)
  rw [List.length_range'] at hr1
  rw [List.nil_append] at hwf1
  obtain ⟨st, hst, hn1, _, hnd1, htop1, hseg1, _⟩ := id hwf1
  obtain ⟨x, hx⟩ := hk1 (n + 1) _ (nodesHeap_getItem (n + 1) (n + 1) (by omega) (le_refl _))
  have hni : n + 1 ∉ List.range' 1 n := by
    rw [List.mem_range'_1]; omega
  obtain ⟨h2, st2, hp, hst2, hn2, htop2, _, hseg2, _⟩ :=
    Stack_push_effect fuel h1 0 (n + 1) st x (List.range' 1 n) hst hx hseg1 hn1
      (fun _ => htop1) hni hnd1 (by rw [List.length_range']; exact hf)
  have hcat : List.range' 1 (n + 1) = List.range' 1 n ++ [n + 1] := by
    rw [List.range'_concat, Nat.one_mul, Nat.add_comm 1 n]
  refine ⟨h1, h2, st2, hr1, hwf1, hp, ?_, hst2, ?_, htop2, ?_⟩
  · rw [hcat, pushes, List.map_append]
    have e := runOps_append fuel (some 0) (pushes (List.range' 1 n))
      [StackOp.push (some (n + 1))] _ _ _ hr1
    simp only [pushes] at e
    rw [List.map_singleton, e]
    simp only [runOps, runOp, Option.bind_eq_bind, hp, Option.some_bind, Option.map_some']
    rw [List.replicate_succ']
  · rw [hn2, List.length_range', hn, Nat.mod_self]
  · rw [hcat]; exact hseg2

/-! ## Pushing a node that is in the stack after the count has wrapped -/

/-- After the pushes of `pushes_wrap` the count is 0 although every node is
linked: `Stack_push` of the node on top, which is in the stack, returns 1,
makes that node the only one reached from `bottom` and sets the count to 1. -/
theorem push_present_wrap (n fuel : Nat) (hn : n + 1 = UINT_MOD) (hf : n < fuel) :
    ∃ h2 st2 h3 st3,
      runOps fuel (nodesHeap (n + 1)) (some 0) (pushes (List.range' 1 (n + 1))) =
        some (List.replicate (n + 1) (.pushed 1), h2) ∧
      h2.getStack 0 = some st2 ∧ st2.items = 0 ∧ st2.top = some (n + 1) ∧
      Seg h2 st2.bottom (List.range' 1 (n + 1)) ∧ n + 1 ∈ List.range' 1 (n + 1) ∧
      Stack_push fuel h2 (some 0) (some (n + 1)) = some (1, h3) ∧
      h3.getStack 0 = some st3 ∧ st3.items = 1 ∧ st3.bottom = some (n + 1) ∧
      Stack_numItems h2 (some 0) = some 0 ∧ Stack_numItems h3 (some 0) = some 1 := by
  obtain ⟨_, h2, st2, _, _, _, hr, hst2, hz, htop, hseg⟩ := pushes_wrap n fuel hn hf
  have hmem : n + 1 ∈ List.range' 1 (n + 1) := by
    rw [List.mem_range'_1]; omega
  obtain ⟨x, hx⟩ := Seg_mem_item h2 _ _ hseg (n + 1) hmem
  obtain ⟨h3, st3, hp3, hst3, hn3, _, _, hseg3, _⟩ :=
    Stack_push_absent fuel h2 0 (n + 1) st2 x [] hst2 hx (fun hne => absurd rfl hne) hz
      (by simp [UINT_MOD]) (fun hne => absurd rfl hne) (List.not_mem_nil _) List.nodup_nil
      (by simp only [List.length_nil]; omega)
  refine ⟨h2, st2, h3, st3, hr, hst2, hz, htop, hseg, hmem, hp3, hst3, hn3, hseg3.1, ?_, ?_⟩
  · simp only [Stack_numItems, hst2, Option.bind_eq_bind, Option.some_bind, hz]
  · simp only [Stack_numItems, hst3, Option.bind_eq_bind, Option.some_bind, hn3]
    rfl

/-- C14, counterexample to the claim as stated: the count is an `unsigned
int`.  After the nodes 1 to 4294967296 have been pushed onto an empty stack,
every push returning 1, the count is 0 and all the nodes are linked from
`bottom`, node 4294967296 on top.  `Stack_itemExists` returns 0 for a count of 0
without looking at the nodes, so `Stack_push` of node 4294967296, which is in
the stack, returns 1 instead of failing, and it mutates the stack: the count
goes from 0 to 1 and `bottom` becomes that node. -/
theorem C14_push_present_after_wrap :
    ∃ h2 st2 h3 st3,
      runOps 4294967297 (nodesHeap 4294967296) (some 0)
          (pushes (List.range' 1 4294967296)) =
        some (List.replicate 4294967296 (.pushed 1), h2) ∧
      h2.getStack 0 = some st2 ∧ st2.items = 0 ∧ st2.top = some 4294967296 ∧
      Seg h2 st2.bottom (List.range' 1 4294967296) ∧
      4294967296 ∈ List.range' 1 4294967296 ∧
      Stack_push 4294967297 h2 (some 0) (some 4294967296) = some (1, h3) ∧
      h3.getStack 0 = some st3 ∧ st3.items = 1 ∧ st3.bottom = some 4294967296 ∧
      Stack_numItems h2 (some 0) = some 0 ∧ Stack_numItems h3 (some 0) = some 1 :=
  push_present_wrap 4294967295 4294967297 rfl (by decide)


theorem specOps_length_le (ops : List StackOp) : ∀ its : List Nat,
    (specOps its ops).2.length ≤ its.length + ops.length := by
  induction ops with
  | nil => intro its; simp [specOps]
  | cons op rest ih =>
    intro its
    have h1 := specOp_length_le its op
    have h2 := ih (specOp its op).2
    simp only [specOps, List.length_cons]
    omega

theorem FreshStack_wf (h : Heap) (s : Nat) (hs : FreshStack h s) : WFStack h s [] := by
  obtain ⟨o, ho⟩ := hs
  exact ⟨_, ho, rfl, by simp [UINT_MOD], List.nodup_nil, rfl, fun hne => absurd rfl hne,
    trivial⟩

theorem numItems_wf (h : Heap) (s : Nat) (its : List Nat) (hwf : WFStack h s its) :
    Stack_numItems h (some s) = some its.length := by
  obtain ⟨st, hst, hn, _⟩ := hwf
  simp [Stack_numItems, hst, hn]

/-! ## Claims on `Stack_push` and `Stack_pop` -/

/-- C15 (as amended): on a well-formed stack holding fewer than
`UINT_MOD - 1` nodes, `Stack_push` of a node that is not in the stack returns
1, the count grows by exactly one, and the node is appended after the previous
top: it becomes `top`, its `prev` is the old top and its `next` is `NULL`; the
stack stays well formed with the node last, and when the stack was empty the
node is both `bottom` and `top`. -/
theorem C15_push_appends (fuel : Nat) (h : Heap) (s i : Nat) (its : List Nat)
    (hwf : WFStack h s its) (hx : ∃ x, h.getItem i = some x) (hi : i ∉ its)
    (hlt : its.length + 1 < UINT_MOD) (hf : its.length < fuel) :
    ∃ h' st st' x', Stack_push fuel h (some s) (some i) = some (1, h') ∧
      h.getStack s = some st ∧ h'.getStack s = some st' ∧
      Stack_numItems h (some s) = some its.length ∧
      Stack_numItems h' (some s) = some (its.length + 1) ∧
      WFStack h' s (its ++ [i]) ∧ st'.top = some i ∧
      h'.getItem i = some x' ∧ x'.prev = st.top ∧ x'.next = none ∧
      (its = [] → st'.bottom = some i) := by
  obtain ⟨r, h1, hp1, _, hwf1, _⟩ := WFStack_push fuel h s i its hwf hx (fun _ => hlt) hf
  have hspec : specOp its (.push (some i)) = (.pushed 1, its ++ [i]) := by
    simp [specOp, hi]
  rw [hspec] at hwf1
  have hnum := numItems_wf h s its hwf
  obtain ⟨st, hst, hn, _, hnd, htop, hseg, _⟩ := hwf
  obtain ⟨x, hx⟩ := hx
  obtain ⟨h', st', hp, hst', hn', htop', _, hseg', hi', _⟩ :=
    Stack_push_absent fuel h s i st x its hst hx hseg hn hlt (fun _ => htop) hi hnd hf
  have e : h1 = h' := by
    rw [hp1] at hp
    exact (Prod.mk.inj (Option.some.inj hp)).2
  subst e
  refine ⟨h1, st, st', _, hp, hst, hst', hnum, ?_, hwf1, htop', hi', htop.symm, rfl, ?_⟩
  · simp [Stack_numItems, hst', hn']
  · rintro rfl
    exact hseg'.1

/-- Witness of C15: node 3 is pushed onto the stack that holds node 2. -/
theorem C15_push_appends_witness :
    ∃ h, Stack_push 3 (nodesHeap 3) (some 0) (some 2) = some (1, h) ∧
      ∃ h' st st' x', Stack_push 3 h (some 0) (some 3) = some (1, h') ∧
        h.getStack 0 = some st ∧ h'.getStack 0 = some st' ∧
        Stack_numItems h (some 0) = some 1 ∧
        Stack_numItems h' (some 0) = some 2 ∧
        WFStack h' 0 [2, 3] ∧ st'.top = some 3 ∧
        h'.getItem 3 = some x' ∧ x'.prev = st.top ∧ x'.next = none ∧
        (([2] : List Nat) = [] → st'.bottom = some 3) := by
  obtain ⟨h, hr, hwf, hx⟩ : ∃ h, Stack_push 3 (nodesHeap 3) (some 0) (some 2) = some (1, h) ∧
      WFStack h 0 [2] ∧ ∃ x, h.getItem 3 = some x :=
    ⟨_, rfl, ⟨⟨some 2, some 2, 1, none⟩, rfl, rfl, by decide, by decide, rfl,
      fun _ => ⟨rfl, _, rfl, rfl⟩, ⟨⟨_, rfl, rfl⟩, trivial⟩⟩, ⟨_, rfl⟩⟩
  exact ⟨h, hr, C15_push_appends 3 h 0 3 [2] hwf hx (by decide) (by decide) (by decide)⟩

/-- C15, counterexample to the claim as stated: the count is an
`unsigned int`.  The nodes 1 to 4294967295 are pushed onto the empty stack
of `nodesHeap 4294967296`; the stack is well formed and its count is
4294967295.  Pushing node 4294967296, which is not in the stack, returns 1
and leaves the count at 0, not one more. -/
theorem C15_count_wraps :
    ∃ h h', runOps 4294967297 (nodesHeap 4294967296) (some 0)
        (pushes (List.range' 1 4294967295)) =
        some (List.replicate 4294967295 (.pushed 1), h) ∧
      WFStack h 0 (List.range' 1 4294967295) ∧
      4294967296 ∉ List.range' 1 4294967295 ∧
      Stack_numItems h (some 0) = some 4294967295 ∧
      Stack_push 4294967297 h (some 0) (some 4294967296) = some (1, h') ∧
      Stack_numItems h' (some 0) = some 0 := by
  obtain ⟨h1, h2, st2, hr1, hwf1, hp, _, hst2, hn2, _⟩ :=
    pushes_wrap 4294967295 4294967297 rfl (by decide)
  refine ⟨h1, h2, hr1, hwf1, ?_, ?_, hp, ?_⟩
  · rw [List.mem_range'_1]; omega
  · rw [numItems_wf h1 0 _ hwf1, List.length_range']
  · simp only [Stack_numItems, hst2, Option.bind_eq_bind, Option.some_bind, hn2]


/-- C16 (as amended): `Stack_pop` is last-in-first-out for fewer than
`UINT_MOD` items.  Distinct nodes `xs` are pushed in order onto an empty
well-formed stack and then `k` pops are made, for any `k` up to the number of
nodes: every push returns 1 and the pops return the nodes in reverse order of
pushing (all of them when `k` is the number of nodes).  After the `k` pops the
stack is well formed with the nodes not yet popped, so each pop returned the
top of the stack before it, left the node before that one as the new top and
took one off the count. -/
theorem C16_pop_lifo (fuel : Nat) (h : Heap) (s : Nat) (xs : List Nat) (k : Nat)
    (hwf : WFStack h s []) (hit : ∀ i ∈ xs, ∃ y, h.getItem i = some y) (hnd : xs.Nodup)
    (hlt : xs.length < UINT_MOD) (hk : k ≤ xs.length) (hf : xs.length + k < fuel) :
    ∃ h' st, runOps fuel h (some s) (pushes xs ++ pops k) =
        some (List.replicate xs.length (.pushed 1) ++
          (xs.reverse.take k).map (fun x => StackRes.popped (some x)), h') ∧
      WFStack h' s (xs.take (xs.length - k)) ∧
      Stack_numItems h' (some s) = some (xs.length - k) ∧
      h'.getStack s = some st ∧ st.top = (xs.take (xs.length - k)).getLast? := by
  have e1 := specOps_pushes xs [] (by simpa using hnd)
  have e2 := specOps_pops k xs hk
  have e : specOps [] (pushes xs ++ pops k) =
      (List.replicate xs.length (.pushed 1) ++
        (xs.reverse.take k).map (fun x => StackRes.popped (some x)),
        xs.take (xs.length - k)) := by
    rw [specOps_append, e1, List.nil_append, e2]
  have hb : specBounded [] (pushes xs ++ pops k) := by
    refine specBounded_append _ _ _
      (specBounded_of_length _ _ (by rw [length_pushes]; simpa using hlt)) ?_
    rw [e1]
    exact specBounded_pops k _ (by simpa using hlt)
  obtain ⟨h', hr, hwf', _⟩ := runOps_refines fuel s (pushes xs ++ pops k) h [] hwf
    (fun i hi => by
      rcases List.mem_append.mp hi with hm | hm
      · exact hit i (mem_pushes xs i hm)
      · simp [pops, List.mem_replicate] at hm)
    hb (by simp [length_pushes, pops]; omega)
  rw [e] at hr hwf'
  have hnum := numItems_wf h' s _ hwf'
  rw [List.length_take, Nat.min_eq_left (Nat.sub_le _ _)] at hnum
  obtain ⟨st, hst, _, _, _, htop, _⟩ := id hwf'
  exact ⟨h', st, hr, hwf', hnum, hst, htop⟩

/-- Witness of C16: the nodes 1, 2, 3 are pushed and popped again. -/
theorem C16_pop_lifo_witness :
    ∃ h' st, runOps 7 (nodesHeap 3) (some 0) (pushes [1, 2, 3] ++ pops 3) =
        some (List.replicate [1, 2, 3].length (.pushed 1) ++
          ([1, 2, 3].reverse.take 3).map (fun x => StackRes.popped (some x)), h') ∧
      WFStack h' 0 ([1, 2, 3].take ([1, 2, 3].length - 3)) ∧
      Stack_numItems h' (some 0) = some ([1, 2, 3].length - 3) ∧
      h'.getStack 0 = some st ∧ st.top = ([1, 2, 3].take ([1, 2, 3].length - 3)).getLast? :=
  C16_pop_lifo 7 (nodesHeap 3) 0 [1, 2, 3] 3 (nodesHeap_wf 3)
    (fun i hi => ⟨_, nodesHeap_getItem 3 i
      (by simp at hi; omega) (by simp at hi; omega)⟩)
    (by decide) (by decide) (by decide) (by decide)

/-- C16, counterexample to the claim as stated, with n = 4294967296: the
distinct nodes 1 to 4294967296 are pushed in order onto the empty stack of
`nodesHeap 4294967296`.  Every push returns 1, the `unsigned int` count is
back to 0, and the first `Stack_pop` returns `NULL` and changes nothing,
where the claim has it return the node pushed last. -/
theorem C16_pop_after_wrap :
    ∃ h, WFStack (nodesHeap 4294967296) 0 [] ∧
      (List.range' 1 4294967296).Nodup ∧ (List.range' 1 4294967296).length = 4294967296 ∧
      runOps 4294967297 (nodesHeap 4294967296) (some 0)
        (pushes (List.range' 1 4294967296)) =
        some (List.replicate 4294967296 (.pushed 1), h) ∧
      Stack_pop h (some 0) = some (none, h) := by
  obtain ⟨_, h2, st2, _, _, _, hr2, hst2, hn2, _⟩ :=
    pushes_wrap 4294967295 4294967297 rfl (by decide)
  refine ⟨h2, nodesHeap_wf _, List.nodup_range' 1 _, List.length_range' _ _ _, hr2, ?_⟩
  simp only [Stack_pop, hst2, Option.bind_eq_bind, Option.some_bind, hn2, if_true]

/-- C19 (as amended): on a stack as `Stack_create` leaves it, after any
sequence of `Stack_push` and `Stack_pop` calls during which the stack holds
fewer than `UINT_MOD` nodes, the calls return what the ordered collection of
the specification returns, and `Stack_itemExists` returns 1 for a node that
has been pushed and not yet popped and 0 for any other pointer; a node that
the next `Stack_pop` returns is then reported absent. -/
theorem C19_itemExists_reflects (fuel : Nat) (h : Heap) (s : Nat) (ops : List StackOp)
    (x : Nat) (hs : FreshStack h s)
    (hit : ∀ i, StackOp.push (some i) ∈ ops → ∃ y, h.getItem i = some y)
    (hb : specBounded [] ops) (hf : ops.length < fuel) :
    ∃ h', runOps fuel h (some s) ops = some ((specOps [] ops).1, h') ∧
      Stack_itemExists fuel h' (some s) (some x) =
        some (if x ∈ (specOps [] ops).2 then 1 else 0) ∧
      (∀ t h'', Stack_pop h' (some s) = some (some t, h'') →
        Stack_itemExists fuel h'' (some s) (some t) = some 0) := by
  obtain ⟨h', hr, hwf', _⟩ := runOps_refines fuel s ops h [] (FreshStack_wf h s hs) hit hb
    (by simpa using hf)
  have hlen := specOps_length_le ops []
  simp only [List.length_nil, Nat.zero_add] at hlen
  refine ⟨h', hr, WFStack_itemExists fuel h' s x _ hwf' (by omega), ?_⟩
  intro t h'' hp
  obtain ⟨r, h1, hp1, hr1, hwf1, _⟩ := WFStack_pop h' s _ hwf'
  rw [hp1] at hp
  obtain ⟨rfl, rfl⟩ := Prod.mk.inj (Option.some.inj hp)
  obtain ⟨_, _, _, _, hnd, _⟩ := id hwf'
  rcases List.eq_nil_or_concat (specOps [] ops).2 with e | ⟨init, t', e⟩
  · rw [e] at hr1
    simp [specOp] at hr1
  · rw [List.concat_eq_append] at e
    rw [e] at hr1 hwf1 hnd
    have e2 : specOp (init ++ [t']) .pop = (.popped (some t'), init) := by simp [specOp]
    rw [e2] at hr1 hwf1
    have ht : t = t' := by
      simpa using hr1
    subst ht
    have hti : t ∉ init := by
      intro hm
      exact (List.nodup_append.mp hnd).2.2 hm (List.mem_singleton_self t)
    have hl : init.length < fuel := by
      have : (specOps [] ops).2.length = init.length + 1 := by rw [e]; simp
      omega
    rw [WFStack_itemExists fuel h1 s t init hwf1 hl, if_neg hti]

/-- Witness of C19: nodes 1 and 2 are pushed, one pop is made, node 3 is
pushed; node 1 is reported present. -/
theorem C19_itemExists_reflects_witness :
    ∃ h', runOps 5 (nodesHeap 3) (some 0)
        [.push (some 1), .push (some 2), .pop, .push (some 3)] =
        some ([.pushed 1, .pushed 1, .popped (some 2), .pushed 1], h') ∧
      Stack_itemExists 5 h' (some 0) (some 1) = some 1 ∧
      (∀ t h'', Stack_pop h' (some 0) = some (some t, h'') →
        Stack_itemExists 5 h'' (some 0) (some t) = some 0) :=
  C19_itemExists_reflects 5 (nodesHeap 3) 0
    [.push (some 1), .push (some 2), .pop, .push (some 3)] 1 ⟨none, rfl⟩
    (fun i hi => ⟨_, nodesHeap_getItem 3 i
      (by simp at hi; omega) (by simp at hi; omega)⟩)
    (by simp [specBounded, specOp, UINT_MOD]) (by decide)

/-- C19, counterexample to the claim as stated: the nodes 1 to 4294967296 are
pushed in order onto the empty stack of `nodesHeap 4294967296`, a stack as
`Stack_create` leaves it, and no pop is made.  Every push returns 1, the
`unsigned int` count is back to 0, and `Stack_itemExists` returns 0 for
node 1, which has been pushed and not popped. -/
theorem C19_absent_after_wrap :
    ∃ h, FreshStack (nodesHeap 4294967296) 0 ∧
      StackOp.push (some 1) ∈ pushes (List.range' 1 4294967296) ∧
      StackOp.pop ∉ pushes (List.range' 1 4294967296) ∧
      runOps 4294967297 (nodesHeap 4294967296) (some 0)
        (pushes (List.range' 1 4294967296)) =
        some (List.replicate 4294967296 (.pushed 1), h) ∧
      Stack_itemExists 4294967297 h (some 0) (some 1) = some 0 := by
  obtain ⟨_, h2, st2, _, _, _, hr2, hst2, hn2, _⟩ :=
    pushes_wrap 4294967295 4294967297 rfl (by decide)
  refine ⟨h2, ⟨none, nodesHeap_getStack _⟩, ?_, ?_, hr2, ?_⟩
  · exact List.mem_map.mpr ⟨1, by rw [List.mem_range'_1]; omega, rfl⟩
  · intro hm
    obtain ⟨_, _, e⟩ := List.mem_map.mp hm
    cases e
  · simp only [Stack_itemExists, hst2, Option.bind_eq_bind, Option.some_bind, hn2, if_true]


/-! ## Following `next` links from `bottom` -/

theorem walk_seg (h : Heap) (its : List Nat) : ∀ p fuel, Seg h p its → its.length < fuel →
    walk fuel h p = some its := by
  induction its with
  | nil =>
    intro p fuel hs hf
    cases fuel with
    | zero => simp at hf
    | succ n => rw [show p = none from hs]; rfl
  | cons a rest ih =>
    intro p fuel hs hf
    obtain ⟨hp, it, hit, hr⟩ := hs
    cases fuel with
    | zero => simp at hf
    | succ n =>
      rw [hp]
      simp only [walk, hit, Option.bind_eq_bind, Option.some_bind,
        ih _ n hr (by simp at hf; omega)]

/-- On a well-formed stack that holds at least one node, following `next`
links from `bottom` visits exactly the nodes of the stack, in order. -/
theorem Stack_nodes_wf (fuel : Nat) (h : Heap) (s : Nat) (its : List Nat)
    (hwf : WFStack h s its) (hne : its ≠ []) (hf : its.length < fuel) :
    Stack_nodes fuel h s = some its := by
  obtain ⟨st, hst, _, _, _, _, hseg, _⟩ := hwf
  simp only [Stack_nodes, hst, Option.bind_eq_bind, Option.some_bind]
  exact walk_seg h its _ fuel (hseg hne) hf

/-- C18: the failing input.  On the initial heap a stack and a node are
created, the node is pushed and popped again.  Both calls succeed, the count
is 0 and the ordered collection of the specification is empty, but
`Stack_pop` has not reset `bottom`: following `next` links from `bottom`
still visits the popped node, one node where the count says none. -/
theorem C18_bottom_after_last_pop :
    (Stack_create (Heap.init 2) none).1 = some 0 ∧
    (StackItem_create (Stack_create (Heap.init 2) none).2).1 = some 1 ∧
    ∃ h, runOps 2 (StackItem_create (Stack_create (Heap.init 2) none).2).2 (some 0)
        [.push (some 1), .pop] = some ([.pushed 1, .popped (some 1)], h) ∧
      specOps [] [.push (some 1), .pop] = ([.pushed 1, .popped (some 1)], []) ∧
      Stack_numItems h (some 0) = some 0 ∧
      Stack_nodes 2 h 0 = some [1] ∧
      h.getStack 0 = some ⟨some 1, none, 0, none⟩ :=
  ⟨rfl, rfl, _, rfl, by decide, rfl, rfl, rfl⟩

/-- C20, counterexample to the claim as stated: on `twoStacksHeap 2` the nodes
2 and 3 are pushed onto stack 0, then node 2 is pushed onto stack 1.
`Stack_push` scans only the stack it pushes onto, so the third push returns 1:
`Stack_itemExists` then reports node 2 in both stacks, and the `next` link of
node 2 has been cleared, so that following `next` links from the `bottom` of
stack 0 reaches node 2 only, where it reached the nodes 2 and 3 before. -/
theorem C20_node_in_two_stacks :
    ∃ h h', runOps 3 (twoStacksHeap 2) (some 0) (pushes [2, 3]) =
        some ([.pushed 1, .pushed 1], h) ∧
      Stack_itemExists 3 h (some 0) (some 2) = some 1 ∧
      Stack_nodes 3 h 0 = some [2, 3] ∧
      Stack_push 3 h (some 1) (some 2) = some (1, h') ∧
      Stack_itemExists 3 h' (some 0) (some 2) = some 1 ∧
      Stack_itemExists 3 h' (some 1) (some 2) = some 1 ∧
      Stack_nodes 3 h' 0 = some [2] ∧
      h.getItem 2 = some ⟨none, some 3, none⟩ ∧
      h'.getItem 2 = some ⟨none, none, none⟩ :=
  ⟨_, _, rfl, rfl, rfl, rfl, rfl, rfl, rfl, rfl, rfl⟩


/-! ## Two stacks without a common node -/

theorem WFStack_congr (h h' : Heap) (s : Nat) (its : List Nat)
    (hs : h'.getStack s = h.getStack s) (hn : ∀ n ∈ its, h'.getItem n = h.getItem n)
    (hwf : WFStack h s its) : WFStack h' s its := by
  obtain ⟨st, hst, hl, hlt, hnd, htop, hseg, hprev⟩ := hwf
  refine ⟨st, by rw [hs]; exact hst, hl, hlt, hnd, htop,
    fun hne => Seg_congr h h' its _ hn (hseg hne), Prevs_congr h h' its none ?_ hprev⟩
  intro a ha y hy
  exact ⟨y, by rw [hn a ha]; exact hy, rfl⟩

theorem TwoStacks_symm (h : Heap) (a b : Nat) (m : List Nat × List Nat)
    (ht : TwoStacks h a b m) : TwoStacks h b a (m.2, m.1) := by
  obtain ⟨hab, hA, hB, hd⟩ := ht
  exact ⟨hab.symm, hB, hA, fun x hx hx' => hd x hx' hx⟩

/-- A push onto the second of two stacks that share no node, of a node that
the first stack does not hold: the first stack and its nodes are untouched and
the stacks still share no node. -/
theorem TwoStacks_push (fuel : Nat) (h : Heap) (a b : Nat) (m : List Nat × List Nat)
    (i : Nat) (ht : TwoStacks h a b m) (hx : ∃ x, h.getItem i = some x) (hi : i ∉ m.1)
    (hlt : (specOp m.2 (.push (some i))).2.length < UINT_MOD) (hf : m.2.length < fuel) :
    ∃ r h', Stack_push fuel h (some b) (some i) = some (r, h') ∧
      TwoStacks h' a b (m.1, (specOp m.2 (.push (some i))).2) ∧
      h'.getStack a = h.getStack a ∧ (∀ n ∈ m.1, h'.getItem n = h.getItem n) ∧
      (∀ n y, h.getItem n = some y → ∃ y', h'.getItem n = some y') := by
  obtain ⟨hab, hA, hB, hd⟩ := ht
  have hlt' : i ∉ m.2 → m.2.length + 1 < UINT_MOD := by
    intro hn
    simpa [specOp, hn] using hlt
  obtain ⟨r, h', hp, _, hwf', hk, hsame, hm⟩ := WFStack_push fuel h b i m.2 hB hx hlt' hf
  obtain ⟨stA, hstA, _, _, _, _, _, hprevA⟩ := id hA
  have hsA : h'.getStack a = h.getStack a := by
    refine getStack_of_mem_eq h h' a (hm a hab ?_)
    intro y hy
    exact getItem_ne_getStack h a a y stA hy hstA rfl
  have hnA : ∀ n ∈ m.1, h'.getItem n = h.getItem n := by
    intro n hn
    obtain ⟨y, hy⟩ := Prevs_mem_item h m.1 none hprevA n hn
    rw [hy]
    refine hsame n y (fun e => hi (e ▸ hn)) ?_ hy
    intro e
    exact hd n hn (List.mem_of_getLast?_eq_some e.symm)
  refine ⟨r, h', hp, ⟨hab, WFStack_congr h h' a m.1 hsA hnA hA, hwf', ?_⟩, hsA, hnA, hk⟩
  intro x hx1 hx2
  by_cases hib : i ∈ m.2
  · simp only [specOp, hib, if_true] at hx2
    exact hd x hx1 hx2
  · simp only [specOp, hib, if_false, List.mem_append, List.mem_singleton] at hx2
    rcases hx2 with hx2 | rfl
    · exact hd x hx1 hx2
    · exact hi hx1

theorem specPushes2_length_le (ops : List Push2) : ∀ m : List Nat × List Nat,
    (specPushes2 m ops).1.length + (specPushes2 m ops).2.length ≤
      m.1.length + m.2.length + ops.length := by
  induction ops with
  | nil => intro m; simp [specPushes2]
  | cons op rest ih =>
    intro m
    have h1 := ih (specPush2 m op)
    have h2 : (specPush2 m op).1.length + (specPush2 m op).2.length ≤
        m.1.length + m.2.length + 1 := by
      cases op with
      | onA x =>
        have := specOp_length_le m.1 (.push (some x))
        simp only [specPush2]; omega
      | onB x =>
        have := specOp_length_le m.2 (.push (some x))
        simp only [specPush2]; omega
    simp only [specPushes2, List.length_cons]
    omega

/-- A sequence of pushes on two stacks that share no node, none of which
pushes a node that the other stack holds: each stack holds what its ordered
collection holds and the stacks still share no node. -/
theorem TwoStacks_runPushes2 (fuel : Nat) (a b : Nat) (ops : List Push2) : ∀ (h : Heap)
    (m : List Nat × List Nat), TwoStacks h a b m →
    (∀ op ∈ ops, ∃ y, h.getItem (Push2.node op) = some y) → Exclusive2 m ops →
    m.1.length + m.2.length + ops.length < fuel →
    ∃ rs h', runPushes2 fuel a b h ops = some (rs, h') ∧
      TwoStacks h' a b (specPushes2 m ops) := by
  induction ops with
  | nil => intro h m ht _ _ _; exact ⟨[], h, rfl, ht⟩
  | cons op rest ih =>
    intro h m ht hit hex hf
    simp only [List.length_cons] at hf
    obtain ⟨hno, hl1, hl2, hrest⟩ := hex
    have step : ∃ r h1, Stack_push fuel h (some (op.target a b)) (some op.node) =
        some (r, h1) ∧ TwoStacks h1 a b (specPush2 m op) ∧
        (∀ n y, h.getItem n = some y → ∃ y', h1.getItem n = some y') := by
      cases op with
      | onA x =>
        obtain ⟨r, h1, hp, ht1, _, _, hk⟩ := TwoStacks_push fuel h b a (m.2, m.1) x
          (TwoStacks_symm h a b m ht) (hit _ (List.mem_cons_self _ _)) hno hl1 (by
            show m.1.length < fuel
            omega)
        exact ⟨r, h1, hp, TwoStacks_symm h1 b a _ ht1, hk⟩
      | onB x =>
        obtain ⟨r, h1, hp, ht1, _, _, hk⟩ := TwoStacks_push fuel h a b m x ht
          (hit _ (List.mem_cons_self _ _)) hno hl2 (by omega)
        exact ⟨r, h1, hp, ht1, hk⟩
    obtain ⟨r, h1, hp, ht1, hk⟩ := step
    have hlen := specPushes2_length_le [op] m
    simp only [specPushes2, List.length_singleton] at hlen
    obtain ⟨rs, h', hr, ht'⟩ := ih h1 (specPush2 m op) ht1
      (fun o ho => by
        obtain ⟨y, hy⟩ := hit o (List.mem_cons_of_mem _ ho)
        exact hk _ y hy)
      hrest (by omega)
    exact ⟨r :: rs, h', by
      simp only [runPushes2, Option.bind_eq_bind, hp, Option.some_bind, hr], ht'⟩


/-- C20 (as amended): `Stack_push` looks for the node in the stack it pushes
onto only.  For two distinct well-formed stacks A and B that share no node and
any sequence of `Stack_push` calls on them, none of which pushes a node that
the other stack holds at that time (each stack staying under `UINT_MOD`
nodes): all the calls return, the stacks are well formed and share no node,
`Stack_itemExists` reports no node present in both, and a further push onto B
of a node that A does not hold leaves the record of A and every node of A as
they were. -/
theorem C20_disjoint_stacks (fuel : Nat) (h : Heap) (a b : Nat) (m : List Nat × List Nat)
    (ops : List Push2) (ht : TwoStacks h a b m)
    (hit : ∀ op ∈ ops, ∃ y, h.getItem (Push2.node op) = some y) (hex : Exclusive2 m ops)
    (hf : m.1.length + m.2.length + ops.length < fuel) :
    ∃ rs h', runPushes2 fuel a b h ops = some (rs, h') ∧
      TwoStacks h' a b (specPushes2 m ops) ∧
      (∀ x, Stack_itemExists fuel h' (some a) (some x) = some 0 ∨
        Stack_itemExists fuel h' (some b) (some x) = some 0) ∧
      (∀ i, (∃ y, h'.getItem i = some y) → i ∉ (specPushes2 m ops).1 →
        (specOp (specPushes2 m ops).2 (.push (some i))).2.length < UINT_MOD →
        ∃ r h'', Stack_push fuel h' (some b) (some i) = some (r, h'') ∧
          h''.getStack a = h'.getStack a ∧
          ∀ n ∈ (specPushes2 m ops).1, h''.getItem n = h'.getItem n) := by
  obtain ⟨rs, h', hr, ht'⟩ := TwoStacks_runPushes2 fuel a b ops h m ht hit hex hf
  have hlen := specPushes2_length_le ops m
  refine ⟨rs, h', hr, ht', ?_, ?_⟩
  · intro x
    obtain ⟨_, hA, hB, hd⟩ := id ht'
    by_cases hx : x ∈ (specPushes2 m ops).1
    · right
      rw [WFStack_itemExists fuel h' b x _ hB (by omega), if_neg (hd x hx)]
    · left
      rw [WFStack_itemExists fuel h' a x _ hA (by omega), if_neg hx]
  · intro i hx hi hlt
    obtain ⟨r, h'', hp, _, hs, hn, _⟩ :=
      TwoStacks_push fuel h' a b (specPushes2 m ops) i ht' hx hi hlt (by omega)
    exact ⟨r, h'', hp, hs, hn⟩

/-- Witness of C20: on `twoStacksHeap 2`, node 2 is pushed onto stack 0 and
node 3 onto stack 1. -/
theorem C20_disjoint_stacks_witness :
    ∃ rs h', runPushes2 3 0 1 (twoStacksHeap 2) [.onA 2, .onB 3] = some (rs, h') ∧
      TwoStacks h' 0 1 (specPushes2 ([], []) [.onA 2, .onB 3]) ∧
      (∀ x, Stack_itemExists 3 h' (some 0) (some x) = some 0 ∨
        Stack_itemExists 3 h' (some 1) (some x) = some 0) ∧
      (∀ i, (∃ y, h'.getItem i = some y) →
        i ∉ (specPushes2 ([], []) [.onA 2, .onB 3]).1 →
        (specOp (specPushes2 ([], []) [.onA 2, .onB 3]).2 (.push (some i))).2.length
          < UINT_MOD →
        ∃ r h'', Stack_push 3 h' (some 1) (some i) = some (r, h'') ∧
          h''.getStack 0 = h'.getStack 0 ∧
          ∀ n ∈ (specPushes2 ([], []) [.onA 2, .onB 3]).1, h''.getItem n = h'.getItem n) :=
  C20_disjoint_stacks 3 (twoStacksHeap 2) 0 1 ([], []) [.onA 2, .onB 3]
    ⟨by decide,
      ⟨_, rfl, rfl, by decide, List.nodup_nil, rfl, fun hne => absurd rfl hne, trivial⟩,
      ⟨_, rfl, rfl, by decide, List.nodup_nil, rfl, fun hne => absurd rfl hne, trivial⟩,
      fun _ hx => by simp at hx⟩
    (fun op hop => by
      simp only [List.mem_cons, List.mem_singleton, List.not_mem_nil, or_false] at hop
      rcases hop with rfl | rfl <;> exact ⟨_, rfl⟩)
    (by simp [Exclusive2, specPush2, specOp, Push2.node, Push2.other, UINT_MOD])
    (by decide)


/-! ## Claims on `Packet_stack`, `Protocol` and the constructors -/

/-- C22: `Packet_stack` returns 0, its failure value, and leaves the heap as
it was when the Packet is `NULL`, when its member `stack` is `NULL`, when the
layer is `NULL`, and when the member `item` of the layer is `NULL`;
`Packet_getSize` returns 0 when the Packet or its member `stack` is `NULL`. -/
theorem C22_absent_arguments (fuel : Nat) (h : Heap) (pa pb p s : Nat) (pk : Packet)
    (pr : Protocol) (proto : Ptr) (hpa : h.getPacket pa = some ⟨none⟩)
    (hpb : h.getPacket pb = some pk) (hs : pk.stack = some s)
    (hp : h.getProtocol p = some pr) (hi : pr.item = none) :
    Packet_stack fuel h none proto = some (0, h) ∧
    Packet_stack fuel h (some pa) proto = some (0, h) ∧
    Packet_stack fuel h (some pb) none = some (0, h) ∧
    Packet_stack fuel h (some pb) (some p) = some (0, h) ∧
    Packet_getSize fuel h none = some 0 ∧
    Packet_getSize fuel h (some pa) = some 0 := by
  refine ⟨rfl, ?_, ?_, ?_, rfl, ?_⟩
  · simp [Packet_stack, hpa]
  · simp [Packet_stack, hpb, hs]
  · simp [Packet_stack, hpb, hs, Protocol_getItem, hp, hi, Stack_push]
  · simp [Packet_getSize, hpa]

/-- Witness of C22: a heap with a Packet without stack at address 0, a Packet
with the stack 2 at address 1 and a layer without node at address 3. -/
theorem C22_absent_arguments_witness :
    ∃ h : Heap, h.getPacket 0 = some ⟨none⟩ ∧ h.getPacket 1 = some ⟨some 2⟩ ∧
      h.getProtocol 3 = some ⟨none, none, none, none⟩ ∧
      Packet_stack 1 h none (some 3) = some (0, h) ∧
      Packet_stack 1 h (some 0) (some 3) = some (0, h) ∧
      Packet_stack 1 h (some 1) none = some (0, h) ∧
      Packet_stack 1 h (some 1) (some 3) = some (0, h) ∧
      Packet_getSize 1 h none = some 0 ∧
      Packet_getSize 1 h (some 0) = some 0 := by
  obtain ⟨h, h0, h1, h3⟩ : ∃ h : Heap, h.getPacket 0 = some ⟨none⟩ ∧
      h.getPacket 1 = some ⟨some 2⟩ ∧ h.getProtocol 3 = some ⟨none, none, none, none⟩ :=
    ⟨((((Heap.init 0).store 0 (.packet ⟨none⟩)).store 1 (.packet ⟨some 2⟩)).store 2
      (.stack ⟨none, none, 0, some 1⟩)).store 3 (.protocol ⟨none, none, none, none⟩),
      rfl, rfl, rfl⟩
  exact ⟨h, h0, h1, h3, C22_absent_arguments 1 h 0 1 3 2 _ _ (some 3) h0 h1 rfl h3 rfl⟩

/-- C23: what the code returns.  On `nodesHeap 1`, pushing node 1 onto the
empty stack returns 1 and the count becomes 1; pushing it again, and pushing
`NULL`, return 0.  On a Packet with that stack, `Packet_stack` of a layer with
node 1 returns 1 the first time and 0 the second time.  The value -1 is not
returned, and 0 is the value of the failing calls. -/
theorem C23_push_return_values :
    ∃ h1, Stack_push 2 (nodesHeap 1) (some 0) (some 1) = some (1, h1) ∧
      Stack_numItems h1 (some 0) = some 1 ∧
      Stack_push 2 h1 (some 0) (some 1) = some (0, h1) ∧
      Stack_push 2 h1 (some 0) none = some (0, h1) ∧
      Stack_push 2 h1 none (some 1) = some (0, h1) ∧
      ∃ h2, Packet_stack 2
          (((nodesHeap 1).store 2 (.packet ⟨some 0⟩)).store 3
            (.protocol ⟨none, none, some 1, none⟩)) (some 2) (some 3) = some (1, h2) ∧
        Stack_numItems h2 (some 0) = some 1 ∧
        Packet_stack 2 h2 (some 2) (some 3) = some (0, h2) ∧
        Packet_stack 2 h2 (some 2) none = some (0, h2) :=
  ⟨_, rfl, rfl, rfl, rfl, rfl, _, rfl, rfl, rfl, rfl⟩

/-- C24: the failing input.  A node and a `Protocol_t` holding it are created:
the owner of the node is the `Protocol_t` (address 1).  A second node is
created and given to the `Protocol_t` by `Protocol_setItem`, which returns 1:
`Protocol_getItem` is now the second node (address 2), and its owner is
`NULL`, not the `Protocol_t`, because `Protocol_setItem` assigns the member
`item` only. -/
theorem C24_setItem_owner :
    ∃ h2 h4, Protocol_createWithParams (StackItem_create (Heap.init 3)).2 none none
        (StackItem_create (Heap.init 3)).1 none = some (some 1, h2) ∧
      Protocol_getItem h2 (some 1) = some (some 0) ∧
      StackItem_getOwner h2 (some 0) = some (some 1) ∧
      (StackItem_create h2).1 = some 2 ∧
      Protocol_setItem (StackItem_create h2).2 (some 1) (some 2) = some (1, h4) ∧
      Protocol_getItem h4 (some 1) = some (some 2) ∧
      StackItem_getOwner h4 (some 2) = some none :=
  ⟨_, _, rfl, rfl, rfl, rfl, rfl, rfl, rfl⟩


/-- The three constructors in a build in which `Protocol_create` hands back
the value of its callee (`ret = id`), on a heap with room for their three
allocations: the header returned has a `Protocol_t` with the header as owner
and the `getSize` and `getBitstream` functions of that codec; the call through
the registered `getSize` returns 14, 20 and 8. -/
theorem constructor_registers (k : Layer) (h : Heap) (hav : 3 ≤ h.avail) :
    ∃ hd pb h', k.create id h = some (some hd, h') ∧
      k.getProtoBase h' (some hd) = some (some pb) ∧
      Protocol_getOwner h' (some pb) = some (some hd) ∧
      Protocol_getGetSize h' (some pb) = some (some k.sizeFn) ∧
      Protocol_getGetBitstream h' (some pb) = some (some k.bitstreamFn) ∧
      callGetSize k.sizeFn (some pb) = k.fixedSize ∧
      (k.sizeFn, k.bitstreamFn, k.fixedSize) ∈
        [(GetSizeFn.EtherProto_getSize, GetBitstreamFn.EtherProto_getBitstream, 14),
          (GetSizeFn.Ipv4Proto_getSize, GetBitstreamFn.Ipv4Proto_getBitstream, 20),
          (GetSizeFn.Udpv4Proto_getSize, GetBitstreamFn.Udpv4Proto_getBitstream, 8)] := by
  obtain ⟨hd, pb, i, h', hc, _, _, ⟨hb, hp, _⟩, _⟩ := Layer_create_ok k h hav
  refine ⟨hd, pb, h', hc, hb, ?_, ?_, ?_, ?_, ?_⟩
  · simp [Protocol_getOwner, hp]
  · simp [Protocol_getGetSize, hp]
  · simp [Protocol_getGetBitstream, hp]
  · cases k <;> rfl
  · cases k <;> simp [Layer.sizeFn, Layer.bitstreamFn, Layer.fixedSize]

/-- C25 (what the code does): `Udpv4Proto_create` succeeds without a
`Protocol_t`.  When the allocation of the node succeeds, the allocation of the
`Protocol_t` fails and the allocation of the header succeeds,
`Udpv4Proto_create` returns a header whose `proto_base` is `NULL`: no
`Protocol_t` exists on the heap, so no owner back-reference and no size
function are registered (the getters return `NULL` for it).  On the same
pattern of allocations (header, node, then the failure) `EtherProto_create` and
`Ipv4Proto_create` free the header and return `NULL`.  The same header without
`Protocol_t` comes back when all allocations succeed and the value that
`Protocol_create`, which has no `return` statement, hands to its caller is
`NULL`. -/
theorem C25_udpv4_without_protocol :
    (∃ h', Udpv4Proto_create id (Heap.initScript [true, false, true]) = some (some 1, h') ∧
      Udpv4Proto_getProtoBase h' (some 1) = some none ∧
      (∀ a, h'.getProtocol a = none) ∧
      Protocol_getOwner h' none = some none ∧
      Protocol_getGetSize h' none = some none ∧
      Protocol_getGetBitstream h' none = some none) ∧
    (∃ h', EtherProto_create id (Heap.initScript [true, true, false]) = some (none, h')) ∧
    (∃ h', Ipv4Proto_create id (Heap.initScript [true, true, false]) 0 = some (none, h')) ∧
    (∃ h', Udpv4Proto_create (fun _ => none) (Heap.init 3) = some (some 2, h') ∧
      Udpv4Proto_getProtoBase h' (some 2) = some none ∧
      Protocol_getOwner h' (some 1) = some none ∧
      Protocol_getGetSize h' (some 1) = some none) ∧
    (∃ h', EtherProto_create (fun _ => none) (Heap.init 3) = some (none, h')) ∧
    (∃ h', Ipv4Proto_create (fun _ => none) (Heap.init 3) 0 = some (none, h')) := by
  refine ⟨⟨_, rfl, rfl, ?_, rfl, rfl, rfl⟩, ⟨_, rfl⟩, ⟨_, rfl⟩, ⟨_, rfl, rfl, rfl, rfl⟩,
    ⟨_, rfl⟩, ⟨_, rfl⟩⟩
  intro a
  simp only [Heap.getProtocol, Heap.store, Heap.initScript]
  by_cases h1 : a = 1
  · subst h1; rfl
  · by_cases h0 : a = 0
    · subst h0; rfl
    · simp [h1, h0]

/-- C26: what the code does.  `Protocol_createWithParams` stores the argument
`item` and sets the owner of the node, but assigns `NULL` to the members
`getSize`, `getBitstream` and `owner` whatever its arguments are: the three
getters return `NULL`, `Protocol_getItem` returns `item`. -/
theorem C26_createWithParams_getters (h : Heap) (gs : Option GetSizeFn)
    (gb : Option GetBitstreamFn) (i : Nat) (x : StackItem) (o : Ptr) (hav : h.avail ≠ 0)
    (hx : h.getItem i = some x) :
    ∃ p h', Protocol_createWithParams h gs gb (some i) o = some (some p, h') ∧
      Protocol_getGetSize h' (some p) = some none ∧
      Protocol_getGetBitstream h' (some p) = some none ∧
      Protocol_getItem h' (some p) = some (some i) ∧
      Protocol_getOwner h' (some p) = some none := by
  refine ⟨h.brk, _, Protocol_createWithParams_ok h gs gb i x o hav hx, ?_, ?_, ?_, ?_⟩
  · simp [Protocol_getGetSize, getProtocol_store_same]
  · simp [Protocol_getGetBitstream, getProtocol_store_same]
  · simp [Protocol_getItem, getProtocol_store_same]
  · simp [Protocol_getOwner, getProtocol_store_same]

/-- Witness of C26: the constructor is given the Ethernet functions, a new
node and the owner 7; the getters for the functions and the owner return
`NULL`. -/
theorem C26_createWithParams_getters_witness :
    ∃ p h', Protocol_createWithParams (StackItem_create (Heap.init 2)).2
        (some .EtherProto_getSize) (some .EtherProto_getBitstream) (some 0) (some 7) =
        some (some p, h') ∧
      Protocol_getGetSize h' (some p) = some none ∧
      Protocol_getGetBitstream h' (some p) = some none ∧
      Protocol_getItem h' (some p) = some (some 0) ∧
      Protocol_getOwner h' (some p) = some none :=
  C26_createWithParams_getters (StackItem_create (Heap.init 2)).2 (some .EtherProto_getSize)
    (some .EtherProto_getBitstream) 0 ⟨none, none, none⟩ (some 7) (by decide) rfl

/-- C27: on a present header, `Ipv4Proto_setLength` with a 16-bit value
returns 0 and `Ipv4Proto_getLength` then returns that value, and
`Ipv4Proto_setProtocol` with an 8-bit value returns 0 and
`Ipv4Proto_getProtocol` then returns that value; on `NULL` the setters return
-1 and change nothing and the getters return 0. -/
theorem C27_setters_roundtrip (h : Heap) (a : Nat) (e : Ipv4Proto) (l p : Nat)
    (he : h.getIpv4 a = some e) (_hl : l < 65536) (_hp : p < 256) :
    (∃ h1, Ipv4Proto_setLength h (some a) l = some (0, h1) ∧
      Ipv4Proto_getLength h1 (some a) = some l) ∧
    (∃ h2, Ipv4Proto_setProtocol h (some a) p = some (0, h2) ∧
      Ipv4Proto_getProtocol h2 (some a) = some p) ∧
    Ipv4Proto_setLength h none l = some (-1, h) ∧
    Ipv4Proto_setProtocol h none p = some (-1, h) ∧
    Ipv4Proto_getLength h none = some 0 ∧
    Ipv4Proto_getProtocol h none = some 0 := by
  refine ⟨⟨h.store a (.ipv4 { e with length := l }), ?_, ?_⟩,
    ⟨h.store a (.ipv4 { e with proto := p }), ?_, ?_⟩, rfl, rfl, rfl, rfl⟩
  · simp only [Ipv4Proto_setLength, Heap.setIpv4, he, Option.bind_eq_bind, Option.some_bind]
  · simp [Ipv4Proto_getLength, Heap.getIpv4, Heap.store]
  · simp only [Ipv4Proto_setProtocol, Heap.setIpv4, he, Option.bind_eq_bind,
      Option.some_bind]
  · simp [Ipv4Proto_getProtocol, Heap.getIpv4, Heap.store]

/-- Witness of C27: the header of `Ipv4Proto_create` with length 28 and
protocol number 17, the values of `examples/p1.c`. -/
theorem C27_setters_roundtrip_witness :
    ∃ h, Ipv4Proto_create id (Heap.init 3) 0 = some (some 0, h) ∧
      (∃ h1, Ipv4Proto_setLength h (some 0) 28 = some (0, h1) ∧
        Ipv4Proto_getLength h1 (some 0) = some 28) ∧
      (∃ h2, Ipv4Proto_setProtocol h (some 0) 17 = some (0, h2) ∧
        Ipv4Proto_getProtocol h2 (some 0) = some 17) ∧
      Ipv4Proto_setLength h none 28 = some (-1, h) ∧
      Ipv4Proto_setProtocol h none 17 = some (-1, h) ∧
      Ipv4Proto_getLength h none = some 0 ∧
      Ipv4Proto_getProtocol h none = some 0 := by
  obtain ⟨h, hc, e, he⟩ : ∃ h, Ipv4Proto_create id (Heap.init 3) 0 = some (some 0, h) ∧
      ∃ e, h.getIpv4 0 = some e := ⟨_, rfl, _, rfl⟩
  exact ⟨h, hc, C27_setters_roundtrip h 0 e 28 17 he (by decide) (by decide)⟩


/-- C28: what the code does.  `Ipv4Proto_create` assigns every member but
`proto`, which keeps the content `junk` of the new block, and
`Ipv4Proto_getBitstream` writes that member to byte 9: two headers returned by
`Ipv4Proto_create` on blocks whose contents differ there serialise to
different bytes, no setter having been called. -/
theorem C28_proto_uninitialised (ret : Ptr → Ptr) (h1 h1' h2 h2' : Heap) (j1 j2 p1 p2 : Nat) (m : Bytes)
    (b1 b2 : Nat) (hc1 : Ipv4Proto_create ret h1 j1 = some (some p1, h1'))
    (hc2 : Ipv4Proto_create ret h2 j2 = some (some p2, h2')) (hj1 : j1 < 256) (hj2 : j2 < 256)
    (hne : j1 ≠ j2) :
    ∃ m1 m2, Ipv4Proto_getBitstream h1' (some p1) m (some b1) 20 = some (20, m1) ∧
      Ipv4Proto_getBitstream h2' (some p2) m (some b2) 20 = some (20, m2) ∧
      readBytes m1 b1 20 = ipv4Expected 20 j1 ∧ readBytes m2 b2 20 = ipv4Expected 20 j2 ∧
      readBytes m1 b1 20 ≠ readBytes m2 b2 20 := by
  obtain ⟨c1, he1⟩ := Ipv4Proto_create_hdr h1 h1' j1 p1 hc1
  obtain ⟨c2, he2⟩ := Ipv4Proto_create_hdr h2 h2' j2 p2 hc2
  obtain ⟨m1, g1, r1, _⟩ :=
    Ipv4Proto_default_bytes h1' p1 20 j1 (some c1) m b1 20 (by decide) hj1 he1
  obtain ⟨m2, g2, r2, _⟩ :=
    Ipv4Proto_default_bytes h2' p2 20 j2 (some c2) m b2 20 (by decide) hj2 he2
  refine ⟨m1, m2, g1, g2, r1, r2, ?_⟩
  rw [r1, r2]
  intro e
  simp only [ipv4Expected, List.cons.injEq] at e
  exact hne e.2.2.2.2.2.2.2.2.2.1

/-- Witness of C28: two headers created one after the other, the first on a
block holding 0 at the member `proto`, the second on a block holding 17. -/
theorem C28_proto_uninitialised_witness :
    ∃ h1 h2, Ipv4Proto_create id (Heap.init 6) 0 = some (some 0, h1) ∧
      Ipv4Proto_create id h1 17 = some (some 3, h2) ∧
      ∃ m1 m2, Ipv4Proto_getBitstream h1 (some 0) (fun _ => 0) (some 0) 20 = some (20, m1) ∧
        Ipv4Proto_getBitstream h2 (some 3) (fun _ => 0) (some 0) 20 = some (20, m2) ∧
        readBytes m1 0 20 = ipv4Expected 20 0 ∧ readBytes m2 0 20 = ipv4Expected 20 17 ∧
        readBytes m1 0 20 ≠ readBytes m2 0 20 := by
  obtain ⟨h1, h2, hc1, hc2⟩ : ∃ h1 h2, Ipv4Proto_create id (Heap.init 6) 0 = some (some 0, h1) ∧
      Ipv4Proto_create id h1 17 = some (some 3, h2) := ⟨_, _, rfl, rfl⟩
  exact ⟨h1, h2, hc1, hc2, C28_proto_uninitialised id (Heap.init 6) h1 h1 h2 0 17 0 3
    (fun _ => 0) 0 0 hc1 hc2 (by decide) (by decide) (by decide)⟩

/-- C29: what the code does.  A header returned by `EtherProto_create` has
destination address 00:01:02:03:04:05, source address 06:07:08:09:0a:0b and
type 0x0800; the addresses are not 00:11:22:33:44:55 and 66:77:88:99:aa:bb. -/
theorem C29_ether_default_addresses (ret : Ptr → Ptr) (h h' : Heap) (p : Nat)
    (hc : EtherProto_create ret h = some (some p, h')) :
    ∃ e, h'.getEther p = some e ∧
      e.daddr = [0x00, 0x01, 0x02, 0x03, 0x04, 0x05] ∧
      e.saddr = [0x06, 0x07, 0x08, 0x09, 0x0a, 0x0b] ∧ e.type = 0x0800 ∧
      e.daddr ≠ [0x00, 0x11, 0x22, 0x33, 0x44, 0x55] ∧
      e.saddr ≠ [0x66, 0x77, 0x88, 0x99, 0xaa, 0xbb] := by
  obtain ⟨b, hb⟩ := EtherProto_create_hdr h h' p hc
  refine ⟨_, hb, rfl, rfl, rfl, ?_, ?_⟩
  · show ([0x00, 0x01, 0x02, 0x03, 0x04, 0x05] : List Nat) ≠ _
    decide
  · show ([0x06, 0x07, 0x08, 0x09, 0x0a, 0x0b] : List Nat) ≠ _
    decide

/-- Witness of C29: `EtherProto_create` on the initial heap. -/
theorem C29_ether_default_addresses_witness :
    ∃ h', EtherProto_create id (Heap.init 3) = some (some 0, h') ∧
      ∃ e, h'.getEther 0 = some e ∧
        e.daddr = [0x00, 0x01, 0x02, 0x03, 0x04, 0x05] ∧
        e.saddr = [0x06, 0x07, 0x08, 0x09, 0x0a, 0x0b] ∧ e.type = 0x0800 ∧
        e.daddr ≠ [0x00, 0x11, 0x22, 0x33, 0x44, 0x55] ∧
        e.saddr ≠ [0x66, 0x77, 0x88, 0x99, 0xaa, 0xbb] := by
  obtain ⟨h', hc⟩ : ∃ h', EtherProto_create id (Heap.init 3) = some (some 0, h') := ⟨_, rfl⟩
  exact ⟨h', hc, C29_ether_default_addresses id (Heap.init 3) h' 0 hc⟩

/-! ## Claims on `Socket_inject` -/

/-- C30: for every behaviour of `sendto`, every socket and every Packet for
which `Packet_getSize` returns 0, `Socket_inject` returns -1, makes no call of
`sendto` and writes nothing to the byte memory. -/
theorem C30_inject_empty (send : SendFn) (fuel : Nat) (h : Heap) (m : Bytes)
    (sock : Option Socket) (pack : Ptr) (bitstream : Ptr)
    (hs : Packet_getSize fuel h pack = some 0) :
    Socket_inject send fuel h m sock pack bitstream = some (-1, [], m) := by
  cases sock with
  | none => rfl
  | some sk =>
    cases pack with
    | none => rfl
    | some pa =>
      simp only [Socket_inject, hs, Option.bind_eq_bind, Option.some_bind, if_true]

/-- Witness of C30: the empty Packet that `Packet_create` returns on the
initial heap, with a `sendto` that would accept everything. -/
theorem C30_inject_empty_witness :
    ∃ h, Packet_create (Heap.init 2) none = some (some 1, h) ∧
      Packet_getSize 1 h (some 1) = some 0 ∧
      Socket_inject (fun _ c => c.len) 1 h (fun _ => 0) (some ⟨3, 1⟩) (some 1) (some 0) =
        some (-1, [], fun _ => 0) := by
  obtain ⟨h, hc, hs⟩ : ∃ h, Packet_create (Heap.init 2) none = some (some 1, h) ∧
      Packet_getSize 1 h (some 1) = some 0 := ⟨_, rfl, rfl⟩
  exact ⟨h, hc, hs, C30_inject_empty _ 1 h _ _ _ _ hs⟩


/-! ## Stacking the same layer twice -/

/-- The calls of the retry loop: the calls made before are kept, the first
new call carries the `sent` and the length the loop was entered with, and
every later call carries the value returned to the call just before it, which
as an `unsigned int` was below `bs_length`. -/
theorem Socket_inject_loop_calls (send : SendFn) (desc : Int) (bs : Nat) :
    ∀ (fuel : Nat) (sent tries : Int) (calls0 : List SendCall) (s' t' : Int)
      (calls : List SendCall),
      Socket_inject_loop send desc bs fuel sent tries calls0 = some (s', t', calls) →
      calls.take calls0.length = calls0 ∧
      calls[calls0.length]? = some ⟨desc, sent, toUnsigned ((bs : Int) - sent)⟩ ∧
      (∀ k c c', calls0.length ≤ k → calls[k]? = some c → calls[k + 1]? = some c' →
        toUnsigned (toInt (send (calls.take k) c)) < bs ∧
        c' = ⟨desc, toInt (send (calls.take k) c),
          toUnsigned ((bs : Int) - toInt (send (calls.take k) c))⟩) ∧
      (∀ c, calls.getLast? = some c → s' = toInt (send calls.dropLast c)) := by
  intro fuel
  induction fuel with
  | zero => intro sent tries calls0 s' t' calls h; simp [Socket_inject_loop] at h
  | succ fuel ih =>
    intro sent tries calls0 s' t' calls h
    simp only [Socket_inject_loop] at h
    have stop : calls = calls0 ++ [⟨desc, sent, toUnsigned ((bs : Int) - sent)⟩] →
        s' = toInt (send calls0 ⟨desc, sent, toUnsigned ((bs : Int) - sent)⟩) →
        calls.take calls0.length = calls0 ∧
        calls[calls0.length]? = some ⟨desc, sent, toUnsigned ((bs : Int) - sent)⟩ ∧
        (∀ k c c', calls0.length ≤ k → calls[k]? = some c → calls[k + 1]? = some c' →
          toUnsigned (toInt (send (calls.take k) c)) < bs ∧
          c' = ⟨desc, toInt (send (calls.take k) c),
            toUnsigned ((bs : Int) - toInt (send (calls.take k) c))⟩) ∧
        (∀ c, calls.getLast? = some c → s' = toInt (send calls.dropLast c)) := by
      intro e1 e2
      subst e1
      refine ⟨by simp, by simp, ?_, ?_⟩
      · intro k c c' hk _ hc'
        have hl : k + 1 < calls0.length + 1 := by
          by_contra hcon
          rw [List.getElem?_eq_none (by simp; omega)] at hc'
          cases hc'
        omega
      · intro c hc
        rw [List.getLast?_concat] at hc
        cases hc
        simpa using e2
    split at h
    · split at h
      · obtain ⟨i1, i2, i3, i4⟩ := ih _ _ _ s' t' calls h
        have hlen : (calls0 ++ [(⟨desc, sent, toUnsigned ((bs : Int) - sent)⟩ : SendCall)]).length
            = calls0.length + 1 := by simp
        rw [hlen] at i1 i2 i3
        have t0 : calls.take calls0.length = calls0 := by
          have := congrArg (List.take calls0.length) i1
          rw [List.take_take, Nat.min_eq_left (Nat.le_succ _)] at this
          rw [this]; simp
        have g0 : calls[calls0.length]? = some ⟨desc, sent, toUnsigned ((bs : Int) - sent)⟩ := by
          have := congrArg (fun l : List SendCall => l[calls0.length]?) i1
          simp only [List.getElem?_take, Nat.lt_succ_self, if_true] at this
          rw [this]; simp
        refine ⟨t0, g0, ?_, i4⟩
        intro k c c' hk hc hc'
        rcases Nat.eq_or_lt_of_le hk with e | hlt
        · subst e
          rw [g0] at hc
          rw [i2] at hc'
          cases hc; cases hc'
          rw [t0]
          rename_i hcond _
          exact ⟨hcond, rfl⟩
        · exact i3 k c c' hlt hc hc'
      · simp only [Option.some.injEq, Prod.mk.injEq] at h
        exact stop h.2.2.symm h.1.symm
    · simp only [Option.some.injEq, Prod.mk.injEq] at h
      exact stop h.2.2.symm h.1.symm


/-- The retry loop returns when the fuel covers the attempts that are left,
and makes at least one call and at most `4 - tries` calls. -/
theorem Socket_inject_loop_total (send : SendFn) (desc : Int) (bs : Nat) :
    ∀ (fuel t : Nat) (sent : Int) (calls0 : List SendCall), t ≤ 3 → 4 ≤ fuel + t →
      ∃ s' t' calls, Socket_inject_loop send desc bs fuel sent (t : Int) calls0 =
          some (s', t', calls) ∧
        calls0.length + 1 ≤ calls.length ∧ calls.length + t ≤ calls0.length + 4 := by
  intro fuel
  induction fuel with
  | zero => intro t sent calls0 h1 h2; omega
  | succ fuel ih =>
    intro t sent calls0 h1 h2
    simp only [Socket_inject_loop]
    split
    · split
      · rename_i _ hlt
        have ht : t < 3 := by
          simp only [WRITE_RETRIES] at hlt
          omega
        obtain ⟨s', t', calls, e, l1, l2⟩ := ih (t + 1) (toInt (send calls0
          ⟨desc, sent, toUnsigned ((bs : Int) - sent)⟩))
          (calls0 ++ [⟨desc, sent, toUnsigned ((bs : Int) - sent)⟩]) (by omega) (by omega)
        refine ⟨s', t', calls, ?_, ?_, ?_⟩
        · rw [← e]; rfl
        · simp only [List.length_append, List.length_singleton] at l1; omega
        · simp only [List.length_append, List.length_singleton] at l2; omega
      · exact ⟨_, _, _, rfl, by simp, by simp; omega⟩
    · exact ⟨_, _, _, rfl, by simp, by simp; omega⟩

theorem Packet_getSize_loop_lt : ∀ (fuel : Nat) (h : Heap) (p : Ptr) (acc n : Nat),
    acc < UINT_MOD → Packet_getSize_loop fuel h p acc = some n → n < UINT_MOD := by
  intro fuel
  induction fuel with
  | zero => intro h p acc n _ e; simp [Packet_getSize_loop] at e
  | succ fuel ih =>
    intro h p acc n hacc e
    cases p with
    | none =>
      simp only [Packet_getSize_loop, Option.some.injEq] at e
      omega
    | some iter =>
      simp only [Packet_getSize_loop, Option.bind_eq_bind] at e
      cases ho : StackItem_getOwner h (some iter) with
      | none => rw [ho] at e; cases e
      | some proto =>
        rw [ho, Option.some_bind] at e
        cases proto with
        | none =>
          simp only [Option.some_bind, Option.bind_eq_some] at e
          obtain ⟨it, _, e⟩ := e
          exact ih h it.next acc n hacc e
        | some pa =>
          simp only [Option.bind_eq_some, Option.some_bind] at e
          obtain ⟨_, _, f, _, it, _, e⟩ := e
          exact ih h it.next _ n (Nat.mod_lt _ (by decide)) e

/-- The value of `Packet_getSize` fits an `unsigned int`. -/
theorem Packet_getSize_lt (fuel : Nat) (h : Heap) (pack : Ptr) (n : Nat)
    (e : Packet_getSize fuel h pack = some n) : n < UINT_MOD := by
  cases pack with
  | none =>
    simp only [Packet_getSize, Option.some.injEq] at e
    rw [← e]; decide
  | some pa =>
    simp only [Packet_getSize, Option.bind_eq_bind, Option.bind_eq_some] at e
    obtain ⟨pk, _, e⟩ := e
    cases hs : pk.stack with
    | none =>
      simp only [hs, Option.some.injEq] at e
      rw [← e]; decide
    | some s =>
      simp only [hs, Option.bind_eq_some] at e
      obtain ⟨st, _, e⟩ := e
      exact Packet_getSize_loop_lt fuel h st.bottom 0 n (by decide) e

/-- `Socket_inject` on a present socket, a Packet of non-zero size and an
allocated buffer: the Packet is serialised into the buffer, the retry loop
runs from `sent = 0` and `tries = 0`, and -1 is returned. -/
theorem Socket_inject_eq (send : SendFn) (fuel : Nat) (h : Heap) (m : Bytes) (sk : Socket)
    (pa b n : Nat) (r : Int × Bytes) (hs : Packet_getSize fuel h (some pa) = some n)
    (hn : n ≠ 0) (hb : Packet_getBitstream fuel h (some pa) m (some b) n = some r)
    (hf : 4 ≤ fuel) :
    ∃ s' t' calls, Socket_inject_loop send sk.desc n fuel 0 0 [] = some (s', t', calls) ∧
      Socket_inject send fuel h m (some sk) (some pa) (some b) = some (-1, calls, r.2) ∧
      1 ≤ calls.length ∧ calls.length ≤ 4 := by
  obtain ⟨s', t', calls, e, l1, l2⟩ :=
    Socket_inject_loop_total send sk.desc n fuel 0 0 [] (by omega) (by omega)
  refine ⟨s', t', calls, e, ?_, by simpa using l1, by simpa using l2⟩
  have e' : Socket_inject_loop send sk.desc n fuel 0 0 [] = some (s', t', calls) := e
  simp only [Socket_inject, hs, Option.bind_eq_bind, Option.some_bind, hn, if_false, hb, e']
  simp


theorem toUnsigned_natCast (n : Nat) (hn : n < UINT_MOD) : toUnsigned (n : Int) = n := by
  simp only [toUnsigned, UINT_MOD] at *
  omega

/-- C31: what the code does.  On a present socket, a Packet of non-zero size
and an allocated buffer, for every behaviour of `sendto`, `Socket_inject`
makes at least one and at most four calls of `sendto`, and a call is followed
by another one only when the value it returned, converted to `unsigned int`,
is below the size of the whole Packet.  The bytes accepted by earlier calls do
not enter the test. -/
theorem C31_attempts (send : SendFn) (fuel : Nat) (h : Heap) (m : Bytes) (sk : Socket)
    (pa b n : Nat) (r : Int × Bytes) (hs : Packet_getSize fuel h (some pa) = some n)
    (hn : n ≠ 0) (hb : Packet_getBitstream fuel h (some pa) m (some b) n = some r)
    (hf : 4 ≤ fuel) :
    ∃ calls, Socket_inject send fuel h m (some sk) (some pa) (some b) =
        some (-1, calls, r.2) ∧
      1 ≤ calls.length ∧ calls.length ≤ 4 ∧
      ∀ k c, calls[k]? = some c → k + 1 < calls.length →
        toUnsigned (toInt (send (calls.take k) c)) < n := by
  obtain ⟨s', t', calls, hl, hi, l1, l2⟩ := Socket_inject_eq send fuel h m sk pa b n r hs hn hb hf
  obtain ⟨_, _, hch, _⟩ := Socket_inject_loop_calls send sk.desc n fuel 0 0 [] s' t' calls hl
  refine ⟨calls, hi, l1, l2, ?_⟩
  intro k c hc hk
  obtain ⟨c', hc'⟩ : ∃ c', calls[k + 1]? = some c' :=
    ⟨calls[k + 1], List.getElem?_eq_getElem hk⟩
  exact (hch k c c' (Nat.zero_le _) hc hc').1

/-- Witness of C31: the 42-byte Packet of `examples/p1.c` and a `sendto` that
accepts 30 bytes at the first call and everything it is given afterwards.
The second call is given the 12 bytes left and accepts them, so the whole
Packet has been written; two more calls follow, which send bytes 12 to 41 and
bytes 30 to 41 again. -/
theorem C31_attempts_witness :
    ∃ h m', p1_build id 4 (Heap.init 11) none 0 = some (some 1, h) ∧
      Packet_getSize 4 h (some 1) = some 42 ∧
      Socket_inject (fun calls c => match calls with | [] => 30 | _ => (c.len : Int)) 4 h
          (fun _ => 0) (some ⟨3, 1⟩) (some 1) (some 0) =
        some (-1, [⟨3, 0, 42⟩, ⟨3, 30, 12⟩, ⟨3, 12, 30⟩, ⟨3, 30, 12⟩], m') ∧
      ∃ calls, Socket_inject (fun calls c => match calls with | [] => 30 | _ => (c.len : Int))
            4 h (fun _ => 0) (some ⟨3, 1⟩) (some 1) (some 0) = some (-1, calls, m') ∧
        1 ≤ calls.length ∧ calls.length ≤ 4 ∧
        ∀ k c, calls[k]? = some c → k + 1 < calls.length →
          toUnsigned (toInt ((fun (calls : List SendCall) (c : SendCall) =>
            match calls with | [] => (30 : Int) | _ => (c.len : Int)) (calls.take k) c)) < 42
      := by
  obtain ⟨h, m', hb, hs, hg, hc⟩ : ∃ h m',
      p1_build id 4 (Heap.init 11) none 0 = some (some 1, h) ∧
      Packet_getSize 4 h (some 1) = some 42 ∧
      Packet_getBitstream 4 h (some 1) (fun _ => 0) (some 0) 42 = some (0, m') ∧
      Socket_inject (fun calls c => match calls with | [] => 30 | _ => (c.len : Int)) 4 h
          (fun _ => 0) (some ⟨3, 1⟩) (some 1) (some 0) =
        some (-1, [⟨3, 0, 42⟩, ⟨3, 30, 12⟩, ⟨3, 12, 30⟩, ⟨3, 30, 12⟩], m') :=
    ⟨_, _, rfl, rfl, rfl, rfl⟩
  exact ⟨h, m', hb, hs, hc, C31_attempts _ 4 h (fun _ => 0) ⟨3, 1⟩ 1 0 42 (0, m') hs
    (by decide) hg (by decide)⟩


/-- C32: what the code does.  On a present socket, a Packet of non-zero size
and an allocated buffer, for every behaviour of `sendto`, also one that
accepts all the bytes at the first call, `Socket_inject` returns -1: the local
`ret` is initialised to -1 and no other value is assigned to it. -/
theorem C32_always_minus_one (send : SendFn) (fuel : Nat) (h : Heap) (m : Bytes)
    (sk : Socket) (pa b n : Nat) (r : Int × Bytes)
    (hs : Packet_getSize fuel h (some pa) = some n) (hn : n ≠ 0)
    (hb : Packet_getBitstream fuel h (some pa) m (some b) n = some r) (hf : 4 ≤ fuel) :
    ∃ calls, Socket_inject send fuel h m (some sk) (some pa) (some b) =
      some (-1, calls, r.2) := by
  obtain ⟨_, _, calls, _, hi, _⟩ := Socket_inject_eq send fuel h m sk pa b n r hs hn hb hf
  exact ⟨calls, hi⟩

/-- Witness of C32: the 42-byte Packet of `examples/p1.c` and a `sendto` that
accepts everything it is given: one call for the 42 bytes is made, all of
them are accepted, and -1 is returned. -/
theorem C32_always_minus_one_witness :
    ∃ h m', p1_build id 4 (Heap.init 11) none 0 = some (some 1, h) ∧
      Packet_getSize 4 h (some 1) = some 42 ∧
      Socket_inject (fun _ c => (c.len : Int)) 4 h (fun _ => 0) (some ⟨3, 1⟩) (some 1)
          (some 0) = some (-1, [⟨3, 0, 42⟩], m') ∧
      ∃ calls, Socket_inject (fun _ c => (c.len : Int)) 4 h (fun _ => 0) (some ⟨3, 1⟩)
        (some 1) (some 0) = some (-1, calls, m') := by
  obtain ⟨h, m', hb, hs, hg, hc⟩ : ∃ h m',
      p1_build id 4 (Heap.init 11) none 0 = some (some 1, h) ∧
      Packet_getSize 4 h (some 1) = some 42 ∧
      Packet_getBitstream 4 h (some 1) (fun _ => 0) (some 0) 42 = some (0, m') ∧
      Socket_inject (fun _ c => (c.len : Int)) 4 h (fun _ => 0) (some ⟨3, 1⟩) (some 1)
          (some 0) = some (-1, [⟨3, 0, 42⟩], m') :=
    ⟨_, _, rfl, rfl, rfl, rfl⟩
  exact ⟨h, m', hb, hs, hc, C32_always_minus_one _ 4 h (fun _ => 0) ⟨3, 1⟩ 1 0 42 (0, m') hs
    (by decide) hg (by decide)⟩

/-- C33: what the code does.  The first call of `sendto` starts at offset 0
with the size of the Packet as length.  Every later call starts at the offset
equal to the value returned to the call just before it, and its length is the
size of the Packet minus that value (in `unsigned int`): `sent` is assigned
the result of each call, not increased by it. -/
theorem C33_retry_offsets (send : SendFn) (fuel : Nat) (h : Heap) (m : Bytes) (sk : Socket)
    (pa b n : Nat) (r : Int × Bytes) (hs : Packet_getSize fuel h (some pa) = some n)
    (hn : n ≠ 0) (hb : Packet_getBitstream fuel h (some pa) m (some b) n = some r)
    (hf : 4 ≤ fuel) :
    ∃ calls, Socket_inject send fuel h m (some sk) (some pa) (some b) =
        some (-1, calls, r.2) ∧
      calls[0]? = some ⟨sk.desc, 0, n⟩ ∧
      ∀ k c c', calls[k]? = some c → calls[k + 1]? = some c' →
        c'.offset = toInt (send (calls.take k) c) ∧
        c'.len = toUnsigned ((n : Int) - toInt (send (calls.take k) c)) := by
  obtain ⟨s', t', calls, hl, hi, _⟩ := Socket_inject_eq send fuel h m sk pa b n r hs hn hb hf
  obtain ⟨_, h0, hch, _⟩ := Socket_inject_loop_calls send sk.desc n fuel 0 0 [] s' t' calls hl
  refine ⟨calls, hi, ?_, ?_⟩
  · rw [show (0 : Nat) = ([] : List SendCall).length from rfl, h0, Int.sub_zero,
      toUnsigned_natCast n (Packet_getSize_lt fuel h (some pa) n hs)]
  · intro k c c' hc hc'
    obtain ⟨_, e⟩ := hch k c c' (Nat.zero_le _) hc hc'
    rw [e]
    exact ⟨rfl, rfl⟩

/-- Witness of C33: the 42-byte Packet of `examples/p1.c` and a `sendto` that
accepts 10 bytes at every call.  The third and the fourth call start at
offset 10 with length 32, like the second, although 20 and 30 bytes have been
accepted before them. -/
theorem C33_retry_offsets_witness :
    ∃ h m', p1_build id 4 (Heap.init 11) none 0 = some (some 1, h) ∧
      Packet_getSize 4 h (some 1) = some 42 ∧
      Socket_inject (fun _ _ => 10) 4 h (fun _ => 0) (some ⟨3, 1⟩) (some 1) (some 0) =
        some (-1, [⟨3, 0, 42⟩, ⟨3, 10, 32⟩, ⟨3, 10, 32⟩, ⟨3, 10, 32⟩], m') ∧
      ∃ calls, Socket_inject (fun _ _ => 10) 4 h (fun _ => 0) (some ⟨3, 1⟩) (some 1)
          (some 0) = some (-1, calls, m') ∧
        calls[0]? = some ⟨3, 0, 42⟩ ∧
        ∀ k c c', calls[k]? = some c → calls[k + 1]? = some c' →
          c'.offset = toInt 10 ∧ c'.len = toUnsigned (((42 : Nat) : Int) - toInt 10) := by
  obtain ⟨h, m', hb, hs, hg, hc⟩ : ∃ h m',
      p1_build id 4 (Heap.init 11) none 0 = some (some 1, h) ∧
      Packet_getSize 4 h (some 1) = some 42 ∧
      Packet_getBitstream 4 h (some 1) (fun _ => 0) (some 0) 42 = some (0, m') ∧
      Socket_inject (fun _ _ => 10) 4 h (fun _ => 0) (some ⟨3, 1⟩) (some 1) (some 0) =
        some (-1, [⟨3, 0, 42⟩, ⟨3, 10, 32⟩, ⟨3, 10, 32⟩, ⟨3, 10, 32⟩], m') :=
    ⟨_, _, rfl, rfl, rfl, rfl⟩
  exact ⟨h, m', hb, hs, hc, C33_retry_offsets (fun _ _ => 10) 4 h (fun _ => 0) ⟨3, 1⟩ 1 0 42
    (0, m') hs (by decide) hg (by decide)⟩

/-- C38: on a present socket, a Packet of non-zero size and an allocated
buffer, when a call of `sendto` returns -1 it is the last call, and
`Socket_inject` returns -1: in the test `sent < bs_length` the value -1 is
converted to 4294967295, which is not below the size of the Packet. -/
theorem C38_error_ends_loop (send : SendFn) (fuel : Nat) (h : Heap) (m : Bytes)
    (sk : Socket) (pa b n : Nat) (r : Int × Bytes)
    (hs : Packet_getSize fuel h (some pa) = some n) (hn : n ≠ 0)
    (hb : Packet_getBitstream fuel h (some pa) m (some b) n = some r) (hf : 4 ≤ fuel) :
    ∃ calls, Socket_inject send fuel h m (some sk) (some pa) (some b) =
        some (-1, calls, r.2) ∧
      toUnsigned (toInt (-1)) = 4294967295 ∧ ¬ toUnsigned (toInt (-1)) < n ∧
      ∀ k c, calls[k]? = some c → send (calls.take k) c = -1 → k + 1 = calls.length := by
  obtain ⟨s', t', calls, hl, hi, _⟩ := Socket_inject_eq send fuel h m sk pa b n r hs hn hb hf
  obtain ⟨_, _, hch, _⟩ := Socket_inject_loop_calls send sk.desc n fuel 0 0 [] s' t' calls hl
  have hlt := Packet_getSize_lt fuel h (some pa) n hs
  have hu : toUnsigned (toInt (-1)) = 4294967295 := by decide
  have hnl : ¬ toUnsigned (toInt (-1)) < n := by
    rw [hu]; simp only [UINT_MOD] at hlt; omega
  refine ⟨calls, hi, hu, hnl, ?_⟩
  intro k c hc hm
  have hk : k < calls.length := by
    by_contra hcon
    rw [List.getElem?_eq_none (by omega)] at hc
    cases hc
  by_contra hne
  have hk1 : k + 1 < calls.length := by omega
  obtain ⟨c', hc'⟩ : ∃ c', calls[k + 1]? = some c' :=
    ⟨calls[k + 1], List.getElem?_eq_getElem hk1⟩
  have := (hch k c c' (Nat.zero_le _) hc hc').1
  rw [hm] at this
  exact hnl this

/-- Witness of C38: the 42-byte Packet of `examples/p1.c` and a `sendto` that
accepts 10 bytes at the first call and fails at every later one: the second
call is the last. -/
theorem C38_error_ends_loop_witness :
    ∃ h m', p1_build id 4 (Heap.init 11) none 0 = some (some 1, h) ∧
      Packet_getSize 4 h (some 1) = some 42 ∧
      Socket_inject (fun calls _ => match calls with | [] => 10 | _ => -1) 4 h
          (fun _ => 0) (some ⟨3, 1⟩) (some 1) (some 0) =
        some (-1, [⟨3, 0, 42⟩, ⟨3, 10, 32⟩], m') ∧
      ∃ calls, Socket_inject (fun calls _ => match calls with | [] => 10 | _ => -1) 4 h
            (fun _ => 0) (some ⟨3, 1⟩) (some 1) (some 0) = some (-1, calls, m') ∧
        toUnsigned (toInt (-1)) = 4294967295 ∧ ¬ toUnsigned (toInt (-1)) < 42 ∧
        ∀ k c, calls[k]? = some c →
          (fun (calls : List SendCall) (_ : SendCall) =>
            match calls with | [] => (10 : Int) | _ => -1) (calls.take k) c = -1 →
          k + 1 = calls.length := by
  obtain ⟨h, m', hb, hs, hg, hc⟩ : ∃ h m',
      p1_build id 4 (Heap.init 11) none 0 = some (some 1, h) ∧
      Packet_getSize 4 h (some 1) = some 42 ∧
      Packet_getBitstream 4 h (some 1) (fun _ => 0) (some 0) 42 = some (0, m') ∧
      Socket_inject (fun calls _ => match calls with | [] => 10 | _ => -1) 4 h
          (fun _ => 0) (some ⟨3, 1⟩) (some 1) (some 0) =
        some (-1, [⟨3, 0, 42⟩, ⟨3, 10, 32⟩], m') :=
    ⟨_, _, rfl, rfl, rfl, rfl⟩
  exact ⟨h, m', hb, hs, hc, C38_error_ends_loop _ 4 h (fun _ => 0) ⟨3, 1⟩ 1 0 42 (0, m') hs
    (by decide) hg (by decide)⟩


/-! ## The destructors -/

theorem Stack_delete_loop_some (h : Heap) (a : Nat) :
    ∀ fuel, Stack_delete_loop fuel h (some a) = none := by
  intro fuel
  cases fuel with
  | zero => rfl
  | succ n =>
    have hg : (StackItem_delete h (some a)).getItem a = none := by
      simp [StackItem_delete, Heap.free, Heap.getItem]
    simp only [Stack_delete_loop, hg, Option.bind_eq_bind, Option.none_bind]

theorem Stack_delete_loop_noread_some (a : Nat) :
    ∀ fuel h, Stack_delete_loop_noread fuel h (some a) = none := by
  intro fuel
  induction fuel with
  | zero => intro h; rfl
  | succ n ih => intro h; simp only [Stack_delete_loop_noread, ih]

/-- C34: what the code does.  For a stack whose `bottom` is not `NULL`, the
loop of `Stack_delete` frees the bottom node and then evaluates `iter->next`
on the freed node without assigning `iter`: `Stack_delete`, and
`Packet_delete` on a Packet with that stack, have no result whatever the fuel.
If the discarded read is dropped, the loop frees the same node again and
again and has no result for any fuel either.  No node after the bottom one is
visited. -/
theorem C34_delete_nonempty (fuel : Nat) (h : Heap) (pa s a : Nat) (pk : Packet)
    (st : Stack) (hpk : h.getPacket pa = some pk) (hs : pk.stack = some s)
    (hst : h.getStack s = some st) (hb : st.bottom = some a) :
    Stack_delete fuel h (some s) = none ∧ Packet_delete fuel h (some pa) = none ∧
    Stack_delete_loop fuel h st.bottom = none ∧
    Stack_delete_loop_noread fuel h st.bottom = none := by
  have e1 : Stack_delete fuel h (some s) = none := by
    simp only [Stack_delete, hst, Option.bind_eq_bind, Option.some_bind, hb,
      Stack_delete_loop_some h a fuel, Option.none_bind]
  refine ⟨e1, ?_, ?_, ?_⟩
  · simp only [Packet_delete, hpk, Option.bind_eq_bind, Option.some_bind, hs, e1,
      Option.none_bind]
  · rw [hb]; exact Stack_delete_loop_some h a fuel
  · rw [hb]; exact Stack_delete_loop_noread_some a fuel h

/-- Witness of C34: the Packet of `examples/p1.c`, whose stack holds three
nodes, with fuel 1000. -/
theorem C34_delete_nonempty_witness :
    ∃ h st, p1_build id 4 (Heap.init 11) none 0 = some (some 1, h) ∧
      h.getPacket 1 = some ⟨some 0⟩ ∧ h.getStack 0 = some st ∧ st.items = 3 ∧
      Stack_delete 1000 h (some 0) = none ∧ Packet_delete 1000 h (some 1) = none ∧
      Stack_delete_loop 1000 h st.bottom = none ∧
      Stack_delete_loop_noread 1000 h st.bottom = none := by
  obtain ⟨h, st, hb, hpk, hst, hn, hbot⟩ : ∃ h st,
      p1_build id 4 (Heap.init 11) none 0 = some (some 1, h) ∧
      h.getPacket 1 = some ⟨some 0⟩ ∧ h.getStack 0 = some st ∧ st.items = 3 ∧
      st.bottom = some 3 := ⟨_, _, rfl, rfl, rfl, rfl, rfl⟩
  exact ⟨h, st, hb, hpk, hst, hn, C34_delete_nonempty 1000 h 1 0 3 ⟨some 0⟩ st hpk rfl hst hbot⟩

/-- What `Stack_delete` does when `bottom` is `NULL`: the loop makes no
iteration and the stack record is freed. -/
theorem Stack_delete_empty (fuel : Nat) (h : Heap) (s : Nat) (st : Stack)
    (hst : h.getStack s = some st) (hb : st.bottom = none) :
    Stack_delete (fuel + 1) h (some s) = some (h.free (some s)) := by
  simp [Stack_delete, hst, hb, Stack_delete_loop]


/-- C36: the failing input.  A UDP and an Ethernet header are stacked in that
order on a fresh Packet; its size is 22.  `Packet_getBitstream` with capacity
22 into the buffer at address 100, in a memory filled with ff, writes the 8
UDP bytes at indices 0 to 7; the UDP codec returns -1, so the running offset
becomes 4294967295, and the Ethernet codec is given the address
`buf + 4294967295` and the remaining capacity `22 - 4294967295`, which is 23
in `unsigned int`: its 14 bytes are written from index 4294967295 on, outside
the buffer, and the indices 8 to 21 of the buffer are never written.  The
headers are created with `ret = id`. -/
theorem C36_write_outside_buffer :
    ∃ b m', buildPacket id 3 (Heap.init 8) none [.udpv4, .ether] = some b ∧
      b.rets = [1, 1] ∧
      Packet_getSize 3 b.heap b.pack = some 22 ∧
      Packet_getBitstream 3 b.heap b.pack (fun _ => 0xff) (some 100) 22 = some (0, m') ∧
      toUnsigned (-1) = 4294967295 ∧
      (22 + UINT_MOD - 4294967295) % UINT_MOD = 23 ∧
      readBytes m' 100 22 =
        [0x00, 0x00, 0x00, 0x00, 0x00, 0x08, 0x00, 0x00,
         0xff, 0xff, 0xff, 0xff, 0xff, 0xff, 0xff, 0xff, 0xff, 0xff, 0xff, 0xff, 0xff,
         0xff] ∧
      readBytes m' (100 + 4294967295) 14 =
        [0x00, 0x01, 0x02, 0x03, 0x04, 0x05, 0x06, 0x07, 0x08, 0x09, 0x0a, 0x0b, 0x08,
         0x00] ∧
      m' (100 + 4294967295) ≠ (fun _ => 0xff : Bytes) (100 + 4294967295) :=
  ⟨_, _, rfl, rfl, rfl, rfl, by decide, by decide, by decide, by decide, by decide⟩


/-! ## The frame of the IPv4 setters -/

theorem getProtocol_store_ipv4 (h : Heap) (a q : Nat) (e e' : Ipv4Proto)
    (he : h.getIpv4 a = some e) :
    (h.store a (.ipv4 e')).getProtocol q = h.getProtocol q := by
  by_cases hq : q = a
  · subst hq
    have hm := getIpv4_mem h q e he
    simp [Heap.getProtocol, Heap.store, hm]
  · exact getProtocol_store_other h a q _ hq

/-- C37: for a present header, `Ipv4Proto_setLength` and
`Ipv4Proto_setProtocol` return 0; the 20 bytes that `Ipv4Proto_getBitstream`
writes after `Ipv4Proto_setLength` equal those written before at every offset
but 2 and 3, and after `Ipv4Proto_setProtocol` at every offset but 9; every
`Protocol_t` record of the heap, and the header's pointer to its own, are
unchanged. -/
theorem C37_setters_frame (h : Heap) (a : Nat) (e : Ipv4Proto) (l p : Nat) (m : Bytes)
    (buf : Nat) (he : h.getIpv4 a = some e) :
    ∃ h1 h2 m0 m1 m2, Ipv4Proto_setLength h (some a) l = some (0, h1) ∧
      Ipv4Proto_setProtocol h (some a) p = some (0, h2) ∧
      Ipv4Proto_getBitstream h (some a) m (some buf) 20 = some (20, m0) ∧
      Ipv4Proto_getBitstream h1 (some a) m (some buf) 20 = some (20, m1) ∧
      Ipv4Proto_getBitstream h2 (some a) m (some buf) 20 = some (20, m2) ∧
      (∀ k, k < 20 → k ≠ 2 → k ≠ 3 →
        (readBytes m1 buf 20)[k]? = (readBytes m0 buf 20)[k]?) ∧
      (∀ k, k < 20 → k ≠ 9 → (readBytes m2 buf 20)[k]? = (readBytes m0 buf 20)[k]?) ∧
      (∀ q, h1.getProtocol q = h.getProtocol q ∧ h2.getProtocol q = h.getProtocol q) ∧
      Ipv4Proto_getProtoBase h1 (some a) = Ipv4Proto_getProtoBase h (some a) ∧
      Ipv4Proto_getProtoBase h2 (some a) = Ipv4Proto_getProtoBase h (some a) := by
  have g1 : (h.store a (.ipv4 { e with length := l })).getIpv4 a =
      some { e with length := l } := by simp [Heap.getIpv4, Heap.store]
  have g2 : (h.store a (.ipv4 { e with proto := p })).getIpv4 a =
      some { e with proto := p } := by simp [Heap.getIpv4, Heap.store]
  obtain ⟨m0, b0, r0, _⟩ := Ipv4Proto_getBitstream_bytes h a e m buf 20 he
  obtain ⟨m1, b1, r1, _⟩ := Ipv4Proto_getBitstream_bytes _ a _ m buf 20 g1
  obtain ⟨m2, b2, r2, _⟩ := Ipv4Proto_getBitstream_bytes _ a _ m buf 20 g2
  refine ⟨h.store a (.ipv4 { e with length := l }), h.store a (.ipv4 { e with proto := p }),
    m0, m1, m2, ?_, ?_, b0, b1, b2, ?_, ?_, ?_, ?_, ?_⟩
  · simp only [Ipv4Proto_setLength, Heap.setIpv4, he, Option.bind_eq_bind, Option.some_bind]
  · simp only [Ipv4Proto_setProtocol, Heap.setIpv4, he, Option.bind_eq_bind,
      Option.some_bind]
  · intro k hk h2' h3'
    rw [r1, r0]
    interval_cases k <;> first | rfl | exact absurd rfl h2' | exact absurd rfl h3'
  · intro k hk h9
    rw [r2, r0]
    interval_cases k <;> first | rfl | exact absurd rfl h9
  · intro q
    exact ⟨getProtocol_store_ipv4 h a q e _ he, getProtocol_store_ipv4 h a q e _ he⟩
  · simp [Ipv4Proto_getProtoBase, g1, he]
  · simp [Ipv4Proto_getProtoBase, g2, he]

/-- Witness of C37: the header of `Ipv4Proto_create` on the initial heap, with
the length 28 and the protocol number 17 of `examples/p1.c`. -/
theorem C37_setters_frame_witness :
    ∃ h, Ipv4Proto_create id (Heap.init 3) 0 = some (some 0, h) ∧
      ∃ h1 h2 m0 m1 m2, Ipv4Proto_setLength h (some 0) 28 = some (0, h1) ∧
        Ipv4Proto_setProtocol h (some 0) 17 = some (0, h2) ∧
        Ipv4Proto_getBitstream h (some 0) (fun _ => 0) (some 0) 20 = some (20, m0) ∧
        Ipv4Proto_getBitstream h1 (some 0) (fun _ => 0) (some 0) 20 = some (20, m1) ∧
        Ipv4Proto_getBitstream h2 (some 0) (fun _ => 0) (some 0) 20 = some (20, m2) ∧
        (∀ k, k < 20 → k ≠ 2 → k ≠ 3 →
          (readBytes m1 0 20)[k]? = (readBytes m0 0 20)[k]?) ∧
        (∀ k, k < 20 → k ≠ 9 → (readBytes m2 0 20)[k]? = (readBytes m0 0 20)[k]?) ∧
        (∀ q, h1.getProtocol q = h.getProtocol q ∧ h2.getProtocol q = h.getProtocol q) ∧
        Ipv4Proto_getProtoBase h1 (some 0) = Ipv4Proto_getProtoBase h (some 0) ∧
        Ipv4Proto_getProtoBase h2 (some 0) = Ipv4Proto_getProtoBase h (some 0) := by
  obtain ⟨h, hc, e, he⟩ : ∃ h, Ipv4Proto_create id (Heap.init 3) 0 = some (some 0, h) ∧
      ∃ e, h.getIpv4 0 = some e := ⟨_, rfl, _, rfl⟩
  exact ⟨h, hc, C37_setters_frame h 0 e 28 17 (fun _ => 0) 0 he⟩


/-! ## Nodes without owner in `Packet_getSize` -/

theorem nodeSize_of_owner_none (h : Heap) (a : Nat) (it : StackItem)
    (hit : h.getItem a = some it) (ho : it.owner = none) :
    nodeSize h a = some 0 ∧ hasOwner h a = false := by
  simp [nodeSize, hasOwner, hit, ho]

theorem nodeSize_of_owner_some (h : Heap) (a pa : Nat) (it : StackItem)
    (hit : h.getItem a = some it) (ho : it.owner = some pa) :
    nodeSize h a = layerSize h a ∧ hasOwner h a = true := by
  simp [nodeSize, layerSize, hasOwner, hit, ho]

/-- The contributions of the nodes to `Packet_getSize`, with 0 for each node
without owner, sum to the sizes of the layers of the other nodes. -/
theorem nodeSizes_of_layerSizes (h : Heap) (its : List Nat) : ∀ (p : Ptr) (sizes : List Nat),
    Seg h p its →
    List.Forall₂ (fun a n => layerSize h a = some n) (its.filter (hasOwner h)) sizes →
    ∃ sizes', List.Forall₂ (fun a n => nodeSize h a = some n) its sizes' ∧
      sizes'.sum = sizes.sum := by
  induction its with
  | nil =>
    intro p sizes _ hf
    cases hf
    exact ⟨[], List.Forall₂.nil, rfl⟩
  | cons a rest ih =>
    intro p sizes hs hf
    obtain ⟨_, it, hit, hr⟩ := hs
    cases ho : it.owner with
    | none =>
      obtain ⟨n0, hno⟩ := nodeSize_of_owner_none h a it hit ho
      rw [List.filter_cons_of_neg (by simp [hno])] at hf
      obtain ⟨sizes', f', e'⟩ := ih it.next sizes hr hf
      exact ⟨0 :: sizes', List.Forall₂.cons n0 f', by simp [e']⟩
    | some pa =>
      obtain ⟨n1, hyes⟩ := nodeSize_of_owner_some h a pa it hit ho
      rw [List.filter_cons_of_pos (by simp [hyes])] at hf
      cases hf with
      | cons hl hrest =>
        rename_i n ns
        obtain ⟨sizes', f', e'⟩ := ih it.next ns hr hrest
        exact ⟨n :: sizes', List.Forall₂.cons (by rw [n1]; exact hl) f', by simp [e']⟩

/-- C35 (as amended): for a Packet whose stack links the nodes `its` from
`bottom`, some of them without owner, `Packet_getSize` returns the sum of the
sizes of the layers that own the other nodes, the nodes without owner adding
nothing, when that sum is below `UINT_MOD`. -/
theorem C35_skips_ownerless (fuel : Nat) (h : Heap) (pa s : Nat) (st : Stack)
    (its sizes : List Nat) (hpk : h.getPacket pa = some ⟨some s⟩)
    (hst : h.getStack s = some st) (hseg : Seg h st.bottom its)
    (hsz : List.Forall₂ (fun a n => layerSize h a = some n) (its.filter (hasOwner h)) sizes)
    (hsum : sizes.sum < UINT_MOD) (hf : its.length < fuel) :
    Packet_getSize fuel h (some pa) = some sizes.sum := by
  obtain ⟨sizes', f', e'⟩ := nodeSizes_of_layerSizes h its st.bottom sizes hseg hsz
  simp only [Packet_getSize, hpk, Option.bind_eq_bind, Option.some_bind, hst]
  rw [Packet_getSize_loop_seg h its sizes' st.bottom fuel 0 hseg f' hf (by decide),
    Nat.zero_add, e', Nat.mod_eq_of_lt hsum]

/-- Witness of C35: in `layersChainHeap 2` the nodes 2 and 4 belong to Ethernet
layers and node 6 has no owner; the size is 28. -/
theorem C35_skips_ownerless_witness :
    hasOwner (layersChainHeap 2) 6 = false ∧
    Packet_getSize 4 (layersChainHeap 2) (some 0) = some ([14, 14] : List Nat).sum :=
  ⟨rfl, C35_skips_ownerless 4 (layersChainHeap 2) 0 1 _ [2, 4, 6] [14, 14] rfl rfl
    ⟨rfl, _, rfl, rfl, _, rfl, rfl, _, rfl, rfl⟩
    (List.Forall₂.cons rfl (List.Forall₂.cons rfl List.Forall₂.nil)) (by decide) (by decide)⟩


/-! ## A chain of layers with one node without owner -/

theorem layersChainHeap_getItem (n a : Nat) (he : a % 2 = 0) (h2 : 2 ≤ a)
    (hle : a ≤ 2 * n + 2) :
    (layersChainHeap n).getItem a = some ⟨if a = 2 then none else some (a - 2),
      if a = 2 * n + 2 then none else some (a + 2),
      if a = 2 * n + 2 then none else some (a + 1)⟩ := by
  have h0 : a ≠ 0 := by omega
  have h1 : a ≠ 1 := by omega
  have h3 : ¬ 2 * n + 2 < a := by omega
  have h4 : ¬ a % 2 = 1 := by omega
  simp [layersChainHeap, Heap.getItem, h0, h1, h3, h4]

theorem layersChainHeap_getProtocol (n a : Nat) (ho : a % 2 = 1) (h3 : 3 ≤ a)
    (hle : a ≤ 2 * n + 1) :
    (layersChainHeap n).getProtocol a = some ⟨some .EtherProto_getSize,
      some .EtherProto_getBitstream, some (a - 1), none⟩ := by
  have h0 : a ≠ 0 := by omega
  have h1 : a ≠ 1 := by omega
  have h2 : ¬ 2 * n + 2 < a := by omega
  simp [layersChainHeap, Heap.getProtocol, h0, h1, h2, ho]

theorem layersChainHeap_last (n : Nat) :
    hasOwner (layersChainHeap n) (2 * n + 2) = false := by
  have := layersChainHeap_getItem n (2 * n + 2) (by omega) (by omega) (le_refl _)
  simp [hasOwner, this]

theorem layersChainHeap_owned (n a : Nat) (he : a % 2 = 0) (h2 : 2 ≤ a)
    (hlt : a < 2 * n + 2) :
    hasOwner (layersChainHeap n) a = true ∧ layerSize (layersChainHeap n) a = some 14 := by
  have hi := layersChainHeap_getItem n a he h2 (by omega)
  have hne : a ≠ 2 * n + 2 := by omega
  have hp := layersChainHeap_getProtocol n (a + 1) (by omega) (by omega) (by omega)
  constructor
  · simp [hasOwner, hi, hne]
  · simp only [layerSize, hi, hne, if_false, Option.bind_eq_bind, Option.some_bind, hp]
    rfl

theorem layersChainHeap_chain (n : Nat) : ∀ k a, a % 2 = 0 → 2 ≤ a →
    a + 2 * k = 2 * n + 2 →
    Seg (layersChainHeap n) (some a) (List.range' a (k + 1) 2) ∧
    List.Forall₂ (fun b m => layerSize (layersChainHeap n) b = some m)
      ((List.range' a (k + 1) 2).filter (hasOwner (layersChainHeap n)))
      (List.replicate k 14) := by
  intro k
  induction k with
  | zero =>
    intro a he h2 hk
    have ha : a = 2 * n + 2 := by omega
    have hi := layersChainHeap_getItem n a he h2 (by omega)
    have hl := layersChainHeap_last n
    rw [← ha] at hl
    refine ⟨⟨rfl, _, hi, by simp [ha, Seg]⟩, ?_⟩
    simp [List.range', hl]
  | succ k ih =>
    intro a he h2 hk
    obtain ⟨s1, f1⟩ := ih (a + 2) (by omega) (by omega) (by omega)
    have hlt : a < 2 * n + 2 := by omega
    have hne : a ≠ 2 * n + 2 := by omega
    have hi := layersChainHeap_getItem n a he h2 (by omega)
    obtain ⟨o1, o2⟩ := layersChainHeap_owned n a he h2 hlt
    rw [List.range'_succ]
    refine ⟨⟨rfl, _, hi, by simpa [hne] using s1⟩, ?_⟩
    rw [List.filter_cons_of_pos (by simp [o1]), List.replicate_succ]
    exact List.Forall₂.cons o2 f1

/-- The size of the Packet of `layersChainHeap n`: the `n` Ethernet layers
give `14 * n`, reduced modulo `UINT_MOD`; the last node has no owner. -/
theorem layersChainHeap_getSize (n fuel : Nat) (hf : n + 1 < fuel) :
    ∃ st sizes, (layersChainHeap n).getPacket 0 = some ⟨some 1⟩ ∧
      (layersChainHeap n).getStack 1 = some st ∧
      Seg (layersChainHeap n) st.bottom (List.range' 2 (n + 1) 2) ∧
      List.Forall₂ (fun b m => layerSize (layersChainHeap n) b = some m)
        ((List.range' 2 (n + 1) 2).filter (hasOwner (layersChainHeap n))) sizes ∧
      (2 * n + 2) ∈ List.range' 2 (n + 1) 2 ∧
      hasOwner (layersChainHeap n) (2 * n + 2) = false ∧
      sizes.sum = 14 * n ∧
      Packet_getSize fuel (layersChainHeap n) (some 0) = some (14 * n % UINT_MOD) := by
  obtain ⟨s1, f1⟩ := layersChainHeap_chain n n 2 (by omega) (by omega) (by omega)
  have hpk : (layersChainHeap n).getPacket 0 = some ⟨some 1⟩ := by
    simp [layersChainHeap, Heap.getPacket]
  have hst : (layersChainHeap n).getStack 1 =
      some ⟨some 2, some (2 * n + 2), (n + 1) % UINT_MOD, some 0⟩ := by
    simp [layersChainHeap, Heap.getStack]
  have hsum : (List.replicate n 14).sum = 14 * n := by
    rw [List.sum_replicate, smul_eq_mul, Nat.mul_comm]
  obtain ⟨sizes', f', e'⟩ := nodeSizes_of_layerSizes _ _ (some 2) _ s1 f1
  refine ⟨_, List.replicate n 14, hpk, hst, s1, f1, ?_, layersChainHeap_last n, hsum, ?_⟩
  · rw [List.mem_range']
    exact ⟨n, by omega, by omega⟩
  · simp only [Packet_getSize, hpk, Option.bind_eq_bind, Option.some_bind, hst]
    rw [Packet_getSize_loop_seg _ _ sizes' (some 2) fuel 0 s1 f'
      (by rw [List.length_range']; exact hf) (by decide), Nat.zero_add, e', hsum]

/-- C35, counterexample to the claim as stated: `total_size` is an
`unsigned int`.  The stack of the Packet of `layersChainHeap 306783379` links
306783379 nodes owned by Ethernet layers and, last, node 613566760 without
owner.  The sizes of the layers sum to 4294967306, and `Packet_getSize`
returns 10. -/
theorem C35_sum_wraps :
    ∃ st sizes, (layersChainHeap 306783379).getPacket 0 = some ⟨some 1⟩ ∧
      (layersChainHeap 306783379).getStack 1 = some st ∧
      Seg (layersChainHeap 306783379) st.bottom (List.range' 2 306783380 2) ∧
      List.Forall₂ (fun b m => layerSize (layersChainHeap 306783379) b = some m)
        ((List.range' 2 306783380 2).filter (hasOwner (layersChainHeap 306783379)))
        sizes ∧
      613566760 ∈ List.range' 2 306783380 2 ∧
      hasOwner (layersChainHeap 306783379) 613566760 = false ∧
      sizes.sum = 4294967306 ∧
      Packet_getSize 306783381 (layersChainHeap 306783379) (some 0) = some 10 := by
  obtain ⟨st, sizes, h1, h2, h3, h4, h5, h6, h7, h8⟩ :=
    layersChainHeap_getSize 306783379 306783381 (by decide)
  exact ⟨st, sizes, h1, h2, h3, h4, h5, h6, h7, h8⟩

end Libpacket
